import Mathlib

/-!
# XConfig: the configuration parser `cparse_core.c` and its lookup

A shallow embedding of the string-backed parser of `src/cparse_core.c` and of
the serializer and the named insert of `src/xconfig.c`.

Conventions of the embedding.
* A C string is the list of its `char` values (as promoted to `int`) before the
  terminating NUL, so `strcmp(a, b) == 0` is equality of lists and `strlen` is
  `List.length`.  `EOF` is `-1`.
* Memory allocation is assumed to succeed.  The buffers of the parser are
  grown before the byte that needs the room is stored, so their growth and
  shrinking have no observable effect and are not represented.  The output
  buffer of `XConfig_Print` is tested by the macro `CHANGE_SZ` only after the
  `strcat` calls have written to it: it is represented with its `size` and
  `used_size`, and a call that writes outside the allocation gives `none`.
* Only the `P_STR` character source is modelled.
* `glb_err_buf`, the file-scope error buffer, is carried in the parser state.
* `line_num` only feeds the diagnostic `fprintf` and is not represented.
* A loop that consumes one byte per round is a structural recursion over the
  unread bytes and returns how many bytes it consumed.  A loop whose rounds call
  another scanner takes fuel: the loops of `skip_comments` and of
  `read_quoted_value` consume at least one byte per round and get one more round
  than there are unread bytes (`skip_comments_loop_done`, `read_quoted_loop_fuel`);
  the main loop of `cparse_load` can run forever, so `load_loop` returns `none`
  when its fuel runs out and the statements give the fuel that is enough.
-/

namespace XConfig

/-! ## Data model (`cparse_core.h`) -/

/-- A C string: the `char` values before the terminating NUL. -/
abbrev CStr := List Int

/-- The struct `ConfigEntry`; the `next` link is the list structure. -/
structure ConfigEntry where
  key : CStr
  value : CStr
  deriving DecidableEq, Repr

/-- The struct `ConfigSection`; `entries` is the linked list in stored order. -/
structure ConfigSection where
  name : CStr
  entries : List ConfigEntry
  deriving DecidableEq, Repr

/-- The struct `Config`.  The pointer `current_section` is the index of the
section it points to in `sections`, `none` for `NULL`. -/
structure Config where
  sections : List ConfigSection
  current_section : Option Nat
  entry_count : Nat
  section_count : Nat
  deriving DecidableEq, Repr

/-- The struct `CPState` for a string source, together with `glb_err_buf`. -/
structure CPState where
  str : CStr
  off : Int
  glb_err_buf : String
  deriving DecidableEq, Repr

/-- The constant `EOF`. -/
def EOF : Int := -1

/-- The predicate `isspace` in the C locale: space, `\t`, `\n`, `\v`, `\f`, `\r`. -/
def isspace (c : Int) : Bool := c == 32 || (decide (9 ≤ c) && decide (c ≤ 13))

/-- Char codes of a Lean string, for writing inputs. -/
def ofString (s : String) : CStr := s.toList.map (fun c => (c.toNat : Int))

/-! ## Configuration management -/

/-- The function `config_init`: `memset(config, 0, sizeof(Config))`. -/
def config_init : Config :=
  { sections := [], current_section := none, entry_count := 0, section_count := 0 }

/-- The function `config_add_section`: append a section named `name` at the end
of the list and make it current. -/
def config_add_section (config : Config) (name : CStr) : Config :=
  { sections := config.sections ++ [{ name := name, entries := [] }]
    current_section := some config.sections.length
    entry_count := config.entry_count
    section_count := config.section_count + 1 }

/-- Append `entry` at the end of the entry list of the section at index `i`. -/
def append_entry : List ConfigSection → Nat → ConfigEntry → List ConfigSection
  | [], _, _ => []
  | s :: ss, 0, e => { s with entries := s.entries ++ [e] } :: ss
  | s :: ss, i + 1, e => s :: append_entry ss i e

/-- The function `config_add_entry`: returns `0` and changes nothing when there
is no current section, else appends `(key, value)` to the current section. -/
def config_add_entry (config : Config) (key value : CStr) : Bool × Config :=
  match config.current_section with
  | none => (false, config)
  | some i =>
    (true, { config with
      sections := append_entry config.sections i { key := key, value := value }
      entry_count := config.entry_count + 1 })

/-! ## Configuration query -/

/-- The inner loop of `cparse_read`: first entry whose key equals `key`. -/
def find_entry (key : CStr) : List ConfigEntry → Option CStr
  | [] => none
  | e :: es => if e.key = key then some e.value else find_entry key es

/-- The outer loop of `cparse_read` over the section list. -/
def read_sections (section_name : Option CStr) (key : CStr) :
    List ConfigSection → Option CStr
  | [] => none
  | s :: ss =>
    match section_name with
    | some n =>
      if s.name ≠ n then read_sections section_name key ss
      else find_entry key s.entries
    | none =>
      match find_entry key s.entries with
      | some v => some v
      | none => read_sections section_name key ss

/-- The function `cparse_read`; `none` is the `NULL` result or `NULL` section. -/
def cparse_read (config : Config) (section_name : Option CStr) (key : CStr) :
    Option CStr :=
  read_sections section_name key config.sections

/-! ## Parser initialisation and error slot -/

/-- The function `cparse_set_error` for a message without format arguments. -/
def cparse_set_error (st : CPState) (msg : String) : CPState :=
  { st with glb_err_buf := msg }

/-- The function `cparse_init` with `from == P_STR` and a non-null string:
clears `glb_err_buf`, copies the string, sets the offset to zero. -/
def cparse_init (str : CStr) : CPState :=
  { str := str, off := 0, glb_err_buf := "" }

/-- The function `cparse_get_error` / `XConfig_GetError`. -/
def XConfig_GetError (st : CPState) : String := st.glb_err_buf

/-- The function `XConfig_HaveError`: `strlen(XConfig_GetError()) > 0`. -/
def XConfig_HaveError (st : CPState) : Bool := decide (0 < (XConfig_GetError st).length)

/-! ## Character input -/

/-- The unread bytes `str[off ..]`; empty when `off` is negative (the
comparison `st->off >= strlen(st->str)` is unsigned) or past the end. -/
def CPState.rest (st : CPState) : CStr :=
  if st.off < 0 then [] else st.str.drop st.off.toNat

/-- Move the offset forward by `n` bytes (`n` calls of `cparse_getc` that each
returned a byte). -/
def CPState.advance (st : CPState) (n : Nat) : CPState :=
  { st with off := st.off + n }

/-- The function `cparse_getc` for a string source. -/
def cparse_getc (st : CPState) : Int × CPState :=
  match st.rest with
  | [] => (EOF, st)
  | ch :: _ => (ch, { st with off := st.off + 1 })

/-- The function `cparse_peek`: `cparse_getc` with the offset restored. -/
def cparse_peek (st : CPState) : Int := (cparse_getc st).1

/-! ## Parser utilities -/

/-- Loop of `skip_whitespace` over the unread bytes: how many are consumed. -/
def skip_whitespace_n : CStr → Nat
  | [] => 0
  | ch :: l =>
    if ch ≠ EOF ∧ isspace ch = true ∧ ch ≠ 10 then skip_whitespace_n l + 1 else 0

/-- The function `skip_whitespace`. -/
def skip_whitespace (st : CPState) : CPState :=
  st.advance (skip_whitespace_n st.rest)

/-- The loop `while ((ch = cparse_getc(st)) != EOF && ch != 10)`: how many
bytes it consumes (the terminating byte included). -/
def skip_line_n : CStr → Nat
  | [] => 0
  | ch :: l => if ch ≠ EOF ∧ ch ≠ 10 then skip_line_n l + 1 else 1

/-- The function `skip_comments`: skips one blank or comment line. -/
def skip_comments (st : CPState) : Bool × CPState :=
  let st1 := skip_whitespace st
  let ch := cparse_peek st1
  if ch = 10 then (true, (cparse_getc st1).2)
  else if ch = 35 ∨ ch = 59 then (true, st1.advance (skip_line_n st1.rest))
  else (false, st1)

/-- The loop `while (skip_comments(st))`, with fuel. -/
def skip_comments_loop : Nat → CPState → CPState
  | 0, st => st
  | n + 1, st =>
    match skip_comments st with
    | (true, st1) => skip_comments_loop n st1
    | (false, st1) => st1

/-- The loop `while (skip_comments(st))`: every iteration that continues
consumes a byte, so one more round than unread bytes is enough fuel. -/
def skip_all_comments (st : CPState) : CPState :=
  skip_comments_loop (st.rest.length + 1) st

/-- Trailing-whitespace trim: `while (pos > 0 && isspace(buffer[pos - 1])) pos--`. -/
def rtrim (buffer : CStr) : CStr := (buffer.reverse.dropWhile isspace).reverse

/-! ## Value reading -/

/-- Loop of `read_simple_value`: the bytes accumulated up to end of input,
newline, `#` or `;` (each is also consumed). -/
def read_simple_scan : CStr → CStr
  | [] => []
  | ch :: l =>
    if ch ≠ EOF ∧ ch ≠ 10 ∧ ch ≠ 35 ∧ ch ≠ 59 then ch :: read_simple_scan l else []

/-- The function `read_simple_value`. -/
def read_simple_value (st : CPState) : CStr × CPState :=
  let buffer := read_simple_scan st.rest
  (rtrim buffer, st.advance buffer.length)

/-- The `switch` of `read_quoted_value` on an escaped byte. -/
def unescape (ch : Int) : Int :=
  if ch = 110 then 10
  else if ch = 116 then 9
  else if ch = 114 then 13
  else if ch = 92 then 92
  else if ch = 34 then 34
  else if ch = 39 then 39
  else ch

/-- The main loop of `read_quoted_value`, with fuel; the arguments after the
state are `buffer` and `escape`.  Returns the last `ch` read, the buffer and the
state.  The tests come in the order of the source: end of input, then (outside
an escape) backslash and closing quote; every other byte, decoded by `unescape`
when `escape` is set, is stored and then tested for the multiline join. -/
def read_quoted_loop (quote_char : Int) : Nat → CPState → CStr → Bool → Int × CStr × CPState
  | 0, st, buffer, _ => (EOF, buffer, st)
  | n + 1, st, buffer, escape =>
    let (ch0, st1) := cparse_getc st
    if ch0 = EOF then (ch0, buffer, st1)
    else if escape = false ∧ ch0 = 92 then read_quoted_loop quote_char n st1 buffer true
    else if escape = false ∧ ch0 = quote_char then (ch0, buffer, st1)
    else
      let ch := if escape then unescape ch0 else ch0
      let buffer1 := buffer ++ [ch]
      if ch = 10 then
        let st2 := skip_whitespace st1
        let next_ch := cparse_peek st2
        if next_ch ≠ quote_char ∧ next_ch ≠ 10 ∧ next_ch ≠ 35 ∧ next_ch ≠ 59 ∧ next_ch ≠ 91 then
          read_quoted_loop quote_char n st2 (buffer1 ++ [32]) false
        else read_quoted_loop quote_char n st2 buffer1 false
      else read_quoted_loop quote_char n st1 buffer1 false

/-- The function `read_quoted_value`; `none` is the `NULL` result.  Every round of
the loop consumes a byte, so one more round than unread bytes is enough fuel. -/
def read_quoted_value (st : CPState) (quote_char : Int) : Option CStr × CPState :=
  let st1 := (cparse_getc st).2
  match read_quoted_loop quote_char (st1.rest.length + 1) st1 [] false with
  | (ch, buffer, st2) =>
    if ch ≠ quote_char then (none, cparse_set_error st2 "Unclosed quote")
    else (some buffer, st2)

/-- The function `read_value`. -/
def read_value (st : CPState) : Option CStr × CPState :=
  let st1 := skip_whitespace st
  let ch := cparse_peek st1
  if ch = 34 ∨ ch = 39 then read_quoted_value st1 ch
  else
    let r := read_simple_value st1
    (some r.1, r.2)

/-! ## Key reading -/

/-- Loop of `read_key` over the unread bytes, from the flags `in_quotes` and
`quote_char`: the buffer, the number of bytes consumed, the final `in_quotes`. -/
def read_key_scan : CStr → Bool → Int → CStr × Nat × Bool
  | [], in_quotes, _ => ([], 0, in_quotes)
  | ch :: l, in_quotes, quote_char =>
    if ch = EOF then ([], 0, in_quotes)
    else if ch = 61 ∧ in_quotes = false then ([], 0, in_quotes)
    else if isspace ch = true ∧ in_quotes = false then ([], 0, in_quotes)
    else if ch = 10 then ([], 0, in_quotes)
    else if (ch = 34 ∨ ch = 39) ∧ in_quotes = false then
      let r := read_key_scan l true ch
      (r.1, r.2.1 + 1, r.2.2)
    else if ch = quote_char ∧ in_quotes = true then
      let r := read_key_scan l false quote_char
      (r.1, r.2.1 + 1, r.2.2)
    else
      let r := read_key_scan l in_quotes quote_char
      (ch :: r.1, r.2.1 + 1, r.2.2)

/-- The function `read_key`; `none` is the `NULL` result. -/
def read_key (st : CPState) : Option CStr × CPState :=
  let st1 := skip_whitespace st
  let r := read_key_scan st1.rest false 0
  let st2 := st1.advance r.2.1
  if r.2.2 = true then (none, cparse_set_error st2 "Unclosed quotes in key")
  else (some (rtrim r.1), st2)

/-! ## Section reading -/

/-- The name loop of `read_section`, `while ((ch = cparse_getc(st)) != EOF &&
ch != 93 && ch != 10)`: the buffer, the bytes consumed, the last `ch`. -/
def read_section_scan : CStr → CStr × Nat × Int
  | [] => ([], 0, EOF)
  | ch :: l =>
    if ch ≠ EOF ∧ ch ≠ 93 ∧ ch ≠ 10 then
      let r := read_section_scan l
      (ch :: r.1, r.2.1 + 1, r.2.2)
    else ([], 1, ch)

/-- The function `read_section`; `none` is the `NULL` result.  When the byte
read is not `[` the offset is decremented, also when nothing was read. -/
def read_section (st : CPState) : Option CStr × CPState :=
  let st1 := skip_whitespace st
  let (ch, st2) := cparse_getc st1
  if ch ≠ 91 then (none, { st2 with off := st2.off - 1 })
  else
    let r := read_section_scan st2.rest
    let st3 := st2.advance r.2.1
    if r.2.2 ≠ 93 then (none, cparse_set_error st3 "Missing \x27]\x27 in section header")
    else
      let st4 := st3.advance (skip_line_n st3.rest)
      (some (rtrim r.1), st4)

/-! ## Entry parsing -/

/-- The loop `while ((ch = cparse_peek(st)) != EOF && ch != 10) cparse_getc(st)`
at the end of `parse_config_entry`: how many bytes it consumes. -/
def skip_to_eol_n : CStr → Nat
  | [] => 0
  | ch :: l => if ch ≠ EOF ∧ ch ≠ 10 then skip_to_eol_n l + 1 else 0

/-- The function `parse_config_entry`: the result flag, the state, the
configuration. -/
def parse_config_entry (st : CPState) (config : Config) : Bool × CPState × Config :=
  let st1 := skip_all_comments st
  let st2 := skip_whitespace st1
  let ch := cparse_peek st2
  if ch = EOF then (false, st2, config)
  else if ch = 91 then (false, st2, config)
  else
    match read_key st2 with
    | (none, st3) => (false, st3, config)
    | (some key, st3) =>
      let st4 := skip_whitespace st3
      let (ch1, st5) := cparse_getc st4
      if ch1 ≠ 61 then (false, cparse_set_error st5 "Expected \x27=\x27 after key", config)
      else
        match read_value st5 with
        | (none, st6) => (false, st6, config)
        | (some value, st6) =>
          match config_add_entry config key value with
          | (false, config1) =>
            (false, cparse_set_error st6 "Failed to add configuration entry", config1)
          | (true, config1) =>
            let st7 := st6.advance (skip_to_eol_n st6.rest)
            let st8 := if cparse_peek st7 = 10 then (cparse_getc st7).2 else st7
            (true, st8, config1)

/-! ## Main parser -/

/-- The `while (1)` loop of `cparse_load`, with fuel; `none` when the fuel runs
out before the loop reaches its `break`. -/
def load_loop : Nat → CPState → Config → Option (Config × CPState)
  | 0, _, _ => none
  | n + 1, st, config =>
    let st1 := skip_all_comments st
    match read_section st1 with
    | (some section_name, st2) => load_loop n st2 (config_add_section config section_name)
    | (none, st2) =>
      match parse_config_entry st2 config with
      | (true, st3, config1) => load_loop n st3 config1
      | (false, st3, config1) =>
        if cparse_peek st3 = EOF then some (config1, st3)
        else if 0 < st3.glb_err_buf.length then
          let st4 := { st3 with glb_err_buf := "" }
          load_loop n (st4.advance (skip_line_n st4.rest)) config1
        else load_loop n st3 config1

/-- The function `cparse_load`: creates the default section named by the empty
string, then runs the main loop. -/
def cparse_load (fuel : Nat) (st : CPState) : Option (Config × CPState) :=
  load_loop fuel st (config_add_section config_init [])

/-- The call sequence of `XConfig_ParseString`: `cparse_init` then `cparse_load`. -/
def parse (fuel : Nat) (text : CStr) : Option (Config × CPState) :=
  cparse_load fuel (cparse_init text)


/-! ## The handle, the serializer and the named insert (`xconfig.c`) -/

set_option linter.dupNamespace false in
/-- The struct `XConfig`: a parser state and the configuration `config` points to. -/
structure XConfig where
  parser : CPState
  config : Config
  deriving DecidableEq, Repr

/-- The constant `INITIAL_BUF`: the size in bytes of the buffer that
`XConfig_Print` allocates first. -/
def INITIAL_BUF : Nat := 1024

/-- The macro `CHANGE_SZ`: the value of `size` after it.  The buffer is doubled,
once, when `used_size` has passed `size`. -/
def CHANGE_SZ (size used_size : Nat) : Nat :=
  if used_size > size then size * 2 else size

/-- A call `strcat(ret_buf, src)` on a buffer of `size` bytes that holds the
string `ret_buf`: the longer string, or `none` when its bytes and the
terminating NUL do not fit in the `size` bytes, in which case the call writes
outside the allocation. -/
def strcat (size : Nat) (ret_buf src : CStr) : Option CStr :=
  if ret_buf.length + src.length + 1 ≤ size then some (ret_buf ++ src) else none

/-- The entry loop of `XConfig_Print` from the buffer, `size` and `used_size`:
after `CHANGE_SZ` the four `strcat` calls append the key, the four bytes ` = "`,
the value, a quote and a newline, and `used_size` grows by the two lengths
plus six. -/
def print_entries : List ConfigEntry → CStr → Nat → Nat → Option (CStr × Nat × Nat)
  | [], ret_buf, size, used_size => some (ret_buf, size, used_size)
  | ce :: rest, ret_buf, size, used_size =>
    let size1 := CHANGE_SZ size used_size
    (strcat size1 ret_buf ce.key).bind fun b1 =>
    (strcat size1 b1 [32, 61, 32, 34]).bind fun b2 =>
    (strcat size1 b2 ce.value).bind fun b3 =>
    (strcat size1 b3 [34, 10]).bind fun b4 =>
    print_entries rest b4 size1 (used_size + (ce.value.length + ce.key.length + 6))

/-- The section loop of `XConfig_Print`: after `CHANGE_SZ`, a section whose name
is empty is skipped as a whole (`continue`); for any other one the header is
appended (three bytes more than the name, of which `used_size` counts two),
then `CHANGE_SZ`, the entries, and a newline. -/
def print_sections : List ConfigSection → CStr → Nat → Nat → Option (CStr × Nat × Nat)
  | [], ret_buf, size, used_size => some (ret_buf, size, used_size)
  | cs :: rest, ret_buf, size, used_size =>
    let size1 := CHANGE_SZ size used_size
    if cs.name.length ≤ 0 then print_sections rest ret_buf size1 used_size
    else
      (strcat size1 ret_buf [91]).bind fun b1 =>
      (strcat size1 b1 cs.name).bind fun b2 =>
      (strcat size1 b2 [93, 10]).bind fun b3 =>
      (print_entries cs.entries b3 (CHANGE_SZ size1 (used_size + (cs.name.length + 2)))
        (used_size + (cs.name.length + 2))).bind fun r =>
      (strcat r.2.1 r.1 [10]).bind fun b4 =>
      print_sections rest b4 r.2.1 (r.2.2 + 1)

/-- The function `XConfig_Print`.  Without any section the empty buffer is
returned at once.  Otherwise the sections are written to a buffer of
`INITIAL_BUF` bytes and the last byte of the text is removed.  The result is
`none` when a write falls outside the buffer: a `strcat` call for which the
buffer is too small, or `ret_buf[strlen(ret_buf) - 1]` when the buffer is still
empty at the end. -/
def XConfig_Print (xc : XConfig) : Option CStr :=
  match xc.config.sections with
  | [] => some []
  | cs :: rest =>
    (print_sections (cs :: rest) [] INITIAL_BUF 0).bind fun r =>
    if r.1.length = 0 then none else some r.1.dropLast

/-- The loop of `XConfig_IsKeyAdded`: entries whose key differs from `key` are
passed over, the first other entry ends the loop with `found`. -/
def is_key_added_loop (key : CStr) : List ConfigEntry → Bool
  | [] => false
  | ce :: rest => if key ≠ ce.key then is_key_added_loop key rest else true

/-- The function `XConfig_IsKeyAdded` on a non-null section. -/
def XConfig_IsKeyAdded (css : ConfigSection) (key : CStr) : Bool :=
  match css.entries with
  | [] => false
  | ce :: rest => is_key_added_loop key (ce :: rest)

/-- The section loop of `XConfig_AddKeyValue` from the section at index `i`:
the first section that matches `section_name` (any section when it is `NULL`)
is tested with `XConfig_IsKeyAdded(current_section, "key")`, made current and
given the entry.  The result is the returned flag and the handle. -/
def add_key_value_loop (xc : XConfig) (section_name : Option CStr) (key name : CStr) :
    List ConfigSection → Nat → Bool × XConfig
  | [], _ => (false, { xc with parser := cparse_set_error xc.parser "Section not found" })
  | cs :: rest, i =>
    if section_name.isSome = true ∧ some cs.name ≠ section_name then
      add_key_value_loop xc section_name key name rest (i + 1)
    else if XConfig_IsKeyAdded cs [107, 101, 121] = true then
      (false, { xc with parser := cparse_set_error xc.parser "The key had already added" })
    else
      (true, { xc with
        config := (config_add_entry { xc.config with current_section := some i } key name).2 })

/-- The function `XConfig_AddKeyValue`; the parameter `name` is the value. -/
def XConfig_AddKeyValue (xc : XConfig) (section_name : Option CStr) (key name : CStr) :
    Bool × XConfig :=
  add_key_value_loop xc section_name key name xc.config.sections 0

/-! ## Input classes used in the statements -/


/-- ASCII bytes that can occur in a C string: 1 to 127. -/
def is_ascii (c : Int) : Bool := decide (0 < c) && decide (c < 128)

/-- A space or a tab. -/
def is_blank (c : Int) : Bool := c == 32 || c == 9

/-- A byte of a plain key: ASCII, not whitespace, not `=`, not a quote. -/
def is_key_char (c : Int) : Bool :=
  is_ascii c && !isspace c && c != 61 && c != 34 && c != 39

/-- A byte of a simple value: ASCII, not newline, not `#`, not `;`. -/
def is_value_char (c : Int) : Bool :=
  is_ascii c && c != 10 && c != 35 && c != 59

/-- A byte of the rest of a line: ASCII and not newline. -/
def is_line_char (c : Int) : Bool := is_ascii c && c != 10

/-- A plain key: non-empty, made of key bytes, not starting with `[`, `#`, `;`. -/
def plain_key (k : CStr) : Prop :=
  (∀ c ∈ k, is_key_char c = true) ∧
  ∃ c l, k = c :: l ∧ c ≠ 91 ∧ c ≠ 35 ∧ c ≠ 59

/-- The string does not end with a whitespace byte. -/
def no_trailing_space (v : CStr) : Prop :=
  ∀ c ∈ v.getLast?, isspace c = false

/-- A simple value: made of value bytes, not starting with a quote or with
whitespace, not ending with whitespace; possibly empty. -/
def simple_value (v : CStr) : Prop :=
  (∀ c ∈ v, is_value_char c = true) ∧
  (∀ c ∈ v.head?, c ≠ 34 ∧ c ≠ 39 ∧ isspace c = false) ∧
  no_trailing_space v

/-- An optional comment up to the end of the line: empty, or `#` or `;`
followed by bytes other than newline. -/
def line_comment (cmt : CStr) : Prop :=
  (∀ c ∈ cmt, is_line_char c = true) ∧
  (∀ c ∈ cmt.head?, c = 35 ∨ c = 59)

instance (v : CStr) : Decidable (no_trailing_space v) := by
  unfold no_trailing_space
  infer_instance

instance (v : CStr) : Decidable (simple_value v) := by
  unfold simple_value
  infer_instance

instance (cmt : CStr) : Decidable (line_comment cmt) := by
  unfold line_comment
  infer_instance

instance (k : CStr) : Decidable (plain_key k) :=
  match k with
  | [] => isFalse (by rintro ⟨_, c, l, h, _⟩; cases h)
  | c :: l =>
    if h : (∀ x ∈ c :: l, is_key_char x = true) ∧ c ≠ 91 ∧ c ≠ 35 ∧ c ≠ 59 then
      isTrue ⟨h.1, c, l, rfl, h.2⟩
    else isFalse (by
      rintro ⟨h1, c2, l2, h2, h3⟩
      cases h2
      exact h ⟨h1, h3⟩)

/-- A letter or a digit. -/
def is_alnum (c : Int) : Bool :=
  (decide (48 ≤ c) && decide (c ≤ 57)) || (decide (65 ≤ c) && decide (c ≤ 90)) ||
    (decide (97 ≤ c) && decide (c ≤ 122))

/-- A non-empty string of letters and digits. -/
def alnum_word (w : CStr) : Prop := w ≠ [] ∧ ∀ c ∈ w, is_alnum c = true

instance (w : CStr) : Decidable (alnum_word w) := by
  unfold alnum_word
  infer_instance

/-- The text of an entry line without its newline: blanks, key, blanks, `=`,
blanks, value, blanks, rest of the line. -/
def entry_line (ws1 k ws2 ws3 v ws4 cmt : CStr) : CStr :=
  ws1 ++ (k ++ (ws2 ++ 61 :: (ws3 ++ (v ++ (ws4 ++ cmt)))))

/-- The text of a section header line without its newline: blanks, `[`, name,
`]`, rest of the line. -/
def header_line (ws name junk : CStr) : CStr :=
  ws ++ 91 :: (name ++ 93 :: junk)

/-! ## Auxiliary notions used in the proofs -/

/-- The parser state over the string `s` at the non-negative offset `n` with
error buffer `e`. -/
def pst (s : CStr) (n : Nat) (e : String) : CPState :=
  { str := s, off := (n : Int), glb_err_buf := e }

/-- A byte that can start an entry line: ASCII, not whitespace, not `#`, `;`, `[`. -/
def is_entry_start (c : Int) : Bool :=
  is_ascii c && !isspace c && c != 35 && c != 59 && c != 91

/-- A place where an unquoted key ends: end of input, `=` or whitespace. -/
def key_stop (r : CStr) : Prop :=
  r = [] ∨ ∃ c t, r = c :: t ∧ (c = 61 ∨ isspace c = true)

/-- A place where a simple value ends: end of input, newline, `#` or `;`. -/
def value_stop (r : CStr) : Prop :=
  r = [] ∨ ∃ c t, r = c :: t ∧ (c = 10 ∨ c = 35 ∨ c = 59)

/-- A plain byte of a double-quoted body: ASCII, not `"`, not backslash, not
newline. -/
def is_plain_char (c : Int) : Bool := is_ascii c && c != 34 && c != 92 && c != 10

/-- A byte of an unclosed double-quoted body: ASCII, not `"`, not backslash;
newlines are allowed. -/
def is_open_char (c : Int) : Bool := is_ascii c && c != 34 && c != 92

/-- A byte of a section name: ASCII, not `]`, not newline. -/
def is_name_char (c : Int) : Bool := is_ascii c && c != 93 && c != 10

/-- The configuration that `cparse_load` starts from: the default section. -/
def config_start : Config :=
  { sections := [{ name := [], entries := [] }], current_section := some 0,
    entry_count := 0, section_count := 1 }

/-- The text of one entry as the serializer is specified to write it:
`key = "value"` and a newline. -/
def entry_text (e : ConfigEntry) : CStr :=
  e.key ++ [32, 61, 32, 34] ++ e.value ++ [34, 10]

/-- The text of one section as the serializer is specified to write it: the
header line, the entry lines, and a blank line. -/
def section_text (sec : ConfigSection) : CStr :=
  [91] ++ sec.name ++ [93, 10] ++ (sec.entries.map entry_text).flatten ++ [10]

/-- The sections whose name is not empty, in stored order. -/
def named_sections (ss : List ConfigSection) : List ConfigSection :=
  ss.filter (fun sec => decide (sec.name ≠ []))

/-- The specified serializer text before the final newline is removed: the
texts of the named sections in stored order. -/
def print_spec (ss : List ConfigSection) : CStr :=
  ((named_sections ss).map section_text).flatten

/-- The encoding `E(v)` of a value for a double-quoted literal: a backslash is
written before every backslash and before every double quote. -/
def escape_value : CStr → CStr
  | [] => []
  | c :: l =>
    (if c = 92 then [92, 92] else if c = 34 then [92, 34] else [c]) ++ escape_value l

/-- The (section name, key, value) triples of a configuration, in stored order. -/
def triples (c : Config) : List (CStr × CStr × CStr) :=
  (c.sections.map (fun sec => sec.entries.map (fun e => (sec.name, e.key, e.value)))).flatten

/-- An entry that the serializer writes in a form the parser reads back: a
plain key and a value of plain bytes (no `"`, no backslash, no newline). -/
def good_entry (e : ConfigEntry) : Prop :=
  plain_key e.key ∧ ∀ c ∈ e.value, is_plain_char c = true

/-- A named section that the serializer writes in a form the parser reads
back: a non-empty name without `]`, newline and trailing whitespace, and
entries that are all `good_entry`. -/
def good_section (sec : ConfigSection) : Prop :=
  sec.name ≠ [] ∧ (∀ c ∈ sec.name, is_name_char c = true) ∧ no_trailing_space sec.name ∧
    ∀ e ∈ sec.entries, good_entry e

/-- A section list that survives printing and parsing: every section with an
empty name has no entry, every other section is a `good_section`, and there is
at least one section with a non-empty name. -/
def printable (ss : List ConfigSection) : Prop :=
  (∀ sec ∈ ss, (sec.name = [] ∧ sec.entries = []) ∨ good_section sec) ∧
    ∃ sec ∈ ss, sec.name ≠ []

instance (e : ConfigEntry) : Decidable (good_entry e) := by
  unfold good_entry
  infer_instance

instance (sec : ConfigSection) : Decidable (good_section sec) := by
  unfold good_section
  infer_instance

instance (ss : List ConfigSection) : Decidable (printable ss) := by
  unfold printable
  infer_instance

/-- The text of a section without the blank line that follows it. -/
def block_text (sec : ConfigSection) : CStr :=
  [91] ++ sec.name ++ [93, 10] ++ (sec.entries.map entry_text).flatten

/-- The text of further sections, each one after the newline of the blank line
that ends the section before it. -/
def joined_text : List ConfigSection → CStr
  | [] => []
  | sec :: rest => 10 :: (block_text sec ++ joined_text rest)

/-- The configuration after `config_add_entry` for each entry of a list. -/
def add_entries (c : Config) (es : List ConfigEntry) : Config :=
  es.foldl (fun c e => (config_add_entry c e.key e.value).2) c

/-- The configuration after `config_add_section` and `config_add_entry` calls
for each section of a list and its entries. -/
def build_config (c : Config) (ss : List ConfigSection) : Config :=
  ss.foldl (fun c sec => add_entries (config_add_section c sec.name) sec.entries) c

/-- The rounds of the main loop on the text of a section list: one for each
named section, one for each of its entries, and the last one. -/
def load_rounds (ss : List ConfigSection) : Nat :=
  ((named_sections ss).map (fun sec => sec.entries.length + 1)).sum + 1

/-- A printable ASCII byte (32 to 126) other than `"` and backslash. -/
def is_print_char (c : Int) : Bool :=
  decide (32 ≤ c) && decide (c ≤ 126) && c != 34 && c != 92

/-- A section whose name and keys are non-empty strings of letters and digits
and whose values are made of printable bytes other than `"` and backslash. -/
def plain_section (sec : ConfigSection) : Prop :=
  alnum_word sec.name ∧
    ∀ e ∈ sec.entries, alnum_word e.key ∧ ∀ c ∈ e.value, is_print_char c = true

/-- A section list made of an empty default section followed by one or more
sections that are all `plain_section`. -/
def plain_sections (ss : List ConfigSection) : Prop :=
  ss.head? = some { name := [], entries := [] } ∧ ss.tail ≠ [] ∧
    ∀ sec ∈ ss.tail, plain_section sec

instance (sec : ConfigSection) : Decidable (plain_section sec) := by
  unfold plain_section
  infer_instance

instance (ss : List ConfigSection) : Decidable (plain_sections ss) := by
  unfold plain_sections
  infer_instance

/-- A byte of a key written between double quotes: ASCII, not `"`, not newline. -/
def is_quoted_key_char (c : Int) : Bool := is_ascii c && c != 34 && c != 10

/-- A call of one of the two functions that extend a configuration. -/
inductive ConfigCall where
  | add_section (name : CStr)
  | add_entry (key value : CStr)
  deriving DecidableEq, Repr

/-- The configuration after one call: `config_add_section(c, name)` or
`config_add_entry(c, key, value)`, whatever the latter returns. -/
def apply_call (c : Config) : ConfigCall → Config
  | ConfigCall.add_section name => config_add_section c name
  | ConfigCall.add_entry key value => (config_add_entry c key value).2

/-- The configuration after a sequence of calls, in order. -/
def apply_calls (c : Config) (calls : List ConfigCall) : Config :=
  calls.foldl apply_call c

/-- The current section, if any, is the last one of the list; there is none
exactly when the list is empty. -/
def current_is_last (c : Config) : Prop :=
  (c.sections = [] ∧ c.current_section = none) ∨
    (c.sections ≠ [] ∧ c.current_section = some (c.sections.length - 1))

/-- A handle used as an instance: the default section and the section `s`
holding the key `k` with the value `v`. -/
def one_entry_handle (v : CStr) : XConfig :=
  { parser := cparse_init [],
    config :=
      { sections :=
          [{ name := [], entries := [] },
           { name := [115], entries := [{ key := [107], value := v }] }],
        current_section := some 1, entry_count := 1, section_count := 2 } }

/-- A handle used as an instance: an empty default section and the section `s`
holding `(a, 1 2)` and `(b, #x)`. -/
def example_handle : XConfig :=
  { parser := cparse_init [],
    config :=
      { sections :=
          [{ name := [], entries := [] },
           { name := ofString "s",
             entries := [{ key := [97], value := ofString "1 2" },
               { key := [98], value := ofString "#x" }] }],
        current_section := some 1, entry_count := 2, section_count := 2 } }

/-! ## The stored form of a printed configuration -/

/-- Whitespace that `skip_whitespace` skips: an `isspace` byte other than newline. -/
def is_hspace (c : Int) : Bool := isspace c && c != 10

/-- What the parser stores for a section whose header was printed from `name`:
the bytes before the first `]`, without trailing whitespace. -/
def reparse_name (name : CStr) : CStr := rtrim (name.takeWhile (fun c => c != 93))

/-- What the loop of `read_quoted_value` stores for a body without quote and
backslash.  The flag tells that the bytes read last are a newline and
whitespace: that whitespace is dropped, and the next byte is stored after one
space, unless it is a newline, `#`, `;` or `[`, or the body ends there. -/
def join_lines : Bool → CStr → CStr
  | _, [] => []
  | false, c :: l => if c = 10 then 10 :: join_lines true l else c :: join_lines false l
  | true, c :: l =>
    if is_hspace c = true then join_lines true l
    else if c = 10 then 10 :: join_lines true l
    else if c = 35 ∨ c = 59 ∨ c = 91 then c :: join_lines false l
    else 32 :: c :: join_lines false l

/-- What the parser stores for a value printed between double quotes: the
bytes before the first `"`, with the lines joined by `join_lines`. -/
def reparse_value (v : CStr) : CStr := join_lines false (v.takeWhile (fun c => c != 34))

/-- The first word of a key: the bytes after the leading whitespace, up to the
next whitespace. -/
def key_word (k : CStr) : CStr :=
  (k.dropWhile is_hspace).takeWhile (fun c => !isspace c)

/-- What follows the first word of a key and the whitespace after it. -/
def key_rest (k : CStr) : CStr :=
  ((k.dropWhile is_hspace).dropWhile (fun c => !isspace c)).dropWhile is_hspace

/-- What the parser makes of the key of a printed entry line: the line is a
comment when the first word starts with `#` or `;`, it is rejected when a second
word comes before the `=`, and otherwise the key is the first word (the empty
key when there is none). -/
def reparse_key (k : CStr) : Option CStr :=
  match key_word k with
  | [] => some []
  | c :: w =>
    if c = 35 ∨ c = 59 then none
    else if key_rest k = [] then some (c :: w) else none

/-- The entry that the parser stores for a printed entry, if any. -/
def reparse_entry (e : ConfigEntry) : Option ConfigEntry :=
  match reparse_key e.key with
  | none => none
  | some k => some { key := k, value := reparse_value e.value }

/-- The section that the parser stores for a printed section. -/
def reparse_section (sec : ConfigSection) : ConfigSection :=
  { name := reparse_name sec.name, entries := sec.entries.filterMap reparse_entry }

/-- The sections that the parser stores for the printed text of a section
list, after the default section. -/
def reparse (ss : List ConfigSection) : List ConfigSection :=
  (named_sections ss).map reparse_section

/-- A byte allowed in the keys of a `reprintable` configuration: ASCII, not
newline, not `=`, not a quote. -/
def is_rekey_char (c : Int) : Bool :=
  is_ascii c && c != 10 && c != 61 && c != 34 && c != 39

/-- An entry whose printed line is read back to an entry that prints to a line
read back to itself: the key has no newline, `=` or quote and its first word
does not start with `[`; the value has no backslash; and a value with a newline
has no `"` and stands after a key that the parser keeps. -/
def reprintable_entry (e : ConfigEntry) : Prop :=
  (∀ c ∈ e.key, is_rekey_char c = true) ∧
  (∀ c ∈ (key_word e.key).head?, c ≠ 91) ∧
  (∀ c ∈ e.value, is_ascii c = true ∧ c ≠ 92) ∧
  (10 ∈ e.value → 34 ∉ e.value ∧ (reparse_key e.key).isSome = true)

/-- A named section of a `reprintable` configuration: the name has no newline
and a byte other than whitespace before its first `]`, and the entries are
`reprintable_entry`. -/
def reprintable_section (sec : ConfigSection) : Prop :=
  (∀ c ∈ sec.name, is_line_char c = true) ∧ reparse_name sec.name ≠ [] ∧
    ∀ e ∈ sec.entries, reprintable_entry e

/-- A section list for which printing and parsing is idempotent: every section
with a non-empty name is a `reprintable_section`, and there is one. -/
def reprintable (ss : List ConfigSection) : Prop :=
  (∀ sec ∈ ss, sec.name ≠ [] → reprintable_section sec) ∧ ∃ sec ∈ ss, sec.name ≠ []

instance (e : ConfigEntry) : Decidable (reprintable_entry e) := by
  unfold reprintable_entry
  infer_instance

instance (sec : ConfigSection) : Decidable (reprintable_section sec) := by
  unfold reprintable_section
  infer_instance

instance (ss : List ConfigSection) : Decidable (reprintable ss) := by
  unfold reprintable
  infer_instance

/-- The configuration after the entry that the parser stores for a printed
entry, if any, was added. -/
def add_reparsed (c : Config) (e : ConfigEntry) : Config :=
  match reparse_entry e with
  | none => c
  | some e1 => (config_add_entry c e1.key e1.value).2

/-- From the offset `n` and the configuration `c`, with an empty error buffer,
the main loop comes to the offset `n1` and the configuration `c1`, again with an
empty error buffer, in at most `r` rounds. -/
def reaches (s : CStr) (n : Nat) (c : Config) (n1 : Nat) (c1 : Config) (r : Nat) : Prop :=
  ∃ k, k ≤ r ∧ ∀ fuel,
    load_loop (fuel + k + 1) (pst s n "") c = load_loop (fuel + 1) (pst s n1 "") c1

/-- A handle used as an instance: the default section and the section `name`
holding the key `key` with the value `value`. -/
def entry_handle (name key value : CStr) : XConfig :=
  { parser := cparse_init [],
    config :=
      { sections :=
          [{ name := [], entries := [] },
           { name := name, entries := [{ key := key, value := value }] }],
        current_section := some 1, entry_count := 1, section_count := 2 } }

/-- A handle used as an instance: a default section holding `(d, 0)`, the
section `s ` (with a trailing space) holding `(a b, 1)`, `(k , x"y)`, `(#c, v)`,
an entry with the empty key and the value `e`, and `(m, p LF q)`, and the
section `t]u` holding `(z, 1 2)`. -/
def reprint_handle : XConfig :=
  { parser := cparse_init [],
    config :=
      { sections :=
          [{ name := [], entries := [{ key := [100], value := [48] }] },
           { name := ofString "s ",
             entries := [{ key := ofString "a b", value := [49] },
               { key := ofString "k ", value := ofString "x\"y" },
               { key := ofString "#c", value := [118] },
               { key := [], value := [101] },
               { key := [109], value := ofString "p\nq" }] },
           { name := ofString "t]u",
             entries := [{ key := [122], value := ofString "1 2" }] }],
        current_section := some 2, entry_count := 7, section_count := 3 } }

/-- The value made of `n` lines, each a newline followed by `a`. -/
def broken_lines (n : Nat) : CStr := (List.replicate n [10, 97]).flatten

/-! ## Basic facts about the character source -/

theorem cparse_init_eq (s : CStr) : cparse_init s = pst s 0 "" := rfl

theorem rest_pst (s : CStr) (n : Nat) (e : String) : (pst s n e).rest = s.drop n := by
  simp [CPState.rest, pst]

theorem advance_pst (s : CStr) (n k : Nat) (e : String) :
    (pst s n e).advance k = pst s (n + k) e := by
  simp [CPState.advance, pst]

theorem set_error_pst (s : CStr) (n : Nat) (e msg : String) :
    cparse_set_error (pst s n e) msg = pst s n msg := rfl

theorem err_pst (s : CStr) (n : Nat) (e : String) : (pst s n e).glb_err_buf = e := rfl

theorem getc_cons {s : CStr} {n : Nat} {e : String} {c : Int} {t : CStr}
    (h : s.drop n = c :: t) : cparse_getc (pst s n e) = (c, pst s (n + 1) e) := by
  rw [cparse_getc, rest_pst, h]
  simp [pst]

theorem getc_nil {s : CStr} {n : Nat} {e : String} (h : s.drop n = []) :
    cparse_getc (pst s n e) = (EOF, pst s n e) := by
  simp [cparse_getc, rest_pst, h]

theorem peek_cons {s : CStr} {n : Nat} {e : String} {c : Int} {t : CStr}
    (h : s.drop n = c :: t) : cparse_peek (pst s n e) = c := by
  simp [cparse_peek, getc_cons h]

theorem peek_nil {s : CStr} {n : Nat} {e : String} (h : s.drop n = []) :
    cparse_peek (pst s n e) = EOF := by
  simp [cparse_peek, getc_nil h]

/-- Decrementing the offset after one byte was read puts the byte back. -/
theorem unget_pst (s : CStr) (n : Nat) (e : String) :
    ({ pst s (n + 1) e with off := (pst s (n + 1) e).off - 1 } : CPState) = pst s n e := by
  simp [pst]

theorem drop_add_of_eq {s a b : CStr} {n : Nat} (h : s.drop n = a ++ b) :
    s.drop (n + a.length) = b := by
  rw [← List.drop_drop, h, List.drop_left]

theorem drop_succ_of_eq {s b : CStr} {c : Int} {n : Nat} (h : s.drop n = c :: b) :
    s.drop (n + 1) = b := by
  have := drop_add_of_eq (a := [c]) (b := b) (by simpa using h)
  simpa using this

/-! ## Facts about the scanning loops -/

theorem is_blank_isspace {c : Int} (h : is_blank c = true) : isspace c = true := by
  simp only [is_blank, Bool.or_eq_true, beq_iff_eq] at h
  rcases h with h | h <;> subst h <;> decide

theorem is_blank_skipped {c : Int} (h : is_blank c = true) :
    c ≠ EOF ∧ isspace c = true ∧ c ≠ 10 := by
  simp only [is_blank, Bool.or_eq_true, beq_iff_eq] at h
  rcases h with h | h <;> subst h <;> decide

theorem skip_whitespace_n_blanks (ws tail : CStr) (hws : ∀ c ∈ ws, is_blank c = true) :
    skip_whitespace_n (ws ++ tail) = ws.length + skip_whitespace_n tail := by
  induction ws with
  | nil => simp
  | cons c ws ih =>
    have hc := is_blank_skipped (hws c (List.mem_cons_self _ _))
    have ih1 := ih (fun x hx => hws x (List.mem_cons_of_mem _ hx))
    rw [List.cons_append, skip_whitespace_n, if_pos hc, ih1, List.length_cons]
    omega

theorem skip_whitespace_n_nospace {c : Int} (t : CStr) (h : isspace c = false) :
    skip_whitespace_n (c :: t) = 0 := by
  simp [skip_whitespace_n, h]

theorem skip_whitespace_n_newline (t : CStr) : skip_whitespace_n (10 :: t) = 0 := by
  simp [skip_whitespace_n]

/-- The state after `skip_whitespace` over a run of blanks. -/
theorem skip_whitespace_pst {s : CStr} {n : Nat} (e : String) {ws tail : CStr}
    (h : s.drop n = ws ++ tail) (hws : ∀ c ∈ ws, is_blank c = true)
    (ht : skip_whitespace_n tail = 0) :
    skip_whitespace (pst s n e) = pst s (n + ws.length) e := by
  rw [skip_whitespace, rest_pst, h, skip_whitespace_n_blanks ws tail hws, ht, advance_pst]
  rfl

theorem skip_whitespace_pst_zero {s : CStr} {n : Nat} (e : String)
    (h : skip_whitespace_n (s.drop n) = 0) :
    skip_whitespace (pst s n e) = pst s n e := by
  rw [skip_whitespace, rest_pst, h, advance_pst]
  rfl

theorem is_ascii_ne_EOF {c : Int} (h : is_ascii c = true) : c ≠ EOF := by
  simp only [is_ascii, Bool.and_eq_true, decide_eq_true_eq] at h
  simp only [EOF]
  omega

theorem isspace_false_ne_newline {c : Int} (h : isspace c = false) : c ≠ 10 := by
  rintro rfl
  revert h
  decide

theorem is_entry_start_spec {c : Int} (h : is_entry_start c = true) :
    c ≠ EOF ∧ isspace c = false ∧ c ≠ 10 ∧ c ≠ 35 ∧ c ≠ 59 ∧ c ≠ 91 := by
  simp only [is_entry_start, Bool.and_eq_true, Bool.not_eq_true', bne_iff_ne, ne_eq] at h
  obtain ⟨⟨⟨⟨h1, h2⟩, h3⟩, h4⟩, h5⟩ := h
  exact ⟨is_ascii_ne_EOF h1, h2, isspace_false_ne_newline h2, h3, h4, h5⟩

theorem is_key_char_spec {c : Int} (h : is_key_char c = true) :
    c ≠ EOF ∧ isspace c = false ∧ c ≠ 10 ∧ c ≠ 61 ∧ c ≠ 34 ∧ c ≠ 39 := by
  simp only [is_key_char, Bool.and_eq_true, Bool.not_eq_true', bne_iff_ne, ne_eq] at h
  obtain ⟨⟨⟨⟨h1, h2⟩, h3⟩, h4⟩, h5⟩ := h
  exact ⟨is_ascii_ne_EOF h1, h2, isspace_false_ne_newline h2, h3, h4, h5⟩

theorem is_value_char_spec {c : Int} (h : is_value_char c = true) :
    c ≠ EOF ∧ c ≠ 10 ∧ c ≠ 35 ∧ c ≠ 59 := by
  simp only [is_value_char, Bool.and_eq_true, bne_iff_ne, ne_eq] at h
  obtain ⟨⟨⟨h1, h2⟩, h3⟩, h4⟩ := h
  exact ⟨is_ascii_ne_EOF h1, h2, h3, h4⟩

theorem is_line_char_spec {c : Int} (h : is_line_char c = true) : c ≠ EOF ∧ c ≠ 10 := by
  simp only [is_line_char, Bool.and_eq_true, bne_iff_ne, ne_eq] at h
  exact ⟨is_ascii_ne_EOF h.1, h.2⟩

/-- On a line that starts with neither a newline nor a comment mark,
`skip_comments` only skips the leading blanks. -/
theorem skip_comments_unit {s : CStr} {n : Nat} (e : String) {ws t : CStr} {c : Int}
    (h : s.drop n = ws ++ c :: t) (hws : ∀ x ∈ ws, is_blank x = true)
    (h2 : isspace c = false) (h4 : c ≠ 35) (h5 : c ≠ 59) :
    skip_comments (pst s n e) = (false, pst s (n + ws.length) e) := by
  have hp := peek_cons (e := e) (drop_add_of_eq h)
  rw [skip_comments]
  simp only [skip_whitespace_pst e h hws (skip_whitespace_n_nospace t h2), hp,
    if_neg (isspace_false_ne_newline h2), h4, h5, or_self, if_false]

theorem skip_all_comments_unit {s : CStr} {n : Nat} (e : String) {ws t : CStr} {c : Int}
    (h : s.drop n = ws ++ c :: t) (hws : ∀ x ∈ ws, is_blank x = true)
    (h2 : isspace c = false) (h4 : c ≠ 35) (h5 : c ≠ 59) :
    skip_all_comments (pst s n e) = pst s (n + ws.length) e := by
  rw [skip_all_comments, skip_comments_loop, skip_comments_unit e h hws h2 h4 h5]

theorem skip_all_comments_entry {s : CStr} {n : Nat} (e : String) {ws t : CStr} {c : Int}
    (h : s.drop n = ws ++ c :: t) (hws : ∀ x ∈ ws, is_blank x = true)
    (hc : is_entry_start c = true) :
    skip_all_comments (pst s n e) = pst s (n + ws.length) e := by
  obtain ⟨_, h2, _, h4, h5, _⟩ := is_entry_start_spec hc
  exact skip_all_comments_unit e h hws h2 h4 h5

/-- Where an entry starts `read_section` returns `NULL` and restores the offset. -/
theorem read_section_entry {s : CStr} {n : Nat} (e : String) {t : CStr} {c : Int}
    (h : s.drop n = c :: t) (hc : is_entry_start c = true) :
    read_section (pst s n e) = (none, pst s n e) := by
  obtain ⟨h1, h2, h3, h4, h5, h6⟩ := is_entry_start_spec hc
  have hs : skip_whitespace (pst s n e) = pst s n e :=
    skip_whitespace_pst_zero e (by rw [h]; exact skip_whitespace_n_nospace t h2)
  rw [read_section]
  simp only [hs, getc_cons h, h6, ne_eq, not_false_eq_true, if_true, unget_pst]

/-! ### Keys -/

theorem read_key_scan_plain (k tail : CStr) (q : Int) (hk : ∀ c ∈ k, is_key_char c = true) :
    read_key_scan (k ++ tail) false q =
      (k ++ (read_key_scan tail false q).1, k.length + (read_key_scan tail false q).2.1,
        (read_key_scan tail false q).2.2) := by
  induction k with
  | nil => simp
  | cons c k ih =>
    obtain ⟨h1, h2, h3, h4, h5, h6⟩ := is_key_char_spec (hk c (List.mem_cons_self _ _))
    have ih1 := ih (fun x hx => hk x (List.mem_cons_of_mem _ hx))
    rw [List.cons_append, read_key_scan]
    simp only [h1, h2, h3, h4, h5, h6, if_false, false_and, or_self, and_false,
      Bool.false_eq_true, ih1, List.length_cons, List.cons_append]
    simp only [Prod.mk.injEq, true_and, and_true]
    omega

theorem read_key_scan_stop {r : CStr} (q : Int) (h : key_stop r) :
    read_key_scan r false q = ([], 0, false) := by
  rcases h with rfl | ⟨c, t, rfl, hc | hc⟩
  · rfl
  · subst hc
    simp [read_key_scan]
  · rw [read_key_scan]
    by_cases h1 : c = EOF
    · simp [h1]
    · by_cases h2 : c = 61
      · simp [h1, h2]
      · simp [h1, h2, hc]

theorem key_stop_blanks_eq (ws r : CStr) (hws : ∀ c ∈ ws, is_blank c = true) :
    key_stop (ws ++ 61 :: r) := by
  cases ws with
  | nil => exact Or.inr ⟨61, r, rfl, Or.inl rfl⟩
  | cons c ws =>
    exact Or.inr ⟨c, ws ++ 61 :: r, rfl, Or.inr (is_blank_isspace (hws c (List.mem_cons_self _ _)))⟩

theorem dropWhile_append_all {p : Int → Bool} (a b : CStr) (h : ∀ x ∈ a, p x = true) :
    (a ++ b).dropWhile p = b.dropWhile p := by
  induction a with
  | nil => rfl
  | cons x a ih =>
    rw [List.cons_append, List.dropWhile_cons, if_pos (h x (List.mem_cons_self _ _))]
    exact ih (fun y hy => h y (List.mem_cons_of_mem _ hy))

/-- Trimming removes exactly a trailing run of whitespace. -/
theorem rtrim_append (v ws : CStr) (hws : ∀ c ∈ ws, isspace c = true)
    (hv : no_trailing_space v) : rtrim (v ++ ws) = v := by
  unfold rtrim
  rw [List.reverse_append, dropWhile_append_all _ _ (by simpa using hws)]
  rcases List.eq_nil_or_concat v with rfl | ⟨l, c, rfl⟩
  · rfl
  · have hc : isspace c = false := hv c (by simp)
    simp [List.dropWhile_cons, hc]

theorem rtrim_self (v : CStr) (hv : no_trailing_space v) : rtrim v = v := by
  simpa using rtrim_append v [] (by simp) hv

theorem no_trailing_space_of_all {v : CStr} (h : ∀ c ∈ v, isspace c = false) :
    no_trailing_space v := by
  intro c hc
  exact h c (List.mem_of_mem_getLast? hc)

theorem plain_key_no_trailing_space {k : CStr} (hk : ∀ c ∈ k, is_key_char c = true) :
    no_trailing_space k :=
  no_trailing_space_of_all (fun c hc => (is_key_char_spec (hk c hc)).2.1)

/-- The function `read_key` on a plain key followed by a key stop. -/
theorem read_key_plain {s : CStr} {n : Nat} (e : String) {k r : CStr}
    (h : s.drop n = k ++ r) (hk : ∀ c ∈ k, is_key_char c = true) (hk0 : k ≠ [])
    (hr : key_stop r) :
    read_key (pst s n e) = (some k, pst s (n + k.length) e) := by
  have hs : skip_whitespace (pst s n e) = pst s n e := by
    apply skip_whitespace_pst_zero
    rw [h]
    cases k with
    | nil => exact absurd rfl hk0
    | cons c k =>
      exact skip_whitespace_n_nospace _ (is_key_char_spec (hk c (List.mem_cons_self _ _))).2.1
  rw [read_key]
  simp only [hs, rest_pst, h, read_key_scan_plain k r 0 hk, read_key_scan_stop 0 hr,
    List.append_nil, Nat.add_zero, advance_pst, Bool.false_eq_true, if_false,
    rtrim_self k (plain_key_no_trailing_space hk)]

/-! ### Simple values -/

theorem value_stop_scan {r : CStr} (h : value_stop r) : read_simple_scan r = [] := by
  rcases h with rfl | ⟨c, t, rfl, hc | hc | hc⟩
  · rfl
  all_goals subst hc; simp [read_simple_scan]

theorem value_stop_skip {r : CStr} (h : value_stop r) : skip_whitespace_n r = 0 := by
  rcases h with rfl | ⟨c, t, rfl, hc | hc | hc⟩
  · rfl
  all_goals subst hc; simp [skip_whitespace_n, isspace]

theorem value_stop_peek {s : CStr} {n : Nat} (e : String) {r : CStr} (h : s.drop n = r)
    (hr : value_stop r) :
    cparse_peek (pst s n e) ≠ 34 ∧ cparse_peek (pst s n e) ≠ 39 := by
  rcases hr with rfl | ⟨c, t, rfl, hc⟩
  · rw [peek_nil h]; decide
  · rw [peek_cons h]
    rcases hc with hc | hc | hc <;> subst hc <;> decide

theorem value_stop_comment (cmt r : CStr) (hc : line_comment cmt)
    (hr : r = [] ∨ ∃ t, r = 10 :: t) : value_stop (cmt ++ r) := by
  cases cmt with
  | nil =>
    rcases hr with rfl | ⟨t, rfl⟩
    · exact Or.inl rfl
    · exact Or.inr ⟨10, t, rfl, Or.inl rfl⟩
  | cons c cmt =>
    exact Or.inr ⟨c, cmt ++ r, rfl, Or.inr (hc.2 c rfl)⟩

theorem is_blank_value_char {c : Int} (h : is_blank c = true) : is_value_char c = true := by
  simp only [is_blank, Bool.or_eq_true, beq_iff_eq] at h
  rcases h with h | h <;> subst h <;> decide

theorem read_simple_scan_append (a r : CStr) (ha : ∀ c ∈ a, is_value_char c = true) :
    read_simple_scan (a ++ r) = a ++ read_simple_scan r := by
  induction a with
  | nil => rfl
  | cons c a ih =>
    have hc := is_value_char_spec (ha c (List.mem_cons_self _ _))
    rw [List.cons_append, read_simple_scan, if_pos hc,
      ih (fun x hx => ha x (List.mem_cons_of_mem _ hx)), List.cons_append]

/-- The function `read_simple_value` on a value, trailing blanks and a stop. -/
theorem read_simple_value_pst {s : CStr} {n : Nat} (e : String) {v ws r : CStr}
    (h : s.drop n = v ++ (ws ++ r)) (hv : ∀ c ∈ v, is_value_char c = true)
    (hvt : no_trailing_space v) (hws : ∀ c ∈ ws, is_blank c = true) (hr : value_stop r) :
    read_simple_value (pst s n e) = (v, pst s (n + v.length + ws.length) e) := by
  have hall : ∀ c ∈ v ++ ws, is_value_char c = true := by
    intro c hc
    rcases List.mem_append.1 hc with hc | hc
    · exact hv c hc
    · exact is_blank_value_char (hws c hc)
  rw [read_simple_value, rest_pst, h, ← List.append_assoc,
    read_simple_scan_append (v ++ ws) r hall, value_stop_scan hr, List.append_nil,
    rtrim_append v ws (fun c hc => is_blank_isspace (hws c hc)) hvt, advance_pst,
    List.length_append, Nat.add_assoc]

/-- The function `read_value` on blanks, a simple value, blanks and a stop. -/
theorem read_value_simple {s : CStr} {n : Nat} (e : String) {ws3 v ws4 r : CStr}
    (h : s.drop n = ws3 ++ (v ++ (ws4 ++ r))) (hws3 : ∀ c ∈ ws3, is_blank c = true)
    (hv : simple_value v) (hws4 : ∀ c ∈ ws4, is_blank c = true) (hr : value_stop r) :
    read_value (pst s n e)
      = (some v, pst s (n + ws3.length + v.length + ws4.length) e) := by
  cases v with
  | nil =>
    have h1 : s.drop n = (ws3 ++ ws4) ++ r := by simpa using h
    have hb : ∀ c ∈ ws3 ++ ws4, is_blank c = true := by
      intro c hc
      rcases List.mem_append.1 hc with hc | hc
      · exact hws3 c hc
      · exact hws4 c hc
    have h2 := drop_add_of_eq h1
    have hp := value_stop_peek e h2 hr
    have hsv := read_simple_value_pst e
      (show s.drop (n + (ws3 ++ ws4).length) = [] ++ ([] ++ r) from h2) (by simp)
      (by intro c hc; simp at hc) (by simp) hr
    rw [read_value]
    simp only [skip_whitespace_pst e h1 hb (value_stop_skip hr), hp.1, hp.2, or_self,
      if_false, hsv]
    simp [Nat.add_assoc]
  | cons c v =>
    obtain ⟨hq1, hq2, hsp⟩ := hv.2.1 c rfl
    have h2 := drop_add_of_eq h
    have hp : cparse_peek (pst s (n + ws3.length) e) = c := peek_cons h2
    rw [read_value]
    simp only [skip_whitespace_pst e h hws3 (skip_whitespace_n_nospace _ hsp), hp, hq1, hq2,
      or_self, if_false, read_simple_value_pst e h2 hv.1 hv.2.2 hws4 hr]

/-! ### Entries -/

theorem plain_key_start {c : Int} {l : CStr} (hk : plain_key (c :: l)) :
    is_entry_start c = true := by
  obtain ⟨h1, c2, l2, h2, h3, h4, h5⟩ := hk
  cases h2
  have h6 := h1 c (List.mem_cons_self _ _)
  simp only [is_key_char, Bool.and_eq_true, Bool.not_eq_true', bne_iff_ne, ne_eq] at h6
  simp only [is_entry_start, Bool.and_eq_true, Bool.not_eq_true', bne_iff_ne, ne_eq]
  exact ⟨⟨⟨⟨h6.1.1.1.1, h6.1.1.1.2⟩, h4⟩, h5⟩, h3⟩

theorem skip_to_eol_n_append (junk r : CStr) (hj : ∀ c ∈ junk, is_line_char c = true)
    (hr : r = [] ∨ ∃ t, r = 10 :: t) : skip_to_eol_n (junk ++ r) = junk.length := by
  induction junk with
  | nil =>
    rcases hr with rfl | ⟨t, rfl⟩
    · rfl
    · simp [skip_to_eol_n]
  | cons c junk ih =>
    have hc := is_line_char_spec (hj c (List.mem_cons_self _ _))
    rw [List.cons_append, skip_to_eol_n, if_pos hc,
      ih (fun x hx => hj x (List.mem_cons_of_mem _ hx)), List.length_cons]

/-- The end of `parse_config_entry`: skip the rest of the line and its newline. -/
theorem entry_eol {s : CStr} {p : Nat} (e : String) {junk r : CStr}
    (h : s.drop p = junk ++ r) (hj : ∀ c ∈ junk, is_line_char c = true)
    (hr : r = [] ∨ ∃ t, r = 10 :: t) :
    (if cparse_peek ((pst s p e).advance (skip_to_eol_n (pst s p e).rest)) = 10
      then (cparse_getc ((pst s p e).advance (skip_to_eol_n (pst s p e).rest))).2
      else (pst s p e).advance (skip_to_eol_n (pst s p e).rest))
      = pst s (p + junk.length + min 1 r.length) e := by
  rw [rest_pst, h, skip_to_eol_n_append junk r hj hr, advance_pst]
  have h2 := drop_add_of_eq h
  rcases hr with rfl | ⟨t, rfl⟩
  · rw [peek_nil h2]
    simp [EOF]
  · rw [peek_cons h2, getc_cons h2]
    simp

/-- The function `parse_config_entry` up to the value: on a line made of
blanks, a plain key, blanks and `=`, the result is decided by `read_value`. -/
theorem parse_entry_key {s : CStr} {n : Nat} (e : String) (config : Config)
    {ws1 k ws2 r : CStr} (h : s.drop n = ws1 ++ (k ++ (ws2 ++ 61 :: r)))
    (hws1 : ∀ c ∈ ws1, is_blank c = true) (hk : plain_key k)
    (hws2 : ∀ c ∈ ws2, is_blank c = true) :
    parse_config_entry (pst s n e) config =
      match read_value (pst s (n + ws1.length + k.length + ws2.length + 1) e) with
      | (none, st6) => (false, st6, config)
      | (some value, st6) =>
        match config_add_entry config k value with
        | (false, config1) =>
          (false, cparse_set_error st6 "Failed to add configuration entry", config1)
        | (true, config1) =>
          let st7 := st6.advance (skip_to_eol_n st6.rest)
          let st8 := if cparse_peek st7 = 10 then (cparse_getc st7).2 else st7
          (true, st8, config1) := by
  obtain ⟨c, l, rfl⟩ : ∃ c l, k = c :: l := by
    obtain ⟨_, c, l, h2, _⟩ := hk
    exact ⟨c, l, h2⟩
  have hc := plain_key_start hk
  obtain ⟨c1, c2, c3, c4, c5, c6⟩ := is_entry_start_spec hc
  have h1 : s.drop (n + ws1.length) = (c :: l) ++ (ws2 ++ 61 :: r) := drop_add_of_eq h
  have h2 : s.drop (n + ws1.length + (c :: l).length) = ws2 ++ 61 :: r := drop_add_of_eq h1
  have h3 : s.drop (n + ws1.length + (c :: l).length + ws2.length) = 61 :: r :=
    drop_add_of_eq h2
  have hs1 : skip_whitespace (pst s (n + ws1.length) e) = pst s (n + ws1.length) e :=
    skip_whitespace_pst_zero e (by rw [h1]; exact skip_whitespace_n_nospace _ c2)
  have hs2 := skip_whitespace_pst e h2 hws2 (skip_whitespace_n_nospace r (c := 61) (by decide))
  rw [parse_config_entry]
  simp only [skip_all_comments_entry e h hws1 hc, hs1, peek_cons h1, if_neg c1, if_neg c6,
    read_key_plain e h1 hk.1 (by simp) (key_stop_blanks_eq ws2 r hws2), hs2, getc_cons h3,
    ne_eq, not_true_eq_false, if_false]

/-- The function `parse_config_entry` on a whole entry line with a simple
value, an optional comment, and a newline or the end of the input. -/
theorem parse_entry_simple {s : CStr} {n : Nat} (e : String) {config : Config} {i : Nat}
    {ws1 k ws2 ws3 v ws4 cmt r : CStr}
    (h : s.drop n = ws1 ++ (k ++ (ws2 ++ 61 :: (ws3 ++ (v ++ (ws4 ++ (cmt ++ r)))))))
    (hws1 : ∀ c ∈ ws1, is_blank c = true) (hk : plain_key k)
    (hws2 : ∀ c ∈ ws2, is_blank c = true) (hws3 : ∀ c ∈ ws3, is_blank c = true)
    (hv : simple_value v) (hws4 : ∀ c ∈ ws4, is_blank c = true) (hcmt : line_comment cmt)
    (hr : r = [] ∨ ∃ t, r = 10 :: t) (hcur : config.current_section = some i) :
    parse_config_entry (pst s n e) config =
      (true,
        pst s (n + ws1.length + k.length + ws2.length + 1 + ws3.length + v.length
          + ws4.length + cmt.length + min 1 r.length) e,
        (config_add_entry config k v).2) := by
  have h1 := drop_add_of_eq (drop_add_of_eq (drop_add_of_eq h))
  have h2 := drop_succ_of_eq h1
  have hval := read_value_simple e h2 hws3 hv hws4 (value_stop_comment cmt r hcmt hr)
  have h3 := drop_add_of_eq (drop_add_of_eq (drop_add_of_eq h2))
  have hadd : config_add_entry config k v = (true, (config_add_entry config k v).2) := by
    rw [config_add_entry, hcur]
  rw [parse_entry_key e config h hws1 hk hws2, hval]
  simp only []
  rw [hadd]
  simp only []
  rw [entry_eol e h3 hcmt.1 hr]

/-! ### The main loop -/

/-- Unfolding of one round of the main loop. -/
theorem load_loop_succ (n : Nat) (st : CPState) (config : Config) :
    load_loop (n + 1) st config =
      match read_section (skip_all_comments st) with
      | (some section_name, st2) => load_loop n st2 (config_add_section config section_name)
      | (none, st2) =>
        match parse_config_entry st2 config with
        | (true, st3, config1) => load_loop n st3 config1
        | (false, st3, config1) =>
          if cparse_peek st3 = EOF then some (config1, st3)
          else if 0 < st3.glb_err_buf.length then
            load_loop n
              (({ st3 with glb_err_buf := "" } : CPState).advance
                (skip_line_n ({ st3 with glb_err_buf := "" } : CPState).rest)) config1
          else load_loop n st3 config1 := rfl

/-- One round of the main loop where an entry line starts: the section test
restores the offset and the round is decided by `parse_config_entry`. -/
theorem load_loop_entry {s : CStr} {n : Nat} (e : String) (config : Config) (fuel : Nat)
    {ws t : CStr} {c : Int} (h : s.drop n = ws ++ c :: t)
    (hws : ∀ x ∈ ws, is_blank x = true) (hc : is_entry_start c = true) :
    load_loop (fuel + 1) (pst s n e) config =
      match parse_config_entry (pst s (n + ws.length) e) config with
      | (true, st3, config1) => load_loop fuel st3 config1
      | (false, st3, config1) =>
        if cparse_peek st3 = EOF then some (config1, st3)
        else if 0 < st3.glb_err_buf.length then
          load_loop fuel
            (({ st3 with glb_err_buf := "" } : CPState).advance
              (skip_line_n ({ st3 with glb_err_buf := "" } : CPState).rest)) config1
        else load_loop fuel st3 config1 := by
  rw [load_loop_succ]
  simp only [skip_all_comments_entry e h hws hc, read_section_entry e (drop_add_of_eq h) hc]

theorem skip_whitespace_eof {s : CStr} {n : Nat} (e : String) (h : s.drop n = []) :
    skip_whitespace (pst s n e) = pst s n e :=
  skip_whitespace_pst_zero e (by rw [h]; rfl)

theorem skip_comments_eof {s : CStr} {n : Nat} (e : String) (h : s.drop n = []) :
    skip_comments (pst s n e) = (false, pst s n e) := by
  rw [skip_comments]
  simp only [skip_whitespace_eof e h, peek_nil h]
  simp [EOF]

theorem skip_all_comments_eof {s : CStr} {n : Nat} (e : String) (h : s.drop n = []) :
    skip_all_comments (pst s n e) = pst s n e := by
  rw [skip_all_comments, skip_comments_loop, skip_comments_eof e h]

/-- The last round of the main loop when the input ends with a newline: the
section test steps back onto the newline, the entry parser skips it again as a
blank line, and the loop ends with the configuration and error buffer unchanged. -/
theorem load_loop_eof_newline {s : CStr} {m : Nat} (e : String) (config : Config)
    (fuel : Nat) (h : s.drop m = [10]) :
    load_loop (fuel + 1) (pst s (m + 1) e) config = some (config, pst s (m + 1) e) := by
  have h1 : s.drop (m + 1) = [] := drop_succ_of_eq h
  have hs : skip_whitespace (pst s m e) = pst s m e :=
    skip_whitespace_pst_zero e (by rw [h]; rfl)
  have hc : skip_comments (pst s m e) = (true, pst s (m + 1) e) := by
    rw [skip_comments]
    simp only [hs, peek_cons h, getc_cons h, if_true]
  have hall : skip_all_comments (pst s m e) = pst s (m + 1) e := by
    rw [skip_all_comments, rest_pst, h]
    simp only [List.length_singleton, skip_comments_loop, hc, skip_comments_eof e h1]
  have hrs : read_section (pst s (m + 1) e) = (none, pst s m e) := by
    rw [read_section]
    simp only [skip_whitespace_eof e h1, getc_nil h1]
    simp [EOF, unget_pst]
  have hpe : parse_config_entry (pst s m e) config = (false, pst s (m + 1) e, config) := by
    rw [parse_config_entry]
    simp only [hall, skip_whitespace_eof e h1, peek_nil h1, if_true]
  rw [load_loop_succ]
  simp only [skip_all_comments_eof e h1, hrs, hpe, peek_nil h1, if_true]

/-- One round of the main loop over an entry line with a simple value: the
entry is appended to the current section and the line is consumed. -/
theorem load_loop_simple_line {s : CStr} {n : Nat} (e : String) {config : Config} {i : Nat}
    (fuel : Nat) {ws1 k ws2 ws3 v ws4 cmt r : CStr}
    (h : s.drop n = ws1 ++ (k ++ (ws2 ++ 61 :: (ws3 ++ (v ++ (ws4 ++ (cmt ++ r)))))))
    (hws1 : ∀ c ∈ ws1, is_blank c = true) (hk : plain_key k)
    (hws2 : ∀ c ∈ ws2, is_blank c = true) (hws3 : ∀ c ∈ ws3, is_blank c = true)
    (hv : simple_value v) (hws4 : ∀ c ∈ ws4, is_blank c = true) (hcmt : line_comment cmt)
    (hr : r = [] ∨ ∃ t, r = 10 :: t) (hcur : config.current_section = some i) :
    load_loop (fuel + 1) (pst s n e) config =
      load_loop fuel
        (pst s (n + ws1.length + k.length + ws2.length + 1 + ws3.length + v.length
          + ws4.length + cmt.length + min 1 r.length) e)
        (config_add_entry config k v).2 := by
  obtain ⟨c, l, rfl⟩ : ∃ c l, k = c :: l := by
    obtain ⟨_, c, l, h2, _⟩ := hk
    exact ⟨c, l, h2⟩
  have h1 : s.drop (n + ws1.length) = [] ++ ((c :: l) ++
      (ws2 ++ 61 :: (ws3 ++ (v ++ (ws4 ++ (cmt ++ r)))))) := drop_add_of_eq h
  rw [load_loop_entry e config fuel h hws1 (plain_key_start hk),
    parse_entry_simple e h1 (by simp) hk hws2 hws3 hv hws4 hcmt hr hcur]
  simp only [List.length_nil, Nat.add_zero]

/-! ### Quoted values -/

theorem is_plain_char_spec {c : Int} (h : is_plain_char c = true) :
    c ≠ EOF ∧ c ≠ 34 ∧ c ≠ 92 ∧ c ≠ 10 := by
  simp only [is_plain_char, Bool.and_eq_true, bne_iff_ne, ne_eq] at h
  exact ⟨is_ascii_ne_EOF h.1.1.1, h.1.1.2, h.1.2, h.2⟩

/-- Unfolding of one round of the loop of `read_quoted_value`. -/
theorem read_quoted_loop_succ (q : Int) (n : Nat) (st : CPState) (buffer : CStr)
    (escape : Bool) :
    read_quoted_loop q (n + 1) st buffer escape =
      if (cparse_getc st).1 = EOF then ((cparse_getc st).1, buffer, (cparse_getc st).2)
      else if escape = false ∧ (cparse_getc st).1 = 92 then
        read_quoted_loop q n (cparse_getc st).2 buffer true
      else if escape = false ∧ (cparse_getc st).1 = q then
        ((cparse_getc st).1, buffer, (cparse_getc st).2)
      else
        if (if escape then unescape (cparse_getc st).1 else (cparse_getc st).1) = 10 then
          if cparse_peek (skip_whitespace (cparse_getc st).2) ≠ q ∧
              cparse_peek (skip_whitespace (cparse_getc st).2) ≠ 10 ∧
              cparse_peek (skip_whitespace (cparse_getc st).2) ≠ 35 ∧
              cparse_peek (skip_whitespace (cparse_getc st).2) ≠ 59 ∧
              cparse_peek (skip_whitespace (cparse_getc st).2) ≠ 91 then
            read_quoted_loop q n (skip_whitespace (cparse_getc st).2)
              (buffer ++ [if escape then unescape (cparse_getc st).1 else (cparse_getc st).1]
                ++ [32]) false
          else
            read_quoted_loop q n (skip_whitespace (cparse_getc st).2)
              (buffer ++ [if escape then unescape (cparse_getc st).1 else (cparse_getc st).1])
              false
        else
          read_quoted_loop q n (cparse_getc st).2
            (buffer ++ [if escape then unescape (cparse_getc st).1 else (cparse_getc st).1])
            false := rfl

/-- The loop of `read_quoted_value` copies a run of plain bytes. -/
theorem read_quoted_loop_plain {s : CStr} (e : String) (a r : CStr) (f : Nat)
    (ha : ∀ c ∈ a, is_plain_char c = true) :
    ∀ (n : Nat) (buf : CStr), s.drop n = a ++ r →
      read_quoted_loop 34 (a.length + f) (pst s n e) buf false
        = read_quoted_loop 34 f (pst s (n + a.length) e) (buf ++ a) false := by
  induction a with
  | nil =>
    intro n buf _
    simp
  | cons c a ih =>
    intro n buf h
    obtain ⟨c1, c2, c3, c4⟩ := is_plain_char_spec (ha c (List.mem_cons_self _ _))
    have h1 : s.drop (n + 1) = a ++ r := drop_succ_of_eq h
    have hf : (c :: a).length + f = (a.length + f) + 1 := by
      rw [List.length_cons]
      omega
    rw [hf, read_quoted_loop_succ, getc_cons h]
    simp only [c1, c2, c3, c4, if_false, and_false, Bool.false_eq_true]
    rw [ih (fun x hx => ha x (List.mem_cons_of_mem _ hx)) (n + 1) (buf ++ [c]) h1]
    simp [Nat.add_assoc, Nat.add_comm 1]

/-- The loop of `read_quoted_value` at the closing quote. -/
theorem read_quoted_loop_close {s : CStr} {n : Nat} (e : String) {t : CStr} (f : Nat)
    (buf : CStr) (h : s.drop n = 34 :: t) :
    read_quoted_loop 34 (f + 1) (pst s n e) buf false = (34, buf, pst s (n + 1) e) := by
  rw [read_quoted_loop_succ, getc_cons h]
  simp [EOF]

/-- The loop of `read_quoted_value` at a raw newline followed by blanks and a
byte that continues the value: the newline is stored, the blanks are skipped and
one space is stored. -/
theorem read_quoted_loop_newline {s : CStr} {n : Nat} (e : String) {w t : CStr} {c : Int}
    (f : Nat) (buf : CStr) (h : s.drop n = 10 :: (w ++ c :: t))
    (hw : ∀ x ∈ w, is_blank x = true) (hc : is_plain_char c = true)
    (hsp : isspace c = false) (h35 : c ≠ 35) (h59 : c ≠ 59) (h91 : c ≠ 91) :
    read_quoted_loop 34 (f + 1) (pst s n e) buf false
      = read_quoted_loop 34 f (pst s (n + 1 + w.length) e) (buf ++ [10, 32]) false := by
  obtain ⟨c1, c2, c3, c4⟩ := is_plain_char_spec hc
  have h1 : s.drop (n + 1) = w ++ c :: t := drop_succ_of_eq h
  rw [read_quoted_loop_succ, getc_cons h]
  simp only [skip_whitespace_pst e h1 hw (skip_whitespace_n_nospace t hsp),
    peek_cons (drop_add_of_eq h1)]
  simp [EOF, c2, c4, h35, h59, h91]

/-- The loop of `read_quoted_value` at a raw newline followed by blanks and the
closing quote: the newline is stored and no space is added. -/
theorem read_quoted_loop_newline_close {s : CStr} {n : Nat} (e : String) {w t : CStr}
    (f : Nat) (buf : CStr) (h : s.drop n = 10 :: (w ++ 34 :: t))
    (hw : ∀ x ∈ w, is_blank x = true) :
    read_quoted_loop 34 (f + 1) (pst s n e) buf false
      = read_quoted_loop 34 f (pst s (n + 1 + w.length) e) (buf ++ [10]) false := by
  have h1 : s.drop (n + 1) = w ++ 34 :: t := drop_succ_of_eq h
  rw [read_quoted_loop_succ, getc_cons h]
  simp only [skip_whitespace_pst e h1 hw (skip_whitespace_n_nospace t (by decide)),
    peek_cons (drop_add_of_eq h1)]
  simp [EOF]

/-- The function `read_value` on a double-quoted value written on two lines:
`"a`, newline, blanks `w`, `b"`.  The stored value keeps the newline; a space
follows it when `b` is not empty. -/
theorem read_value_two_lines {s : CStr} {n : Nat} (e : String) {ws3 a w b t : CStr}
    (h : s.drop n = ws3 ++ 34 :: (a ++ 10 :: (w ++ (b ++ 34 :: t))))
    (hws3 : ∀ c ∈ ws3, is_blank c = true) (ha : ∀ c ∈ a, is_plain_char c = true)
    (hw : ∀ c ∈ w, is_blank c = true) (hb : ∀ c ∈ b, is_plain_char c = true)
    (hb0 : ∀ c ∈ b.head?, isspace c = false ∧ c ≠ 35 ∧ c ≠ 59 ∧ c ≠ 91) :
    read_value (pst s n e) =
      (some (a ++ 10 :: (if b = [] then [] else 32 :: b)),
        pst s (n + ws3.length + 1 + a.length + 1 + w.length + b.length + 1) e) := by
  have h1 : s.drop (n + ws3.length) = 34 :: (a ++ 10 :: (w ++ (b ++ 34 :: t))) :=
    drop_add_of_eq h
  have h2 : s.drop (n + ws3.length + 1) = a ++ 10 :: (w ++ (b ++ 34 :: t)) :=
    drop_succ_of_eq h1
  have h3 : s.drop (n + ws3.length + 1 + a.length) = 10 :: (w ++ (b ++ 34 :: t)) :=
    drop_add_of_eq h2
  have h4 : s.drop (n + ws3.length + 1 + a.length + 1 + w.length) = b ++ 34 :: t :=
    drop_add_of_eq (drop_succ_of_eq h3)
  have h5 : s.drop (n + ws3.length + 1 + a.length + 1 + w.length + b.length) = 34 :: t :=
    drop_add_of_eq h4
  have hf : (a ++ 10 :: (w ++ (b ++ 34 :: t))).length + 1
      = a.length + ((b.length + ((w.length + t.length + 1) + 1)) + 1) := by
    simp only [List.length_append, List.length_cons]
    omega
  rw [read_value]
  simp only [skip_whitespace_pst e h hws3 (skip_whitespace_n_nospace _ (by decide)),
    peek_cons h1, true_or, if_true]
  rw [read_quoted_value]
  simp only [getc_cons h1, rest_pst, h2, hf]
  rw [read_quoted_loop_plain e a _ _ ha _ _ h2]
  cases b with
  | nil =>
    rw [read_quoted_loop_newline_close e _ _ (by simpa using h3) hw, List.length_nil,
      Nat.zero_add, read_quoted_loop_close e _ _ (by simpa using h5)]
    simp
  | cons c b =>
    obtain ⟨d1, d2, d3, d4⟩ := hb0 c rfl
    rw [read_quoted_loop_newline e _ _ (by simpa using h3) hw
        (hb c (List.mem_cons_self _ _)) d1 d2 d3 d4,
      read_quoted_loop_plain e (c :: b) _ _ hb _ _ h4,
      read_quoted_loop_close e _ _ h5]
    simp

theorem is_open_char_spec {c : Int} (h : is_open_char c = true) :
    c ≠ EOF ∧ c ≠ 34 ∧ c ≠ 92 := by
  simp only [is_open_char, Bool.and_eq_true, bne_iff_ne, ne_eq] at h
  exact ⟨is_ascii_ne_EOF h.1.1, h.1.2, h.2⟩

/-- Without a closing quote and without backslash in the unread bytes, the loop
of `read_quoted_value` runs to the end of the input and stops on `EOF`. -/
theorem read_quoted_loop_unclosed {s : CStr} (e : String) :
    ∀ (f n : Nat) (buf : CStr), (∀ c ∈ s.drop n, is_open_char c = true) →
      (s.drop n).length < f →
      ∃ buf1 p, s.drop p = [] ∧
        read_quoted_loop 34 f (pst s n e) buf false = (EOF, buf1, pst s p e) := by
  intro f
  induction f with
  | zero =>
    intro n buf _ hlen
    exact absurd hlen (Nat.not_lt_zero _)
  | succ f ih =>
    intro n buf hall hlen
    cases h : s.drop n with
    | nil =>
      refine ⟨buf, n, h, ?_⟩
      rw [read_quoted_loop_succ, getc_nil h]
      simp
    | cons c t =>
      rw [h] at hall hlen
      obtain ⟨c1, c2, c3⟩ := is_open_char_spec (hall c (List.mem_cons_self _ _))
      have h1 : s.drop (n + 1) = t := drop_succ_of_eq h
      have hlt : t.length < f := by
        simp only [List.length_cons] at hlen
        omega
      rw [read_quoted_loop_succ, getc_cons h]
      simp only [c1, c2, c3, if_false, and_false, Bool.false_eq_true]
      by_cases h10 : c = 10
      · have hsk : skip_whitespace (pst s (n + 1) e)
            = pst s (n + 1 + skip_whitespace_n t) e := by
          rw [skip_whitespace, rest_pst, h1, advance_pst]
        have hd : s.drop (n + 1 + skip_whitespace_n t) = t.drop (skip_whitespace_n t) := by
          rw [← List.drop_drop, h1]
        have hall2 : ∀ x ∈ s.drop (n + 1 + skip_whitespace_n t), is_open_char x = true := by
          intro x hx
          rw [hd] at hx
          exact hall x (List.mem_cons_of_mem _ (List.mem_of_mem_drop hx))
        have hlen2 : (s.drop (n + 1 + skip_whitespace_n t)).length < f := by
          rw [hd, List.length_drop]
          omega
        simp only [if_pos h10, hsk]
        split
        · exact ih _ _ hall2 hlen2
        · exact ih _ _ hall2 hlen2
      · have hall1 : ∀ x ∈ s.drop (n + 1), is_open_char x = true := by
          intro x hx
          rw [h1] at hx
          exact hall x (List.mem_cons_of_mem _ hx)
        simp only [if_neg h10]
        exact ih _ _ hall1 (by rw [h1]; exact hlt)

/-- The function `read_value` on an opening double quote that is never closed:
the result is `NULL`, the input is consumed to its end and the error message
`Unclosed quote` is recorded. -/
theorem read_value_unclosed {s : CStr} {n : Nat} (e : String) {ws3 body : CStr}
    (h : s.drop n = ws3 ++ 34 :: body) (hws3 : ∀ c ∈ ws3, is_blank c = true)
    (hbody : ∀ c ∈ body, is_open_char c = true) :
    ∃ p, s.drop p = [] ∧ read_value (pst s n e) = (none, pst s p "Unclosed quote") := by
  have h1 : s.drop (n + ws3.length) = 34 :: body := drop_add_of_eq h
  have h2 : s.drop (n + ws3.length + 1) = body := drop_succ_of_eq h1
  obtain ⟨buf1, p, hp, hloop⟩ := read_quoted_loop_unclosed e (body.length + 1)
    (n + ws3.length + 1) [] (by rw [h2]; exact hbody) (by rw [h2]; exact Nat.lt_succ_self _)
  refine ⟨p, hp, ?_⟩
  rw [read_value]
  simp only [skip_whitespace_pst e h hws3 (skip_whitespace_n_nospace _ (by decide)),
    peek_cons h1, true_or, if_true]
  rw [read_quoted_value]
  simp only [getc_cons h1, rest_pst, h2, hloop]
  simp [EOF, set_error_pst]

/-! ### Section headers -/

theorem is_name_char_spec {c : Int} (h : is_name_char c = true) :
    c ≠ EOF ∧ c ≠ 93 ∧ c ≠ 10 := by
  simp only [is_name_char, Bool.and_eq_true, bne_iff_ne, ne_eq] at h
  exact ⟨is_ascii_ne_EOF h.1.1, h.1.2, h.2⟩

theorem read_section_scan_name (name r : CStr) (hn : ∀ c ∈ name, is_name_char c = true) :
    read_section_scan (name ++ 93 :: r) = (name, name.length + 1, 93) := by
  induction name with
  | nil => simp [read_section_scan]
  | cons c name ih =>
    have hc := is_name_char_spec (hn c (List.mem_cons_self _ _))
    rw [List.cons_append, read_section_scan, if_pos hc,
      ih (fun x hx => hn x (List.mem_cons_of_mem _ hx))]
    rfl

theorem skip_line_n_append (junk r : CStr) (hj : ∀ c ∈ junk, is_line_char c = true)
    (hr : r = [] ∨ ∃ t, r = 10 :: t) :
    skip_line_n (junk ++ r) = junk.length + min 1 r.length := by
  induction junk with
  | nil =>
    rcases hr with rfl | ⟨t, rfl⟩
    · rfl
    · simp [skip_line_n]
  | cons c junk ih =>
    have hc := is_line_char_spec (hj c (List.mem_cons_self _ _))
    rw [List.cons_append, skip_line_n, if_pos hc,
      ih (fun x hx => hj x (List.mem_cons_of_mem _ hx)), List.length_cons]
    omega

/-- The function `read_section` on a header line `[name]` with trailing text. -/
theorem read_section_header {s : CStr} {n : Nat} (e : String) {name junk r : CStr}
    (h : s.drop n = 91 :: (name ++ 93 :: (junk ++ r)))
    (hn : ∀ c ∈ name, is_name_char c = true) (hj : ∀ c ∈ junk, is_line_char c = true)
    (hr : r = [] ∨ ∃ t, r = 10 :: t) :
    read_section (pst s n e) =
      (some (rtrim name),
        pst s (n + 1 + (name.length + 1) + (junk.length + min 1 r.length)) e) := by
  have hs : skip_whitespace (pst s n e) = pst s n e :=
    skip_whitespace_pst_zero e (by rw [h]; exact skip_whitespace_n_nospace _ (by decide))
  have h1 := drop_succ_of_eq h
  have h2 : s.drop (n + 1 + (name.length + 1)) = junk ++ r := by
    have := drop_succ_of_eq (drop_add_of_eq h1)
    rwa [Nat.add_assoc] at this
  rw [read_section]
  simp only [hs, getc_cons h, ne_eq, not_true_eq_false, if_false, rest_pst, h1,
    read_section_scan_name name _ hn, advance_pst, h2, skip_line_n_append junk r hj hr]

/-- One round of the main loop over a section header: a section with the
trimmed name is appended and made current. -/
theorem load_loop_section {s : CStr} {n : Nat} (e : String) (config : Config) (fuel : Nat)
    {ws name junk r : CStr} (h : s.drop n = ws ++ 91 :: (name ++ 93 :: (junk ++ r)))
    (hws : ∀ c ∈ ws, is_blank c = true)
    (hn : ∀ c ∈ name, is_name_char c = true) (hj : ∀ c ∈ junk, is_line_char c = true)
    (hr : r = [] ∨ ∃ t, r = 10 :: t) :
    load_loop (fuel + 1) (pst s n e) config =
      load_loop fuel
        (pst s (n + ws.length + 1 + (name.length + 1) + (junk.length + min 1 r.length)) e)
        (config_add_section config (rtrim name)) := by
  rw [load_loop_succ,
    skip_all_comments_unit e h hws (by decide) (by decide) (by decide),
    read_section_header e (drop_add_of_eq h) hn hj hr]

/-- The last round of the main loop when the input ends with a byte that can
start a key: the section test steps back onto that byte, the entry parser reads
it again as a key, finds no `=` and records an error; the loop then ends. -/
theorem load_loop_eof_key {s : CStr} {m : Nat} (e : String) (config : Config)
    (fuel : Nat) {c : Int} (h : s.drop m = [c]) (hc : is_entry_start c = true)
    (hk : is_key_char c = true) :
    load_loop (fuel + 1) (pst s (m + 1) e) config
      = some (config, pst s (m + 1) "Expected \x27=\x27 after key") := by
  have h1 : s.drop (m + 1) = [] := drop_succ_of_eq h
  obtain ⟨c1, c2, c3, c4, c5, c6⟩ := is_entry_start_spec hc
  have hs : skip_whitespace (pst s m e) = pst s m e :=
    skip_whitespace_pst_zero e (by rw [h]; exact skip_whitespace_n_nospace _ c2)
  have hrs : read_section (pst s (m + 1) e) = (none, pst s m e) := by
    rw [read_section]
    simp only [skip_whitespace_eof e h1, getc_nil h1]
    simp [EOF, unget_pst]
  have hkey : read_key (pst s m e) = (some [c], pst s (m + 1) e) :=
    read_key_plain e (show s.drop m = [c] ++ [] from h)
      (by intro x hx; rw [List.mem_singleton.1 hx]; exact hk) (by simp) (Or.inl rfl)
  have hpe : parse_config_entry (pst s m e) config
      = (false, pst s (m + 1) "Expected \x27=\x27 after key", config) := by
    rw [parse_config_entry]
    simp only [skip_all_comments_unit e (show s.drop m = [] ++ c :: [] from h) (by simp) c2 c4 c5,
      List.length_nil, Nat.add_zero, hs, peek_cons h, if_neg c1, if_neg c6, hkey,
      skip_whitespace_eof e h1, getc_nil h1]
    simp [EOF, set_error_pst]
  rw [load_loop_succ]
  simp only [skip_all_comments_eof e h1, hrs, hpe, peek_nil h1, if_true]

/-! ### Whole lines -/

/-- One round of the main loop over an entry line with a simple value that is
followed by `r`, a newline and more text or the end of the input. -/
theorem step_entry {s : CStr} {n : Nat} (e : String) {config : Config} {i : Nat}
    (fuel : Nat) {ws1 k ws2 ws3 v ws4 cmt r : CStr}
    (h : s.drop n = entry_line ws1 k ws2 ws3 v ws4 cmt ++ r)
    (hws1 : ∀ c ∈ ws1, is_blank c = true) (hk : plain_key k)
    (hws2 : ∀ c ∈ ws2, is_blank c = true) (hws3 : ∀ c ∈ ws3, is_blank c = true)
    (hv : simple_value v) (hws4 : ∀ c ∈ ws4, is_blank c = true) (hcmt : line_comment cmt)
    (hr : r = [] ∨ ∃ t, r = 10 :: t) (hcur : config.current_section = some i) :
    load_loop (fuel + 1) (pst s n e) config =
      load_loop fuel
        (pst s (n + (entry_line ws1 k ws2 ws3 v ws4 cmt).length + min 1 r.length) e)
        (config_add_entry config k v).2 := by
  have h1 : s.drop n = ws1 ++ (k ++ (ws2 ++ 61 :: (ws3 ++ (v ++ (ws4 ++ (cmt ++ r)))))) := by
    rw [h]
    simp [entry_line]
  rw [load_loop_simple_line e fuel h1 hws1 hk hws2 hws3 hv hws4 hcmt hr hcur]
  congr 2
  simp only [entry_line, List.length_append, List.length_cons]
  omega

/-- One round of the main loop over a section header line followed by `r`. -/
theorem step_header {s : CStr} {n : Nat} (e : String) (config : Config) (fuel : Nat)
    {ws name junk r : CStr} (h : s.drop n = header_line ws name junk ++ r)
    (hws : ∀ c ∈ ws, is_blank c = true)
    (hn : ∀ c ∈ name, is_name_char c = true) (hj : ∀ c ∈ junk, is_line_char c = true)
    (hr : r = [] ∨ ∃ t, r = 10 :: t) :
    load_loop (fuel + 1) (pst s n e) config =
      load_loop fuel (pst s (n + (header_line ws name junk).length + min 1 r.length) e)
        (config_add_section config (rtrim name)) := by
  have h1 : s.drop n = ws ++ 91 :: (name ++ 93 :: (junk ++ r)) := by
    rw [h]
    simp [header_line]
  rw [load_loop_section e config fuel h1 hws hn hj hr]
  congr 2
  simp only [header_line, List.length_append, List.length_cons]
  omega

/-- One round over an entry line that ends with a newline. -/
theorem step_entry_nl {s : CStr} {n : Nat} (e : String) {config : Config} {i : Nat}
    (fuel : Nat) {ws1 k ws2 ws3 v ws4 cmt t : CStr}
    (h : s.drop n = entry_line ws1 k ws2 ws3 v ws4 cmt ++ 10 :: t)
    (hws1 : ∀ c ∈ ws1, is_blank c = true) (hk : plain_key k)
    (hws2 : ∀ c ∈ ws2, is_blank c = true) (hws3 : ∀ c ∈ ws3, is_blank c = true)
    (hv : simple_value v) (hws4 : ∀ c ∈ ws4, is_blank c = true) (hcmt : line_comment cmt)
    (hcur : config.current_section = some i) :
    load_loop (fuel + 1) (pst s n e) config =
      load_loop fuel (pst s (n + (entry_line ws1 k ws2 ws3 v ws4 cmt).length + 1) e)
        (config_add_entry config k v).2 := by
  rw [step_entry e fuel h hws1 hk hws2 hws3 hv hws4 hcmt (Or.inr ⟨t, rfl⟩) hcur]
  simp

/-- One round over an entry line that ends the input without a newline. -/
theorem step_entry_end {s : CStr} {n : Nat} (e : String) {config : Config} {i : Nat}
    (fuel : Nat) {ws1 k ws2 ws3 v ws4 cmt : CStr}
    (h : s.drop n = entry_line ws1 k ws2 ws3 v ws4 cmt)
    (hws1 : ∀ c ∈ ws1, is_blank c = true) (hk : plain_key k)
    (hws2 : ∀ c ∈ ws2, is_blank c = true) (hws3 : ∀ c ∈ ws3, is_blank c = true)
    (hv : simple_value v) (hws4 : ∀ c ∈ ws4, is_blank c = true) (hcmt : line_comment cmt)
    (hcur : config.current_section = some i) :
    load_loop (fuel + 1) (pst s n e) config =
      load_loop fuel (pst s (n + (entry_line ws1 k ws2 ws3 v ws4 cmt).length) e)
        (config_add_entry config k v).2 := by
  rw [step_entry e fuel (show s.drop n = entry_line ws1 k ws2 ws3 v ws4 cmt ++ [] by simpa using h)
    hws1 hk hws2 hws3 hv hws4 hcmt (Or.inl rfl) hcur]
  simp

/-- One round over a section header line that ends with a newline. -/
theorem step_header_nl {s : CStr} {n : Nat} (e : String) (config : Config) (fuel : Nat)
    {ws name junk t : CStr} (h : s.drop n = header_line ws name junk ++ 10 :: t)
    (hws : ∀ c ∈ ws, is_blank c = true)
    (hn : ∀ c ∈ name, is_name_char c = true) (hj : ∀ c ∈ junk, is_line_char c = true) :
    load_loop (fuel + 1) (pst s n e) config =
      load_loop fuel (pst s (n + (header_line ws name junk).length + 1) e)
        (config_add_section config (rtrim name)) := by
  rw [step_header e config fuel h hws hn hj (Or.inr ⟨t, rfl⟩)]
  simp

/-- One round of the main loop over an entry line whose value `read_value`
reads successfully: the entry is appended and the rest of the line is skipped. -/
theorem step_entry_value {s : CStr} {n : Nat} (e : String) {config : Config} {i : Nat}
    (fuel : Nat) {ws1 k ws2 r0 junk r v : CStr} {p : Nat} {e1 : String}
    (h : s.drop n = ws1 ++ (k ++ (ws2 ++ 61 :: r0)))
    (hws1 : ∀ c ∈ ws1, is_blank c = true) (hk : plain_key k)
    (hws2 : ∀ c ∈ ws2, is_blank c = true)
    (hval : read_value (pst s (n + ws1.length + k.length + ws2.length + 1) e)
      = (some v, pst s p e1))
    (hrest : s.drop p = junk ++ r) (hj : ∀ c ∈ junk, is_line_char c = true)
    (hr : r = [] ∨ ∃ t, r = 10 :: t) (hcur : config.current_section = some i) :
    load_loop (fuel + 1) (pst s n e) config =
      load_loop fuel (pst s (p + junk.length + min 1 r.length) e1)
        (config_add_entry config k v).2 := by
  obtain ⟨c, l, rfl⟩ : ∃ c l, k = c :: l := by
    obtain ⟨_, c, l, h2, _⟩ := hk
    exact ⟨c, l, h2⟩
  have h1 : s.drop (n + ws1.length) = [] ++ ((c :: l) ++ (ws2 ++ 61 :: r0)) :=
    drop_add_of_eq h
  have hadd : config_add_entry config (c :: l) v
      = (true, (config_add_entry config (c :: l) v).2) := by
    rw [config_add_entry, hcur]
  rw [load_loop_entry e config fuel h hws1 (plain_key_start hk),
    parse_entry_key e config h1 (by simp) hk hws2]
  simp only [List.length_nil, Nat.add_zero, hval]
  rw [hadd]
  simp only []
  rw [entry_eol e1 hrest hj hr]

/-- One round of the main loop over an entry line whose value `read_value`
rejects at the end of the input: nothing is added and the loop ends. -/
theorem step_entry_novalue {s : CStr} {n : Nat} (e : String) {config : Config}
    (fuel : Nat) {ws1 k ws2 r0 : CStr} {p : Nat} {e1 : String}
    (h : s.drop n = ws1 ++ (k ++ (ws2 ++ 61 :: r0)))
    (hws1 : ∀ c ∈ ws1, is_blank c = true) (hk : plain_key k)
    (hws2 : ∀ c ∈ ws2, is_blank c = true)
    (hval : read_value (pst s (n + ws1.length + k.length + ws2.length + 1) e)
      = (none, pst s p e1))
    (hrest : s.drop p = []) :
    load_loop (fuel + 1) (pst s n e) config = some (config, pst s p e1) := by
  obtain ⟨c, l, rfl⟩ : ∃ c l, k = c :: l := by
    obtain ⟨_, c, l, h2, _⟩ := hk
    exact ⟨c, l, h2⟩
  have h1 : s.drop (n + ws1.length) = [] ++ ((c :: l) ++ (ws2 ++ 61 :: r0)) :=
    drop_add_of_eq h
  rw [load_loop_entry e config fuel h hws1 (plain_key_start hk),
    parse_entry_key e config h1 (by simp) hk hws2]
  simp only [List.length_nil, Nat.add_zero, hval, peek_nil hrest, if_true]

/-- The last round of the main loop when the input ends with a double quote:
the section test steps back onto the quote, the entry parser reads it again as
the start of a quoted key and records an error; the loop then ends. -/
theorem load_loop_eof_quote {s : CStr} {m : Nat} (e : String) (config : Config)
    (fuel : Nat) (h : s.drop m = [34]) :
    load_loop (fuel + 1) (pst s (m + 1) e) config
      = some (config, pst s (m + 1) "Unclosed quotes in key") := by
  have h1 : s.drop (m + 1) = [] := drop_succ_of_eq h
  have hs : skip_whitespace (pst s m e) = pst s m e :=
    skip_whitespace_pst_zero e (by rw [h]; exact skip_whitespace_n_nospace _ (by decide))
  have hrs : read_section (pst s (m + 1) e) = (none, pst s m e) := by
    rw [read_section]
    simp only [skip_whitespace_eof e h1, getc_nil h1]
    simp [EOF, unget_pst]
  have hkey : read_key (pst s m e) = (none, pst s (m + 1) "Unclosed quotes in key") := by
    rw [read_key]
    simp only [hs, rest_pst, h]
    simp [read_key_scan, EOF, isspace, advance_pst, set_error_pst]
  have hpe : parse_config_entry (pst s m e) config
      = (false, pst s (m + 1) "Unclosed quotes in key", config) := by
    rw [parse_config_entry]
    simp only [skip_all_comments_unit e (show s.drop m = [] ++ 34 :: [] from h) (by simp)
      (by decide) (by decide) (by decide), List.length_nil, Nat.add_zero, hs, peek_cons h, hkey]
    simp [EOF]
  rw [load_loop_succ]
  simp only [skip_all_comments_eof e h1, hrs, hpe, peek_nil h1, if_true]

/-- One round of the main loop over a malformed entry line: a plain key, at
least one blank, then a byte that is not `=`, and more text before the newline.
The entry parser records an error; the loop clears the error buffer and skips
the rest of the line and its newline. -/
theorem step_bad_line {s : CStr} {n : Nat} (e : String) (config : Config) (fuel : Nat)
    {ws1 k ws2 junk t : CStr} {c : Int}
    (h : s.drop n = ws1 ++ (k ++ (ws2 ++ c :: (junk ++ 10 :: t))))
    (hws1 : ∀ x ∈ ws1, is_blank x = true) (hk : plain_key k)
    (hws2 : ∀ x ∈ ws2, is_blank x = true) (hws2n : ws2 ≠ [])
    (hcs : isspace c = false) (hceq : c ≠ 61)
    (hj : ∀ x ∈ junk, is_line_char x = true) :
    load_loop (fuel + 1) (pst s n e) config =
      load_loop fuel
        (pst s (n + ws1.length + k.length + ws2.length + 1 + (junk.length + 1)) "")
        config := by
  obtain ⟨d, l, rfl⟩ : ∃ d l, k = d :: l := by
    obtain ⟨_, d, l, h2, _⟩ := hk
    exact ⟨d, l, h2⟩
  have hd := plain_key_start hk
  obtain ⟨d1, d2, d3, d4, d5, d6⟩ := is_entry_start_spec hd
  have h1 : s.drop (n + ws1.length) = (d :: l) ++ (ws2 ++ c :: (junk ++ 10 :: t)) :=
    drop_add_of_eq h
  have h2 : s.drop (n + ws1.length + (d :: l).length) = ws2 ++ c :: (junk ++ 10 :: t) :=
    drop_add_of_eq h1
  have h3 : s.drop (n + ws1.length + (d :: l).length + ws2.length)
      = c :: (junk ++ 10 :: t) := drop_add_of_eq h2
  have h4 : s.drop (n + ws1.length + (d :: l).length + ws2.length + 1)
      = junk ++ 10 :: t := drop_succ_of_eq h3
  have hstop : key_stop (ws2 ++ c :: (junk ++ 10 :: t)) := by
    cases ws2 with
    | nil => exact absurd rfl hws2n
    | cons x ws2 =>
      exact Or.inr ⟨x, _, rfl, Or.inr (is_blank_isspace (hws2 x (List.mem_cons_self _ _)))⟩
  have hs1 : skip_whitespace (pst s (n + ws1.length) e) = pst s (n + ws1.length) e :=
    skip_whitespace_pst_zero e (by rw [h1]; exact skip_whitespace_n_nospace _ d2)
  have hs2 := skip_whitespace_pst e h2 hws2 (skip_whitespace_n_nospace _ hcs)
  have hpe : parse_config_entry (pst s (n + ws1.length) e) config
      = (false, pst s (n + ws1.length + (d :: l).length + ws2.length + 1)
          "Expected \x27=\x27 after key", config) := by
    rw [parse_config_entry]
    simp only [skip_all_comments_entry e (show s.drop (n + ws1.length)
        = [] ++ d :: (l ++ (ws2 ++ c :: (junk ++ 10 :: t))) from h1) (by simp) hd,
      List.length_nil, Nat.add_zero, hs1, peek_cons h1, if_neg d1, if_neg d6,
      read_key_plain e h1 hk.1 (by simp) hstop, hs2, getc_cons h3, ne_eq, hceq,
      not_false_eq_true, if_true, set_error_pst]
  have hpk : cparse_peek (pst s (n + ws1.length + (d :: l).length + ws2.length + 1)
      "Expected \x27=\x27 after key") ≠ EOF := by
    cases junk with
    | nil => rw [peek_cons h4]; decide
    | cons x junk =>
      rw [peek_cons h4]
      exact (is_line_char_spec (hj x (List.mem_cons_self _ _))).1
  rw [load_loop_entry e config fuel h hws1 hd, hpe]
  simp only [if_neg hpk, err_pst]
  rw [if_pos (by decide)]
  have hst : ({ pst s (n + ws1.length + (d :: l).length + ws2.length + 1)
      "Expected \x27=\x27 after key" with glb_err_buf := "" } : CPState)
      = pst s (n + ws1.length + (d :: l).length + ws2.length + 1) "" := rfl
  rw [hst, rest_pst, h4, skip_line_n_append junk (10 :: t) hj (Or.inr ⟨t, rfl⟩), advance_pst]
  simp

/-- One round of the main loop over an entry whose double-quoted value is never
closed, from any offset and with any configuration built so far: the loop ends,
the configuration is unchanged and the error message is `Unclosed quote`. -/
theorem unclosed_quote_round {s : CStr} {n : Nat} (e : String) (config : Config)
    (fuel : Nat) {ws1 k ws2 ws3 body : CStr}
    (h : s.drop n = ws1 ++ (k ++ (ws2 ++ 61 :: (ws3 ++ 34 :: body))))
    (hws1 : ∀ c ∈ ws1, is_blank c = true) (hk : plain_key k)
    (hws2 : ∀ c ∈ ws2, is_blank c = true) (hws3 : ∀ c ∈ ws3, is_blank c = true)
    (hbody : ∀ c ∈ body, is_open_char c = true) :
    ∃ p, s.drop p = [] ∧
      load_loop (fuel + 1) (pst s n e) config = some (config, pst s p "Unclosed quote") := by
  have h1 := drop_succ_of_eq (drop_add_of_eq (drop_add_of_eq (drop_add_of_eq h)))
  obtain ⟨p, hp, hval⟩ := read_value_unclosed e h1 hws3 hbody
  exact ⟨p, hp, step_entry_novalue e fuel h hws1 hk hws2 hval hp⟩

/-! ### Words of letters and digits -/

theorem is_alnum_spec {c : Int} (h : is_alnum c = true) :
    is_key_char c = true ∧ is_entry_start c = true ∧ is_value_char c = true ∧
      is_name_char c = true ∧ isspace c = false ∧ c ≠ 34 ∧ c ≠ 39 := by
  simp only [is_alnum, Bool.or_eq_true, Bool.and_eq_true, decide_eq_true_eq] at h
  simp only [is_key_char, is_entry_start, is_value_char, is_name_char, is_ascii, isspace,
    Bool.and_eq_true, Bool.or_eq_true, Bool.not_eq_true', Bool.or_eq_false_iff,
    Bool.and_eq_false_iff, decide_eq_true_eq, decide_eq_false_iff_not, bne_iff_ne, ne_eq,
    beq_eq_false_iff_ne]
  omega

theorem alnum_plain_key {w : CStr} (h : alnum_word w) : plain_key w := by
  obtain ⟨h0, h1⟩ := h
  refine ⟨fun c hc => (is_alnum_spec (h1 c hc)).1, ?_⟩
  cases w with
  | nil => exact absurd rfl h0
  | cons c l =>
    have hc := is_entry_start_spec (is_alnum_spec (h1 c (List.mem_cons_self _ _))).2.1
    exact ⟨c, l, rfl, hc.2.2.2.2.2, hc.2.2.2.1, hc.2.2.2.2.1⟩

theorem alnum_no_trailing_space {w : CStr} (h : ∀ c ∈ w, is_alnum c = true) :
    no_trailing_space w :=
  no_trailing_space_of_all (fun c hc => (is_alnum_spec (h c hc)).2.2.2.2.1)

theorem alnum_simple_value {w : CStr} (h : ∀ c ∈ w, is_alnum c = true) : simple_value w := by
  refine ⟨fun c hc => (is_alnum_spec (h c hc)).2.2.1, ?_, alnum_no_trailing_space h⟩
  intro c hc
  have h1 := is_alnum_spec (h c (List.mem_of_mem_head? hc))
  exact ⟨h1.2.2.2.2.2.1, h1.2.2.2.2.2.2, h1.2.2.2.2.1⟩

theorem alnum_name {w : CStr} (h : ∀ c ∈ w, is_alnum c = true) :
    ∀ c ∈ w, is_name_char c = true :=
  fun c hc => (is_alnum_spec (h c hc)).2.2.2.1

/-! ### Adequacy of the fuel -/

theorem rest_advance (st : CPState) (n : Nat) (h : n ≤ st.rest.length) :
    (st.advance n).rest = st.rest.drop n := by
  unfold CPState.rest CPState.advance at *
  by_cases hoff : st.off < 0
  · simp only [hoff, if_true, List.length_nil, Nat.le_zero_eq] at h
    subst h
    simp [hoff]
  · have h2 : ¬ (st.off + (n : Int) < 0) := by omega
    have h3 : (st.off + (n : Int)).toNat = st.off.toNat + n := by omega
    simp only [hoff, h2, if_false, h3, List.drop_drop]

theorem skip_whitespace_n_le (l : CStr) : skip_whitespace_n l ≤ l.length := by
  induction l with
  | nil => exact Nat.le_refl _
  | cons c l ih =>
    rw [skip_whitespace_n]
    split
    · simp only [List.length_cons]
      omega
    · exact Nat.zero_le _

theorem skip_line_n_le (l : CStr) : skip_line_n l ≤ l.length := by
  induction l with
  | nil => exact Nat.le_refl _
  | cons c l ih =>
    rw [skip_line_n]
    split
    · simp only [List.length_cons]
      omega
    · simp

theorem skip_line_n_pos (c : Int) (l : CStr) : 0 < skip_line_n (c :: l) := by
  rw [skip_line_n]
  split <;> omega

theorem rest_skip_whitespace (st : CPState) :
    (skip_whitespace st).rest = st.rest.drop (skip_whitespace_n st.rest) :=
  rest_advance st _ (skip_whitespace_n_le _)

theorem rest_getc_le (st : CPState) : (cparse_getc st).2.rest.length ≤ st.rest.length := by
  unfold cparse_getc
  cases h : st.rest with
  | nil => simp [h]
  | cons c t =>
    have h1 := rest_advance st 1 (by rw [h]; simp)
    rw [h] at h1
    simp only [CPState.advance, Nat.cast_one, List.drop_succ_cons, List.drop_zero] at h1
    simp [h1]

theorem rest_getc_lt (st : CPState) (h : (cparse_getc st).1 ≠ EOF) :
    (cparse_getc st).2.rest.length < st.rest.length := by
  unfold cparse_getc at *
  cases h2 : st.rest with
  | nil => simp [h2] at h
  | cons c t =>
    have h1 := rest_advance st 1 (by rw [h2]; simp)
    rw [h2] at h1
    simp only [CPState.advance, Nat.cast_one, List.drop_succ_cons, List.drop_zero] at h1
    simp [h1]

/-- A round of `skip_comments` that reports a skipped line consumes a byte. -/
theorem skip_comments_rest_lt (st : CPState) (h : (skip_comments st).1 = true) :
    (skip_comments st).2.rest.length < st.rest.length := by
  have hw : (skip_whitespace st).rest.length ≤ st.rest.length := by
    rw [rest_skip_whitespace, List.length_drop]
    omega
  unfold skip_comments at *
  by_cases h10 : cparse_peek (skip_whitespace st) = 10
  · simp only [h10, if_true]
    have := rest_getc_lt (skip_whitespace st) (by
      unfold cparse_peek at h10
      rw [h10]
      decide)
    omega
  · by_cases hc : cparse_peek (skip_whitespace st) = 35 ∨ cparse_peek (skip_whitespace st) = 59
    · simp only [h10, hc, if_true, if_false]
      cases hr : (skip_whitespace st).rest with
      | nil =>
        unfold cparse_peek cparse_getc at hc
        rw [hr] at hc
        simp [EOF] at hc
      | cons c t =>
        rw [rest_advance _ _ (by rw [hr]; exact skip_line_n_le _), hr, List.length_drop]
        have := skip_line_n_pos c t
        have := skip_line_n_le (c :: t)
        rw [hr] at hw
        omega
    · simp [h10, hc] at h

theorem skip_whitespace_n_drop (l : CStr) :
    skip_whitespace_n (l.drop (skip_whitespace_n l)) = 0 := by
  induction l with
  | nil => rfl
  | cons c l ih =>
    by_cases hc : c ≠ EOF ∧ isspace c = true ∧ c ≠ 10
    · rw [skip_whitespace_n, if_pos hc, List.drop_succ_cons]
      exact ih
    · rw [skip_whitespace_n, if_neg hc, List.drop_zero, skip_whitespace_n, if_neg hc]

theorem advance_zero (st : CPState) : st.advance 0 = st := by
  simp [CPState.advance]

theorem skip_whitespace_idem (st : CPState) :
    skip_whitespace (skip_whitespace st) = skip_whitespace st := by
  have h : skip_whitespace_n (skip_whitespace st).rest = 0 := by
    rw [rest_skip_whitespace]
    exact skip_whitespace_n_drop _
  conv_lhs => rw [skip_whitespace, h, advance_zero]

/-- When `skip_comments` reports that nothing was skipped, calling it again
reports the same. -/
theorem skip_comments_idem (st : CPState) (h : (skip_comments st).1 = false) :
    (skip_comments (skip_comments st).2).1 = false := by
  unfold skip_comments at h
  by_cases h10 : cparse_peek (skip_whitespace st) = 10
  · simp [h10] at h
  · by_cases hc : cparse_peek (skip_whitespace st) = 35 ∨
        cparse_peek (skip_whitespace st) = 59
    · simp [h10, hc] at h
    · have h2 : (skip_comments st).2 = skip_whitespace st := by
        unfold skip_comments
        simp only [h10, hc, if_false]
      rw [h2]
      unfold skip_comments
      simp only [skip_whitespace_idem, h10, hc, if_false]

/-- The fuel of `skip_all_comments` is enough: with more fuel than unread bytes
the loop `while (skip_comments(st))` stops because `skip_comments` returned 0. -/
theorem skip_comments_loop_done :
    ∀ (f : Nat) (st : CPState), st.rest.length < f →
      (skip_comments (skip_comments_loop f st)).1 = false := by
  intro f
  induction f with
  | zero =>
    intro st h
    exact absurd h (Nat.not_lt_zero _)
  | succ f ih =>
    intro st h
    rw [skip_comments_loop]
    cases hsc : skip_comments st with
    | mk b st1 =>
      cases b with
      | true =>
        have hlt := skip_comments_rest_lt st (by rw [hsc])
        rw [hsc] at hlt
        exact ih st1 (by simp only [] at hlt ⊢; omega)
      | false =>
        have h1 := skip_comments_idem st (by rw [hsc])
        rw [hsc] at h1
        exact h1

theorem skip_all_comments_done (st : CPState) :
    (skip_comments (skip_all_comments st)).1 = false :=
  skip_comments_loop_done _ st (Nat.lt_succ_self _)

/-- The fuel of `read_quoted_value` is enough: with more fuel than unread bytes
the result of the loop does not depend on the fuel, so the round that runs out
of fuel is never reached. -/
theorem read_quoted_loop_fuel (q : Int) :
    ∀ (f1 f2 : Nat) (st : CPState) (buf : CStr) (esc : Bool),
      st.rest.length < f1 → st.rest.length < f2 →
      read_quoted_loop q f1 st buf esc = read_quoted_loop q f2 st buf esc := by
  intro f1
  induction f1 with
  | zero =>
    intro f2 st buf esc h
    exact absurd h (Nat.not_lt_zero _)
  | succ f1 ih =>
    intro f2 st buf esc h1 h2
    cases f2 with
    | zero => exact absurd h2 (Nat.not_lt_zero _)
    | succ f2 =>
      rw [read_quoted_loop_succ, read_quoted_loop_succ]
      by_cases he : (cparse_getc st).1 = EOF
      · simp only [he, if_true]
      · have hlt := rest_getc_lt st he
        have hw : (skip_whitespace (cparse_getc st).2).rest.length
            ≤ (cparse_getc st).2.rest.length := by
          rw [rest_skip_whitespace, List.length_drop]
          omega
        have e1 : ∀ b c, read_quoted_loop q f1 (cparse_getc st).2 b c
            = read_quoted_loop q f2 (cparse_getc st).2 b c :=
          fun b c => ih f2 _ b c (by omega) (by omega)
        have e2 : ∀ b c, read_quoted_loop q f1 (skip_whitespace (cparse_getc st).2) b c
            = read_quoted_loop q f2 (skip_whitespace (cparse_getc st).2) b c :=
          fun b c => ih f2 _ b c (by omega) (by omega)
        simp only [e1, e2]

theorem load_loop_zero (st : CPState) (config : Config) : load_loop 0 st config = none := rfl

/-- More fuel does not change a result of the main loop. -/
theorem load_loop_mono :
    ∀ (f : Nat) (st : CPState) (config : Config) (r : Config × CPState),
      load_loop f st config = some r → load_loop (f + 1) st config = some r := by
  intro f
  induction f with
  | zero =>
    intro st config r h
    rw [load_loop_zero] at h
    cases h
  | succ f ih =>
    intro st config r h
    rw [load_loop_succ] at h ⊢
    cases hrs : read_section (skip_all_comments st) with
    | mk o st2 =>
      rw [hrs] at h
      cases o with
      | some name => exact ih _ _ _ h
      | none =>
        simp only [] at h ⊢
        cases hpe : parse_config_entry st2 config with
        | mk b rest =>
          obtain ⟨st3, c1⟩ := rest
          rw [hpe] at h
          cases b with
          | true => exact ih _ _ _ h
          | false =>
            simp only [] at h ⊢
            by_cases hp : cparse_peek st3 = EOF
            · rw [if_pos hp] at h ⊢
              exact h
            · rw [if_neg hp] at h ⊢
              by_cases he : 0 < st3.glb_err_buf.length
              · rw [if_pos he] at h ⊢
                exact ih _ _ _ h
              · rw [if_neg he] at h ⊢
                exact ih _ _ _ h

/-! ## Lookup -/


theorem find_entry_eq_find (key : CStr) (es : List ConfigEntry) :
    find_entry key es = (es.find? (fun e => decide (e.key = key))).map (fun e => e.value) := by
  induction es with
  | nil => rfl
  | cons e es ih =>
    by_cases h : e.key = key
    · simp [find_entry, List.find?, h]
    · simp [find_entry, List.find?, h, ih]

theorem find_entry_eq_none (key : CStr) (es : List ConfigEntry) :
    find_entry key es = none ↔ ∀ e ∈ es, e.key ≠ key := by
  induction es with
  | nil => simp [find_entry]
  | cons e es ih =>
    by_cases h : e.key = key
    · simp [find_entry, h]
    · simp [find_entry, h, ih]

theorem find_entry_append (key : CStr) (es fs : List ConfigEntry) :
    find_entry key (es ++ fs) =
      match find_entry key es with
      | some v => some v
      | none => find_entry key fs := by
  induction es with
  | nil => simp [find_entry]
  | cons e es ih =>
    by_cases h : e.key = key
    · simp [find_entry, h]
    · simp [find_entry, h, ih]

/-- C3: scoped lookup. With a section name `s`, `cparse_read` looks only at the
first section (in stored order) whose name is `s` and returns the value of its
first entry with key `k`; the result is `NULL` when that section has no such
entry, whatever later sections hold, and `NULL` when no section is named `s`. -/
theorem cparse_read_scoped (c : Config) (s k : CStr) :
    cparse_read c (some s) k =
      match c.sections.find? (fun sec => decide (sec.name = s)) with
      | none => none
      | some sec => (sec.entries.find? (fun e => decide (e.key = k))).map (fun e => e.value) := by
  unfold cparse_read
  induction c.sections with
  | nil => rfl
  | cons sec ss ih =>
    by_cases h : sec.name = s
    · simp [read_sections, List.find?, h, find_entry_eq_find]
    · simp [read_sections, List.find?, h, ih]

/-- C4: unscoped lookup. With a `NULL` section, `cparse_read` returns the value
of the first entry with key `k` in the concatenation of the entry lists of all
sections, in stored order, and `NULL` exactly when no entry of any section has
key `k`. -/
theorem cparse_read_unscoped (c : Config) (k : CStr) :
    cparse_read c none k =
        (((c.sections.map (fun sec => sec.entries)).flatten).find?
          (fun e => decide (e.key = k))).map (fun e => e.value) ∧
      (cparse_read c none k = none ↔ ∀ sec ∈ c.sections, ∀ e ∈ sec.entries, e.key ≠ k) := by
  unfold cparse_read
  constructor
  · induction c.sections with
    | nil => rfl
    | cons sec ss ih =>
      rw [read_sections, ← find_entry_eq_find] at *
      simp only [List.map_cons, List.flatten_cons, find_entry_append]
      cases find_entry k sec.entries <;> simp [ih]
  · induction c.sections with
    | nil => simp [read_sections]
    | cons sec ss ih =>
      rw [read_sections]
      cases h : find_entry k sec.entries with
      | none =>
        have h1 := (find_entry_eq_none k sec.entries).1 h
        simp only [ih, List.mem_cons, forall_eq_or_imp]
        exact ⟨fun h2 => ⟨h1, h2⟩, fun h2 => h2.2⟩
      | some v =>
        simp only [List.mem_cons, forall_eq_or_imp]
        have : ¬ ∀ e ∈ sec.entries, e.key ≠ k := by
          rw [← find_entry_eq_none, h]; simp
        simp [this]

/-! ## Parsing one entry line -/

theorem parse_eq (fuel : Nat) (text : CStr) :
    parse fuel text = load_loop fuel (pst text 0 "") config_start := rfl

/-- C1: a well-formed `key = value` line with a simple value. For a plain key
`k`, a simple value `v` (possibly empty), runs of spaces and tabs `ws1 .. ws4`
and an optional `#` or `;` comment, parsing the line
`ws1 k ws2 = ws3 v ws4 comment` followed by a newline returns a configuration
(for every fuel of at least two rounds) whose default section holds exactly the
entry `(k, v)`, so that `cparse_read` with a `NULL` section and with the section
name `""` both return exactly `v`. -/
theorem parse_simple_entry_line (ws1 k ws2 ws3 v ws4 cmt : CStr) (fuel : Nat)
    (hws1 : ∀ c ∈ ws1, is_blank c = true) (hk : plain_key k)
    (hws2 : ∀ c ∈ ws2, is_blank c = true) (hws3 : ∀ c ∈ ws3, is_blank c = true)
    (hv : simple_value v) (hws4 : ∀ c ∈ ws4, is_blank c = true)
    (hcmt : line_comment cmt) :
    (parse (fuel + 2) (ws1 ++ k ++ ws2 ++ [61] ++ ws3 ++ v ++ ws4 ++ cmt ++ [10])).map
        (fun r => (r.1.sections, cparse_read r.1 none k, cparse_read r.1 (some []) k))
      = some ([{ name := [], entries := [{ key := k, value := v }] }], some v, some v) := by
  have h : (ws1 ++ k ++ ws2 ++ [61] ++ ws3 ++ v ++ ws4 ++ cmt ++ [10]).drop 0
      = ws1 ++ (k ++ (ws2 ++ 61 :: (ws3 ++ (v ++ (ws4 ++ (cmt ++ [10])))))) := by
    simp
  have hlen : 0 + ws1.length + k.length + ws2.length + 1 + ws3.length + v.length
      + ws4.length + cmt.length + min 1 [(10 : Int)].length
      = (ws1 ++ k ++ ws2 ++ [61] ++ ws3 ++ v ++ ws4 ++ cmt).length + 1 := by
    simp only [List.length_append, List.length_singleton]
    omega
  have hlast : (ws1 ++ k ++ ws2 ++ [61] ++ ws3 ++ v ++ ws4 ++ cmt ++ [10]).drop
      (ws1 ++ k ++ ws2 ++ [61] ++ ws3 ++ v ++ ws4 ++ cmt).length = [10] :=
    List.drop_left _ _
  rw [parse_eq, load_loop_simple_line "" (fuel + 1) h hws1 hk hws2 hws3 hv hws4 hcmt
      (Or.inr ⟨[], rfl⟩) (show config_start.current_section = some 0 from rfl),
    hlen, load_loop_eof_newline "" _ fuel hlast]
  simp [cparse_read, config_add_entry, config_start, append_entry, read_sections, find_entry]

/-- Instance of C1 on the line ` name = value one  # note`. -/
theorem parse_simple_entry_line_witness :
    (parse 2 (ofString " name = value one  # note\n")).map
        (fun r => (r.1.sections, cparse_read r.1 none (ofString "name"),
          cparse_read r.1 (some []) (ofString "name")))
      = some ([{ name := [], entries :=
            [{ key := ofString "name", value := ofString "value one" }] }],
          some (ofString "value one"), some (ofString "value one")) :=
  parse_simple_entry_line (ofString " ") (ofString "name") (ofString " ") (ofString " ")
    (ofString "value one") (ofString "  ") (ofString "# note") 0
    (by decide) (by decide) (by decide) (by decide) (by decide) (by decide) (by decide)

/-! ## The default section -/

/-- C2: entries before the first header go to the default section. For
non-empty alphanumeric `k1 ≠ k2`, `s`, `v1`, `v2`, parsing the text
`k1 = v1`, newline, `[s]`, newline, `k2 = v2`, with or without a final newline
(`nl`), returns (for every fuel of at least four rounds) a configuration made of
the default section `""` holding `(k1, v1)` and the section `s` holding
`(k2, v2)`; so `cparse_read(cfg, "", k1)` is `v1`, `cparse_read(cfg, s, k2)` is
`v2` and `cparse_read(cfg, NULL, k2)` is `v2`. -/
theorem parse_default_section (k1 k2 s v1 v2 nl : CStr) (fuel : Nat)
    (hk1 : alnum_word k1) (hk2 : alnum_word k2) (hne : k1 ≠ k2) (hs : alnum_word s)
    (hv1 : alnum_word v1) (hv2 : alnum_word v2) (hnl : nl = [] ∨ nl = [10]) :
    (parse (fuel + 4)
        (k1 ++ [32, 61, 32] ++ v1 ++ [10] ++ [91] ++ s ++ [93, 10]
          ++ k2 ++ [32, 61, 32] ++ v2 ++ nl)).map
        (fun r => (r.1.sections, cparse_read r.1 (some []) k1, cparse_read r.1 (some s) k2,
          cparse_read r.1 none k2))
      = some ([{ name := [], entries := [{ key := k1, value := v1 }] },
               { name := s, entries := [{ key := k2, value := v2 }] }],
          some v1, some v2, some v2) := by
  have hb : ∀ c ∈ [(32 : Int)], is_blank c = true := by decide
  have hb0 : ∀ c ∈ ([] : CStr), is_blank c = true := by simp
  have hc0 : line_comment [] := by decide
  have hl0 : ∀ c ∈ ([] : CStr), is_line_char c = true := by simp
  have h0 : (k1 ++ [32, 61, 32] ++ v1 ++ [10] ++ [91] ++ s ++ [93, 10]
      ++ k2 ++ [32, 61, 32] ++ v2 ++ nl).drop 0
      = entry_line [] k1 [32] [32] v1 [] [] ++ (10 :: (header_line [] s [] ++
          (10 :: (entry_line [] k2 [32] [32] v2 [] [] ++ nl)))) := by
    simp [entry_line, header_line]
  have h1 := drop_succ_of_eq (drop_add_of_eq h0)
  have h2 := drop_succ_of_eq (drop_add_of_eq h1)
  have hsne : ¬ ([] : CStr) = s := fun h => hs.1 h.symm
  rw [parse_eq,
    step_entry_nl "" (fuel + 3) h0 hb0 (alnum_plain_key hk1) hb hb (alnum_simple_value hv1.2)
      hb0 hc0 (show config_start.current_section = some 0 from rfl),
    step_header_nl "" _ (fuel + 2) h1 hb0 (alnum_name hs.2) hl0,
    rtrim_self s (alnum_no_trailing_space hs.2)]
  rcases hnl with rfl | rfl
  · obtain ⟨l, c, rfl⟩ : ∃ l c, v2 = l ++ [c] := by
      rcases List.eq_nil_or_concat v2 with h | ⟨l, c, h⟩
      · exact absurd h hv2.1
      · exact ⟨l, c, by simpa using h⟩
    have hc := is_alnum_spec (hv2.2 c (by simp))
    have h3 : ((k1 ++ [32, 61, 32] ++ v1 ++ [10] ++ [91] ++ s ++ [93, 10]
        ++ k2 ++ [32, 61, 32] ++ (l ++ [c]) ++ []).drop
          (0 + (entry_line [] k1 [32] [32] v1 [] []).length + 1
            + (header_line [] s []).length + 1
            + (entry_line [] k2 [32] [32] l [] []).length)) = [c] := by
      have h3 : (k1 ++ [32, 61, 32] ++ v1 ++ [10] ++ [91] ++ s ++ [93, 10]
          ++ k2 ++ [32, 61, 32] ++ (l ++ [c]) ++ []).drop
            (0 + (entry_line [] k1 [32] [32] v1 [] []).length + 1
              + (header_line [] s []).length + 1)
          = entry_line [] k2 [32] [32] l [] [] ++ [c] := by
        rw [h2]
        simp [entry_line]
      exact drop_add_of_eq h3
    have hlen : (entry_line [] k2 [32] [32] (l ++ [c]) [] []).length
        = (entry_line [] k2 [32] [32] l [] []).length + 1 := by
      simp [entry_line]
      omega
    rw [step_entry_end "" (fuel + 1) (by simpa using h2) hb0 (alnum_plain_key hk2) hb hb
        (alnum_simple_value hv2.2) hb0 hc0 rfl, hlen, ← Nat.add_assoc,
      load_loop_eof_key "" _ fuel h3 hc.2.1 hc.1]
    simp [cparse_read, config_add_entry, config_add_section, config_start, append_entry,
      read_sections, find_entry, hne, hsne]
  · have h3 := drop_add_of_eq h2
    rw [step_entry_nl "" (fuel + 1) h2 hb0 (alnum_plain_key hk2) hb hb
        (alnum_simple_value hv2.2) hb0 hc0 rfl,
      load_loop_eof_newline "" _ fuel h3]
    simp [cparse_read, config_add_entry, config_add_section, config_start, append_entry,
      read_sections, find_entry, hne, hsne]

/-- Instance of C2 on the text `x = 1`, `[s]`, `y = 2` without final newline. -/
theorem parse_default_section_witness :
    (parse 4 (ofString "x = 1\n[s]\ny = 2")).map
        (fun r => (r.1.sections, cparse_read r.1 (some []) (ofString "x"),
          cparse_read r.1 (some (ofString "s")) (ofString "y"),
          cparse_read r.1 none (ofString "y")))
      = some ([{ name := [], entries := [{ key := ofString "x", value := ofString "1" }] },
               { name := ofString "s",
                 entries := [{ key := ofString "y", value := ofString "2" }] }],
          some (ofString "1"), some (ofString "2"), some (ofString "2")) :=
  parse_default_section (ofString "x") (ofString "y") (ofString "s") (ofString "1")
    (ofString "2") [] 0 (by decide) (by decide) (by decide) (by decide) (by decide)
    (by decide) (by decide)

/-! ## Escape decoding -/

/-- C5 (failing input): on `k = "a\nb"`, where the body holds the escape pair
backslash `n`, the stored value is `a`, newline, a space, `b`: the decoded
newline is taken for a line break of a multiline value and a space is added
after it, so the pair is not replaced by exactly one byte. -/
theorem escaped_newline_inserts_space :
    (parse 2 (ofString "k = \"a\\nb\"")).map
        (fun r => cparse_read r.1 none (ofString "k"))
      = some (some [97, 10, 32, 98]) := by
  decide

/-- The instance `k = "a\tb\"c"` of the specification: the escapes for tab and
for the double quote are each decoded to one byte. -/
theorem escape_instance_decodes :
    (parse 2 (ofString "k = \"a\\tb\\\"c\"")).map
        (fun r => cparse_read r.1 none (ofString "k"))
      = some (some [97, 9, 98, 34, 99]) := by
  decide

/-! ## Multiline quoted values -/

/-- C6 (counterexample): on `key = "line one`, newline, two spaces, `line two"`
the stored value is not `line one line two`. -/
theorem multiline_value_not_single_space :
    (parse 2 (ofString "key = \"line one\n  line two\"")).map
        (fun r => cparse_read r.1 none (ofString "key"))
      ≠ some (some (ofString "line one line two")) := by
  decide

/-- C6 (amended): for a plain key `k`, plain strings `a` and `b` (no `"`, no
backslash, no newline; `b` not starting with whitespace, `#`, `;` or `[`) and a
run `w` of spaces and tabs, parsing `k = "a`, newline, `w`, `b"` (with or without
a final newline) stores for `k` the value `a`, the newline, one space, `b`: the
newline is kept, the indentation is dropped and one space follows the newline.
When `b` is empty the value is `a` followed by the newline. -/
theorem parse_two_line_value (k a w b nl : CStr) (fuel : Nat) (hk : plain_key k)
    (ha : ∀ c ∈ a, is_plain_char c = true) (hw : ∀ c ∈ w, is_blank c = true)
    (hb : ∀ c ∈ b, is_plain_char c = true)
    (hb0 : ∀ c ∈ b.head?, isspace c = false ∧ c ≠ 35 ∧ c ≠ 59 ∧ c ≠ 91)
    (hnl : nl = [] ∨ nl = [10]) :
    (parse (fuel + 2)
        (k ++ [32, 61, 32, 34] ++ a ++ [10] ++ w ++ b ++ [34] ++ nl)).map
        (fun r => (r.1.sections, cparse_read r.1 none k))
      = some ([{ name := [], entries :=
            [{ key := k, value := a ++ 10 :: (if b = [] then [] else 32 :: b) }] }],
          some (a ++ 10 :: (if b = [] then [] else 32 :: b))) := by
  have hbl : ∀ c ∈ [(32 : Int)], is_blank c = true := by decide
  have h0 : (k ++ [32, 61, 32, 34] ++ a ++ [10] ++ w ++ b ++ [34] ++ nl).drop 0
      = [] ++ (k ++ ([32] ++ 61 :: ([32] ++ 34 :: (a ++ 10 :: (w ++ (b ++ 34 :: nl)))))) := by
    simp
  have hA := drop_succ_of_eq (drop_add_of_eq (drop_add_of_eq (drop_add_of_eq h0)))
  have hval := read_value_two_lines "" hA hbl ha hw hb hb0
  have hq := drop_add_of_eq (drop_add_of_eq (drop_succ_of_eq (drop_add_of_eq
    (drop_succ_of_eq (drop_add_of_eq hA)))))
  have hrest := drop_succ_of_eq hq
  rw [parse_eq, step_entry_value "" (fuel + 1) h0 (by simp) hk hbl hval
    (show _ = [] ++ nl from hrest) (by simp)
    (by rcases hnl with rfl | rfl
        · exact Or.inl rfl
        · exact Or.inr ⟨[], rfl⟩)
    (show config_start.current_section = some 0 from rfl)]
  rcases hnl with rfl | rfl
  · simp only [List.length_nil, Nat.min_zero, Nat.add_zero] at hq ⊢
    rw [load_loop_eof_quote "" _ fuel hq]
    simp [cparse_read, config_add_entry, config_start, append_entry, read_sections,
      find_entry]
  · simp only [List.length_nil, List.length_singleton, Nat.min_self, Nat.add_zero] at hrest ⊢
    rw [load_loop_eof_newline "" _ fuel hrest]
    simp [cparse_read, config_add_entry, config_start, append_entry, read_sections,
      find_entry]

/-- Instance of the amended C6 on `key = "line one`, newline, `  line two"`. -/
theorem parse_two_line_value_witness :
    (parse 2 (ofString "key = \"line one\n  line two\"")).map
        (fun r => (r.1.sections, cparse_read r.1 none (ofString "key")))
      = some ([{ name := [], entries :=
            [{ key := ofString "key", value := ofString "line one\n line two" }] }],
          some (ofString "line one\n line two")) :=
  parse_two_line_value (ofString "key") (ofString "line one") (ofString "  ")
    (ofString "line two") [] 0 (by decide) (by decide) (by decide) (by decide) (by decide)
    (by decide)

/-! ## Error recovery -/

/-- C7 (failing input): on `bad`, newline, `key = ok` the malformed line is a
key directly followed by the newline. The test for `=` consumes that newline,
and the recovery then skips up to the next newline, which discards the line
`key = ok`: the configuration has no entry for `key`. -/
theorem recovery_skips_next_line :
    (parse 2 (ofString "bad\nkey = ok")).map
        (fun r => (r.1.sections, cparse_read r.1 none (ofString "key")))
      = some ([{ name := [], entries := [] }], none) := by
  decide

/-- The instance `bad line without equals`, newline, `key = ok` of the
specification: a byte other than `=` follows the key on the malformed line, the
newline is left for the recovery and the next line is kept. -/
theorem recovery_instance_keeps_next_line :
    (parse 3 (ofString "bad line without equals\nkey = ok")).map
        (fun r => cparse_read r.1 none (ofString "key"))
      = some (some (ofString "ok")) := by
  decide

/-- C8 (counterexample): after parsing `bad line without equals`, newline,
`key = ok`, newline, the entry is read back but the error slot is empty. -/
theorem recovered_error_not_kept :
    (parse 3 (ofString "bad line without equals\nkey = ok\n")).map
        (fun r => (cparse_read r.1 none (ofString "key"), XConfig_HaveError r.2))
      = some (some (ofString "ok"), false) := by
  decide

/-- C8 (amended): a recovered error is cleared from the error slot. For a
malformed line made of a plain key `k0`, at least one blank, a byte `c` that is
neither `=` nor whitespace and more text `junk`, followed by a newline and a
well-formed line `k = v` ending with a newline, parsing returns a configuration
where `cparse_read(cfg, NULL, k)` is `v`, and the error slot is empty:
`XConfig_GetError()` is the empty string and `XConfig_HaveError()` is false. -/
theorem recovered_error_is_cleared (k0 ws junk k v : CStr) (c : Int) (fuel : Nat)
    (hk0 : plain_key k0) (hws : ∀ x ∈ ws, is_blank x = true) (hwsn : ws ≠ [])
    (hcs : isspace c = false) (hceq : c ≠ 61) (hj : ∀ x ∈ junk, is_line_char x = true)
    (hk : plain_key k) (hv : simple_value v) :
    (parse (fuel + 3)
        (k0 ++ ws ++ [c] ++ junk ++ [10] ++ k ++ [32, 61, 32] ++ v ++ [10])).map
        (fun r => (r.1.sections, cparse_read r.1 none k, XConfig_GetError r.2,
          XConfig_HaveError r.2))
      = some ([{ name := [], entries := [{ key := k, value := v }] }], some v, "", false) := by
  have hb : ∀ x ∈ [(32 : Int)], is_blank x = true := by decide
  have hb0 : ∀ x ∈ ([] : CStr), is_blank x = true := by simp
  have h0 : (k0 ++ ws ++ [c] ++ junk ++ [10] ++ k ++ [32, 61, 32] ++ v ++ [10]).drop 0
      = [] ++ (k0 ++ (ws ++ c :: (junk ++ 10 ::
          (entry_line [] k [32] [32] v [] [] ++ 10 :: [])))) := by
    simp [entry_line]
  have h1 : (k0 ++ ws ++ [c] ++ junk ++ [10] ++ k ++ [32, 61, 32] ++ v ++ [10]).drop
      (0 + ([] : CStr).length + k0.length + ws.length + 1 + (junk.length + 1))
      = entry_line [] k [32] [32] v [] [] ++ 10 :: [] := by
    have := drop_succ_of_eq (drop_add_of_eq (drop_succ_of_eq (drop_add_of_eq
      (drop_add_of_eq (drop_add_of_eq h0)))))
    rwa [Nat.add_assoc _ junk.length 1] at this
  have h2 := drop_add_of_eq h1
  rw [parse_eq, step_bad_line "" _ (fuel + 2) h0 hb0 hk0 hws hwsn hcs hceq hj,
    step_entry_nl "" (fuel + 1) h1 hb0 hk hb hb hv hb0 (by decide)
      (show config_start.current_section = some 0 from rfl),
    load_loop_eof_newline "" _ fuel h2]
  simp [cparse_read, config_add_entry, config_start, append_entry, read_sections,
    find_entry, XConfig_GetError, XConfig_HaveError, err_pst]

/-- Instance of the amended C8 on `bad line without equals`, `key = ok`. -/
theorem recovered_error_is_cleared_witness :
    (parse 3 (ofString "bad line without equals\nkey = ok\n")).map
        (fun r => (r.1.sections, cparse_read r.1 none (ofString "key"), XConfig_GetError r.2,
          XConfig_HaveError r.2))
      = some ([{ name := [], entries :=
            [{ key := ofString "key", value := ofString "ok" }] }],
          some (ofString "ok"), "", false) :=
  recovered_error_is_cleared (ofString "bad") (ofString " ") (ofString "ine without equals")
    (ofString "key") (ofString "ok") 108 0 (by decide) (by decide) (by decide) (by decide)
    (by decide) (by decide) (by decide) (by decide)

/-! ## Unclosed quotes -/

/-- C9: an unclosed quoted value is rejected. For a plain key `k`, runs of
blanks and a body without `"` and without backslash (newlines allowed), parsing
the text `k = "body`, which ends before any closing quote, returns a
configuration with no entry at all, so `cparse_read(cfg, NULL, k)` is `NULL`,
and the error slot holds the message `Unclosed quote`. -/
theorem unclosed_quote_rejected (ws1 k ws2 ws3 body : CStr) (fuel : Nat)
    (hws1 : ∀ c ∈ ws1, is_blank c = true) (hk : plain_key k)
    (hws2 : ∀ c ∈ ws2, is_blank c = true) (hws3 : ∀ c ∈ ws3, is_blank c = true)
    (hbody : ∀ c ∈ body, is_open_char c = true) :
    (parse (fuel + 1) (ws1 ++ k ++ ws2 ++ [61] ++ ws3 ++ [34] ++ body)).map
        (fun r => (r.1.sections, cparse_read r.1 none k, XConfig_GetError r.2,
          XConfig_HaveError r.2))
      = some ([{ name := [], entries := [] }], none, "Unclosed quote", true) := by
  have h0 : (ws1 ++ k ++ ws2 ++ [61] ++ ws3 ++ [34] ++ body).drop 0
      = ws1 ++ (k ++ (ws2 ++ 61 :: (ws3 ++ 34 :: body))) := by
    simp
  obtain ⟨p, _, hp⟩ := unclosed_quote_round "" config_start fuel h0 hws1 hk hws2 hws3 hbody
  rw [parse_eq, hp]
  rfl

/-- Instance of C9 on `key = "unterminated`. -/
theorem unclosed_quote_rejected_witness :
    (parse 1 (ofString "key = \"unterminated")).map
        (fun r => (r.1.sections, cparse_read r.1 none (ofString "key"), XConfig_GetError r.2,
          XConfig_HaveError r.2))
      = some ([{ name := [], entries := [] }], none, "Unclosed quote", true) :=
  unclosed_quote_rejected [] (ofString "key") (ofString " ") (ofString " ")
    (ofString "unterminated") 0 (by decide) (by decide) (by decide) (by decide) (by decide)

/-- C10 (counterexample): after `key = "unterminated`, newline, `other = ok`,
newline, the configuration has no entry for `other`. -/
theorem line_after_unclosed_quote_lost :
    (parse 2 (ofString "key = \"unterminated\nother = ok\n")).map
        (fun r => cparse_read r.1 none (ofString "other"))
      = some none := by
  decide

/-- C10 (amended): an unclosed quote swallows the following lines. For a plain
key `k` and texts `u` and `rest` without `"` and without backslash, parsing
`k = "u`, newline, `rest` reads the quoted value on to the end of the input: the
returned configuration has no entry at all, so `cparse_read(cfg, NULL, k2)` is
`NULL` for every key `k2` of a following line, and the error slot holds
`Unclosed quote`. -/
theorem unclosed_quote_swallows_lines (k u rest k2 : CStr) (fuel : Nat) (hk : plain_key k)
    (hu : ∀ c ∈ u, is_open_char c = true) (hrest : ∀ c ∈ rest, is_open_char c = true) :
    (parse (fuel + 1) (k ++ [32, 61, 32, 34] ++ u ++ [10] ++ rest)).map
        (fun r => (r.1.sections, cparse_read r.1 none k2, XConfig_GetError r.2))
      = some ([{ name := [], entries := [] }], none, "Unclosed quote") := by
  have hb : ∀ c ∈ [(32 : Int)], is_blank c = true := by decide
  have h0 : (k ++ [32, 61, 32, 34] ++ u ++ [10] ++ rest).drop 0
      = [] ++ (k ++ ([32] ++ 61 :: ([32] ++ 34 :: (u ++ 10 :: rest)))) := by
    simp
  have hbody : ∀ c ∈ u ++ 10 :: rest, is_open_char c = true := by
    intro c hc
    rcases List.mem_append.1 hc with hc | hc
    · exact hu c hc
    · rcases List.mem_cons.1 hc with hc | hc
      · subst hc
        decide
      · exact hrest c hc
  obtain ⟨p, _, hp⟩ := unclosed_quote_round "" config_start fuel h0 (by simp) hk hb hb hbody
  rw [parse_eq, hp]
  rfl

/-- Instance of the amended C10 on `key = "unterminated`, `other = ok`. -/
theorem unclosed_quote_swallows_lines_witness :
    (parse 1 (ofString "key = \"unterminated\nother = ok\n")).map
        (fun r => (r.1.sections, cparse_read r.1 none (ofString "other"),
          XConfig_GetError r.2))
      = some ([{ name := [], entries := [] }], none, "Unclosed quote") :=
  unclosed_quote_swallows_lines (ofString "key") (ofString "unterminated")
    (ofString "other = ok\n") (ofString "other") 0 (by decide) (by decide) (by decide)

/-! ## Termination and the end of the input -/

/-- The section test at the end of the input: nothing is read and the offset is
decremented all the same. -/
theorem read_section_eof {s : CStr} {m : Nat} (e : String) (h : s.drop (m + 1) = []) :
    read_section (pst s (m + 1) e) = (none, pst s m e) := by
  rw [read_section]
  simp only [skip_whitespace_eof e h, getc_nil h]
  simp [EOF, unget_pst]

/-- A round of the main loop at the end of an input whose last byte is `=`: the
section test steps back onto the `=`, the entry parser reads an empty key, the
`=` and an empty value, and appends the entry `("", "")`; the offset is at the
end of the input again. -/
theorem load_loop_eof_eq {s : CStr} {m : Nat} (e : String) (config : Config) (i : Nat)
    (fuel : Nat) (h : s.drop m = [61]) (hcur : config.current_section = some i) :
    load_loop (fuel + 1) (pst s (m + 1) e) config
      = load_loop fuel (pst s (m + 1) e) (config_add_entry config [] []).2 := by
  have h1 : s.drop (m + 1) = [] := drop_succ_of_eq h
  have hs : skip_whitespace (pst s m e) = pst s m e :=
    skip_whitespace_pst_zero e (by rw [h]; exact skip_whitespace_n_nospace _ (by decide))
  have hkey : read_key (pst s m e) = (some [], pst s m e) := by
    rw [read_key]
    simp only [hs, rest_pst, h]
    simp [read_key_scan, EOF, advance_pst, rtrim]
  have hval : read_value (pst s (m + 1) e) = (some [], pst s (m + 1) e) := by
    have := read_value_simple e (show s.drop (m + 1) = [] ++ ([] ++ ([] ++ [])) from h1)
      (by simp) (by decide) (by simp) (Or.inl rfl)
    simpa using this
  have hadd : config_add_entry config [] [] = (true, (config_add_entry config [] []).2) := by
    rw [config_add_entry, hcur]
  have hpe : parse_config_entry (pst s m e) config
      = (true, pst s (m + 1) e, (config_add_entry config [] []).2) := by
    rw [parse_config_entry]
    simp only [skip_all_comments_unit e (show s.drop m = [] ++ 61 :: [] from h) (by simp)
      (by decide) (by decide) (by decide), List.length_nil, Nat.add_zero, hs, peek_cons h, hkey,
      getc_cons h, hval]
    rw [hadd]
    simp only [rest_pst, h1, skip_to_eol_n, advance_pst, Nat.add_zero, peek_nil h1]
    simp [EOF]
  rw [load_loop_succ]
  simp only [skip_all_comments_eof e h1, read_section_eof e h1, hpe]

theorem config_add_entry_current (config : Config) (key value : CStr) :
    (config_add_entry config key value).2.current_section = config.current_section := by
  cases h : config.current_section with
  | none => simp [config_add_entry, h]
  | some i => simp [config_add_entry, h]

theorem config_add_section_current (config : Config) (name : CStr) :
    (config_add_section config name).current_section = some config.sections.length := rfl

/-- At the end of an input whose last byte is `=` the main loop never reaches
its `break`, whatever the fuel. -/
theorem load_loop_eof_eq_diverges {s : CStr} {m : Nat} (e : String) (h : s.drop m = [61]) :
    ∀ (fuel : Nat) (config : Config) (i : Nat), config.current_section = some i →
      load_loop fuel (pst s (m + 1) e) config = none := by
  intro fuel
  induction fuel with
  | zero =>
    intro config i _
    rfl
  | succ fuel ih =>
    intro config i hcur
    rw [load_loop_eof_eq e config i fuel h hcur]
    exact ih _ i (by rw [config_add_entry_current]; exact hcur)

/-- The same for every text made of a plain key, blanks and a final `=`: the
main loop never returns. -/
theorem trailing_equals_diverges (k ws : CStr) (fuel : Nat) (hk : plain_key k)
    (hws : ∀ c ∈ ws, is_blank c = true) :
    parse fuel (k ++ ws ++ [61]) = none := by
  cases fuel with
  | zero => rfl
  | succ fuel =>
    have h0 : (k ++ ws ++ [61]).drop 0 = entry_line [] k ws [] [] [] [] := by
      simp [entry_line]
    have h1 : (k ++ ws ++ [61]).drop (k ++ ws).length = [61] := List.drop_left _ _
    have hlen : 0 + (entry_line [] k ws [] [] [] []).length = (k ++ ws).length + 1 := by
      simp only [entry_line, List.length_append, List.length_cons, List.length_nil]
      omega
    rw [parse_eq, step_entry_end "" fuel h0 (by simp) hk hws (by simp) (by decide) (by simp)
      (by decide) (show config_start.current_section = some 0 from rfl), hlen]
    exact load_loop_eof_eq_diverges "" h1 fuel _ 0 rfl

/-- C11 (failing input): on the text `a =` the main loop of `cparse_load` never
returns: after the entry `a` with the empty value, the section test at the end
of the input moves the offset back onto the `=`, which is parsed again as an
entry with empty key and empty value, round after round. No fuel is enough. -/
theorem load_never_returns_on_trailing_equals (fuel : Nat) :
    parse fuel (ofString "a =") = none := by
  cases fuel with
  | zero => rfl
  | succ fuel =>
    have h0 : (ofString "a =").drop 0 = entry_line [] [97] [32] [] [] [] [] := by decide
    have h1 : (ofString "a =").drop 2 = [61] := by decide
    rw [parse_eq, step_entry_end "" fuel h0 (by decide) (by decide) (by decide) (by decide)
      (by decide) (by decide) (by decide)
      (show config_start.current_section = some 0 from rfl)]
    exact load_loop_eof_eq_diverges "" h1 fuel _ 0 rfl

/-- C12 (failing input): after parsing the well-formed text `x = 1`, which has no
final newline, the error slot holds `Expected '=' after key`: the section test
at the end of the input moves the offset back onto the `1`, which is read again
as a key. -/
theorem end_of_input_sets_error :
    (parse 2 (ofString "x = 1")).map
        (fun r => (r.1.sections, XConfig_GetError r.2, XConfig_HaveError r.2))
      = some ([{ name := [], entries := [{ key := ofString "x", value := ofString "1" }] }],
          "Expected \x27=\x27 after key", true) := by
  decide

/-- With a final newline the same text leaves the error slot empty. -/
theorem end_of_input_with_newline_no_error :
    (parse 2 (ofString "x = 1\n")).map
        (fun r => (r.1.sections, XConfig_GetError r.2, XConfig_HaveError r.2))
      = some ([{ name := [], entries := [{ key := ofString "x", value := ofString "1" }] }],
          "", false) := by
  decide

/-! ## Duplicate section headers -/

/-- C13: duplicate section headers are not merged. For a section name `n`
(bytes other than `]` and newline, no trailing whitespace) and plain keys
`a ≠ b`, parsing `[n]`, `a = 1`, `[n]`, `b = 2` (each line ended by a newline)
returns a configuration whose sections are, in order, the default section, a
section `n` holding only `(a, 1)` and a second section `n` holding only `(b, 2)`;
`cparse_read(cfg, n, b)` is `NULL` and `cparse_read(cfg, NULL, b)` is `2`. -/
theorem duplicate_sections_not_merged (n a b : CStr) (fuel : Nat)
    (hn : ∀ c ∈ n, is_name_char c = true) (hnt : no_trailing_space n)
    (ha : plain_key a) (hb : plain_key b) (hne : a ≠ b) :
    (parse (fuel + 5)
        ([91] ++ n ++ [93, 10] ++ a ++ [32, 61, 32, 49, 10]
          ++ [91] ++ n ++ [93, 10] ++ b ++ [32, 61, 32, 50, 10])).map
        (fun r => (r.1.sections, cparse_read r.1 (some n) b, cparse_read r.1 none b))
      = some ([{ name := [], entries := [] },
               { name := n, entries := [{ key := a, value := [49] }] },
               { name := n, entries := [{ key := b, value := [50] }] }],
          none, some [50]) := by
  have hbl : ∀ c ∈ [(32 : Int)], is_blank c = true := by decide
  have hb0 : ∀ c ∈ ([] : CStr), is_blank c = true := by simp
  have hc0 : line_comment [] := by decide
  have hl0 : ∀ c ∈ ([] : CStr), is_line_char c = true := by simp
  have h0 : ([91] ++ n ++ [93, 10] ++ a ++ [32, 61, 32, 49, 10]
      ++ [91] ++ n ++ [93, 10] ++ b ++ [32, 61, 32, 50, 10]).drop 0
      = header_line [] n [] ++ 10 :: (entry_line [] a [32] [32] [49] [] [] ++ 10 ::
          (header_line [] n [] ++ 10 :: (entry_line [] b [32] [32] [50] [] [] ++ 10 :: []))) := by
    simp [entry_line, header_line]
  have h1 := drop_succ_of_eq (drop_add_of_eq h0)
  have h2 := drop_succ_of_eq (drop_add_of_eq h1)
  have h3 := drop_succ_of_eq (drop_add_of_eq h2)
  have h4 := drop_add_of_eq h3
  rw [parse_eq, step_header_nl "" _ (fuel + 4) h0 hb0 hn hl0,
    step_entry_nl "" (fuel + 3) h1 hb0 ha hbl hbl (by decide) hb0 hc0
      (show (config_add_section config_start (rtrim n)).current_section = some 1 from rfl),
    step_header_nl "" _ (fuel + 2) h2 hb0 hn hl0,
    step_entry_nl "" (fuel + 1) h3 hb0 hb hbl hbl (by decide) hb0 hc0
      (config_add_section_current _ _),
    load_loop_eof_newline "" _ fuel h4, rtrim_self n hnt]
  by_cases hn0 : ([] : CStr) = n
  · subst hn0
    simp [cparse_read, config_add_entry, config_add_section, config_start, append_entry,
      read_sections, find_entry, hne]
  · simp [cparse_read, config_add_entry, config_add_section, config_start, append_entry,
      read_sections, find_entry, hne, hn0]

/-- Instance of C13 with the section name `s` and the keys `a`, `b`. -/
theorem duplicate_sections_not_merged_witness :
    (parse 5 (ofString "[s]\na = 1\n[s]\nb = 2\n")).map
        (fun r => (r.1.sections, cparse_read r.1 (some (ofString "s")) (ofString "b"),
          cparse_read r.1 none (ofString "b")))
      = some ([{ name := [], entries := [] },
               { name := ofString "s", entries := [{ key := ofString "a", value := [49] }] },
               { name := ofString "s", entries := [{ key := ofString "b", value := [50] }] }],
          none, some [50]) :=
  duplicate_sections_not_merged (ofString "s") (ofString "a") (ofString "b") 0
    (by decide) (by decide) (by decide) (by decide) (by decide)

/-! ## The serializer -/

theorem strcat_bind {α : Type} (size : Nat) (buf src : CStr) (f : CStr → Option α) :
    (strcat size buf src).bind f
      = if buf.length + src.length + 1 ≤ size then f (buf ++ src) else none := by
  unfold strcat
  split_ifs <;> rfl

theorem CHANGE_SZ_eq {size used_size : Nat} (h : used_size ≤ size) :
    CHANGE_SZ size used_size = size := by
  unfold CHANGE_SZ
  rw [if_neg (by omega)]

theorem entry_text_length (e : ConfigEntry) :
    (entry_text e).length = e.value.length + e.key.length + 6 := by
  simp only [entry_text, List.length_append, List.length_cons, List.length_nil]
  omega

/-- The four `strcat` calls for one entry succeed exactly when the text of the
entry fits. -/
theorem strcat_entry {α : Type} (size : Nat) (buf : CStr) (e : ConfigEntry)
    (f : CStr → Option α) :
    ((strcat size buf e.key).bind fun b1 =>
      (strcat size b1 [32, 61, 32, 34]).bind fun b2 =>
      (strcat size b2 e.value).bind fun b3 =>
      (strcat size b3 [34, 10]).bind f)
      = if buf.length + (entry_text e).length + 1 ≤ size then f (buf ++ entry_text e)
        else none := by
  simp only [strcat_bind, entry_text, List.length_append, List.length_cons, List.length_nil,
    List.append_assoc]
  split_ifs <;> first | rfl | omega

theorem print_entries_eq (es : List ConfigEntry) (buf : CStr) (size used : Nat)
    (h1 : used ≤ buf.length) (h2 : buf.length + 1 ≤ size) :
    print_entries es buf size used =
      if buf.length + ((es.map entry_text).flatten).length + 1 ≤ size then
        some (buf ++ (es.map entry_text).flatten, size,
          used + ((es.map entry_text).flatten).length)
      else none := by
  induction es generalizing buf used with
  | nil => simp [print_entries, h2]
  | cons e es ih =>
    have hc : CHANGE_SZ size used = size := CHANGE_SZ_eq (by omega)
    have hu : used + (e.value.length + e.key.length + 6) = used + (entry_text e).length := by
      rw [entry_text_length]
    rw [print_entries]
    simp only [hc]
    rw [strcat_entry, hu]
    by_cases hfit : buf.length + (entry_text e).length + 1 ≤ size
    · rw [if_pos hfit, ih _ _ (by simp only [List.length_append]; omega)
        (by simp only [List.length_append]; omega)]
      simp only [List.map_cons, List.flatten_cons, List.length_append, List.append_assoc,
        Nat.add_assoc]
    · rw [if_neg hfit, if_neg (by
        simp only [List.map_cons, List.flatten_cons, List.length_append]
        omega)]

theorem section_header_length (name : CStr) :
    ([91] ++ name ++ [93, 10] : CStr).length = name.length + 3 := by
  simp only [List.length_append, List.length_cons, List.length_nil]
  omega

/-- The three `strcat` calls for a section header succeed exactly when the
header fits. -/
theorem strcat_header {α : Type} (size : Nat) (buf name : CStr) (f : CStr → Option α) :
    ((strcat size buf [91]).bind fun b1 =>
      (strcat size b1 name).bind fun b2 =>
      (strcat size b2 [93, 10]).bind f)
      = if buf.length + (name.length + 3) + 1 ≤ size then f (buf ++ ([91] ++ name ++ [93, 10]))
        else none := by
  simp only [strcat_bind, List.length_append, List.length_cons, List.length_nil,
    List.append_assoc]
  split_ifs <;> first | rfl | omega

theorem section_text_length (sec : ConfigSection) :
    (section_text sec).length
      = sec.name.length + 3 + ((sec.entries.map entry_text).flatten).length + 1 := by
  simp only [section_text, List.length_append, List.length_cons, List.length_nil]
  omega

/-- The section loop of `XConfig_Print` from a buffer that holds its string and
a count `used_size` that is not ahead of it: the loop appends the specified text
when the text and its NUL fit in the buffer, and writes outside the buffer
otherwise; `size` never changes before such a write. -/
theorem print_sections_eq (ss : List ConfigSection) (buf : CStr) (size used : Nat)
    (h1 : used ≤ buf.length) (h2 : buf.length + 1 ≤ size) :
    ∃ used1, used1 ≤ buf.length + (print_spec ss).length ∧
      print_sections ss buf size used =
        if buf.length + (print_spec ss).length + 1 ≤ size then
          some (buf ++ print_spec ss, size, used1)
        else none := by
  induction ss generalizing buf used with
  | nil =>
    refine ⟨used, ?_, ?_⟩
    · simp only [print_spec, named_sections, List.filter_nil, List.map_nil, List.flatten_nil,
        List.length_nil]
      omega
    · simp [print_sections, print_spec, named_sections, h2]
  | cons sec ss ih =>
    have hc : CHANGE_SZ size used = size := CHANGE_SZ_eq (by omega)
    rw [print_sections]
    simp only [hc]
    by_cases h : sec.name = []
    · have hp : print_spec (sec :: ss) = print_spec ss := by
        simp [print_spec, named_sections, h]
      obtain ⟨u, hu, hr⟩ := ih buf used h1 h2
      refine ⟨u, by rw [hp]; exact hu, ?_⟩
      rw [if_pos (by simp [h]), hr, hp]
    · have hl : ¬ sec.name.length ≤ 0 := by
        cases hn : sec.name with
        | nil => exact absurd hn h
        | cons c l => simp
      have hp : print_spec (sec :: ss) = section_text sec ++ print_spec ss := by
        simp [print_spec, named_sections, h]
      have hst : section_text sec
          = [91] ++ sec.name ++ [93, 10] ++ (sec.entries.map entry_text).flatten ++ [10] := rfl
      have hsl := section_text_length sec
      rw [if_neg hl, strcat_header]
      by_cases hh : buf.length + (sec.name.length + 3) + 1 ≤ size
      · have hb3 : (buf ++ ([91] ++ sec.name ++ [93, 10])).length
            = buf.length + (sec.name.length + 3) := by
          rw [List.length_append, section_header_length]
        have hc2 : CHANGE_SZ size (used + (sec.name.length + 2)) = size :=
          CHANGE_SZ_eq (by omega)
        rw [if_pos hh, hc2, print_entries_eq _ _ _ _ (by rw [hb3]; omega) (by rw [hb3]; omega)]
        by_cases he : (buf ++ ([91] ++ sec.name ++ [93, 10])).length
            + ((sec.entries.map entry_text).flatten).length + 1 ≤ size
        · rw [if_pos he, Option.some_bind]
          simp only [strcat_bind]
          by_cases hn : (buf ++ ([91] ++ sec.name ++ [93, 10])
              ++ (sec.entries.map entry_text).flatten).length + ([10] : CStr).length + 1 ≤ size
          · rw [if_pos hn]
            have hbuf : buf ++ ([91] ++ sec.name ++ [93, 10])
                ++ (sec.entries.map entry_text).flatten ++ [10] = buf ++ section_text sec := by
              rw [hst]
              simp only [List.append_assoc]
            have hlen : (buf ++ section_text sec).length
                = buf.length + (section_text sec).length := List.length_append _ _
            rw [hbuf]
            obtain ⟨u, hu, hr⟩ := ih (buf ++ section_text sec)
              (used + (sec.name.length + 2) + ((sec.entries.map entry_text).flatten).length + 1)
              (by rw [hlen, hsl]; omega)
              (by
                rw [← hbuf]
                simp only [List.length_append, List.length_cons, List.length_nil] at hn ⊢
                omega)
            refine ⟨u, ?_, ?_⟩
            · rw [hp, List.length_append]
              rw [hlen] at hu
              omega
            · rw [hr, hp, hlen]
              simp only [List.length_append, List.append_assoc, Nat.add_assoc]
          · refine ⟨0, Nat.zero_le _, ?_⟩
            rw [if_neg hn, if_neg]
            rw [hp, List.length_append, hsl]
            simp only [List.length_append, List.length_cons, List.length_nil] at hn hb3 ⊢
            omega
        · refine ⟨0, Nat.zero_le _, ?_⟩
          rw [if_neg he, Option.none_bind, if_neg]
          rw [hp, List.length_append, hsl]
          rw [hb3] at he
          omega
      · refine ⟨0, Nat.zero_le _, ?_⟩
        rw [if_neg hh, if_neg]
        rw [hp, List.length_append, hsl]
        omega

theorem print_spec_default (es : List ConfigEntry) (ss : List ConfigSection) :
    print_spec ({ name := [], entries := es } :: ss) = print_spec ss := by
  simp [print_spec, named_sections]

/-- The text of a section ends with `]` or `"`, a newline and the blank line. -/
theorem section_text_end (sec : ConfigSection) :
    ∃ body c, section_text sec = body ++ [c, 10, 10] ∧ c ≠ 10 := by
  rcases List.eq_nil_or_concat sec.entries with h | ⟨es, e, h⟩
  · exact ⟨[91] ++ sec.name, 93, by simp [section_text, h], by decide⟩
  · refine ⟨[91] ++ sec.name ++ [93, 10] ++ (es.map entry_text).flatten
      ++ e.key ++ [32, 61, 32, 34] ++ e.value, 34, ?_, by decide⟩
    simp [section_text, h, entry_text]

/-- With a named section the specified text ends with a byte other than
newline, a newline and the blank line. -/
theorem print_spec_end (ss : List ConfigSection) (h : ∃ sec ∈ ss, sec.name ≠ []) :
    ∃ body c, print_spec ss = body ++ [c, 10, 10] ∧ c ≠ 10 := by
  have hne : named_sections ss ≠ [] := by
    obtain ⟨sec, hs, hn⟩ := h
    intro h0
    have : sec ∈ named_sections ss := by
      simp [named_sections, hs, hn]
    rw [h0] at this
    simp at this
  rcases List.eq_nil_or_concat (named_sections ss) with h0 | ⟨l, sec, h1⟩
  · exact absurd h0 hne
  · obtain ⟨body, c, hb, hc⟩ := section_text_end sec
    refine ⟨(l.map section_text).flatten ++ body, c, ?_, hc⟩
    simp [print_spec, h1, hb]

/-- The specified text holds the header of each named section and its blank
line. -/
theorem print_spec_length_ge (ss : List ConfigSection) (sec : ConfigSection) (hs : sec ∈ ss)
    (hn : sec.name ≠ []) : sec.name.length + 4 ≤ (print_spec ss).length := by
  induction ss with
  | nil => simp at hs
  | cons s ss ih =>
    by_cases h : s.name = []
    · have hp : print_spec (s :: ss) = print_spec ss := by
        simp [print_spec, named_sections, h]
      rw [hp]
      rcases List.mem_cons.1 hs with h1 | h1
      · subst h1
        exact absurd h hn
      · exact ih h1
    · have hp : print_spec (s :: ss) = section_text s ++ print_spec ss := by
        simp [print_spec, named_sections, h]
      rw [hp, List.length_append, section_text_length]
      rcases List.mem_cons.1 hs with h1 | h1
      · subst h1
        omega
      · have := ih h1
        omega

/-- With a named section and a specified text shorter than `INITIAL_BUF` bytes,
`XConfig_Print` returns the specified text without its final newline. -/
theorem XConfig_Print_eq (xc : XConfig) (h : ∃ sec ∈ xc.config.sections, sec.name ≠ [])
    (hfit : (print_spec xc.config.sections).length < INITIAL_BUF) :
    XConfig_Print xc = some (print_spec xc.config.sections).dropLast := by
  obtain ⟨body, c, hb, _⟩ := print_spec_end _ h
  unfold XConfig_Print
  cases hs : xc.config.sections with
  | nil =>
    obtain ⟨sec, hsec, _⟩ := h
    rw [hs] at hsec
    simp at hsec
  | cons sec ss =>
    rw [hs] at hb hfit
    obtain ⟨u, _, hr⟩ := print_sections_eq (sec :: ss) [] INITIAL_BUF 0 (Nat.le_refl _)
      (by decide)
    dsimp only
    rw [hr, if_pos (by simp only [List.length_nil]; omega), Option.some_bind]
    simp only [List.nil_append, hb]
    simp

/-- When the specified text has `INITIAL_BUF` bytes or more, a `strcat` call of
`XConfig_Print` writes outside the buffer: the check of `CHANGE_SZ` comes after
the write and `size` is still `INITIAL_BUF`. -/
theorem XConfig_Print_overflow (xc : XConfig)
    (hbig : INITIAL_BUF ≤ (print_spec xc.config.sections).length) :
    XConfig_Print xc = none := by
  unfold XConfig_Print
  cases hs : xc.config.sections with
  | nil =>
    rw [hs] at hbig
    revert hbig
    decide
  | cons sec ss =>
    rw [hs] at hbig
    obtain ⟨u, _, hr⟩ := print_sections_eq (sec :: ss) [] INITIAL_BUF 0 (Nat.le_refl _)
      (by decide)
    dsimp only
    rw [hr, if_neg (by simp only [List.length_nil]; omega), Option.none_bind]

/-- C15 (failing input): the configuration holds the default section and one
section whose name is 2000 letters `a`, without entries. The call
`strcat(ret_buf, cs->name)` copies the 2000 bytes into the buffer of
`INITIAL_BUF` = 1024 bytes: `XConfig_Print` writes outside the buffer and
returns no text. -/
theorem print_overflows_on_long_name :
    XConfig_Print
        { parser := cparse_init [],
          config :=
            { sections :=
                [{ name := [], entries := [] },
                 { name := List.replicate 2000 97, entries := [] }],
              current_section := some 1, entry_count := 0, section_count := 2 } }
      = none := by
  apply XConfig_Print_overflow
  have h := print_spec_length_ge
    [{ name := [], entries := [] }, { name := List.replicate 2000 97, entries := [] }]
    { name := List.replicate 2000 97, entries := [] }
    (List.mem_cons_of_mem _ (List.mem_cons_self _ _))
    (fun h0 => absurd (congrArg List.length h0) (by rw [List.length_replicate]; decide))
  simp only [List.length_replicate] at h
  simp only [INITIAL_BUF]
  omega

/-- The format of the serializer output when the text fits. For every
configuration with at least one section of non-empty name whose specified text
is shorter than `INITIAL_BUF` bytes, `XConfig_Print` returns the concatenation,
over the named sections in stored order, of `[name]` and a newline, then for each
entry `key = "value"` and a newline (the value between quotes, unchanged), then
one newline, with the final newline of the whole text removed; the returned text
ends with a byte other than newline followed by exactly one newline. -/
theorem print_format (xc : XConfig) (h : ∃ sec ∈ xc.config.sections, sec.name ≠ [])
    (hfit : (print_spec xc.config.sections).length < INITIAL_BUF) :
    XConfig_Print xc = some (print_spec xc.config.sections).dropLast ∧
      ∃ body c, (print_spec xc.config.sections).dropLast = body ++ [c, 10] ∧ c ≠ 10 := by
  obtain ⟨body, c, hb, hc⟩ := print_spec_end _ h
  have hd : (print_spec xc.config.sections).dropLast = body ++ [c, 10] := by
    rw [hb]
    have : body ++ [c, 10, 10] = (body ++ [c, 10]) ++ [10] := by simp
    rw [this, List.dropLast_concat]
  exact ⟨XConfig_Print_eq xc h hfit, body, c, hd, hc⟩

/-- Instance on a configuration with an empty default section and the section
`s` holding `(y, 2)`: the text is `[s]`, newline, `y = "2"`, newline. -/
theorem print_format_witness :
    XConfig_Print
        { parser := cparse_init [],
          config :=
            { sections :=
                [{ name := [], entries := [] },
                 { name := ofString "s", entries := [{ key := [121], value := [50] }] }],
              current_section := some 1, entry_count := 1, section_count := 2 } }
      = some (print_spec
          [{ name := [], entries := [] },
           { name := ofString "s", entries := [{ key := [121], value := [50] }] }]).dropLast ∧
      ∃ body c, (print_spec
          [{ name := [], entries := [] },
           { name := ofString "s", entries := [{ key := [121], value := [50] }] }]).dropLast
          = body ++ [c, 10] ∧ c ≠ 10 :=
  print_format _
    ⟨{ name := ofString "s", entries := [{ key := [121], value := [50] }] },
      by decide, by decide⟩ (by decide)

/-- C14 (counterexample): for the configuration whose default section holds
`(x, 1)` and whose section `s` holds `(y, 2)`, the text returned by
`XConfig_Print` is `[s]`, newline, `y = "2"`, newline: it has no line for the
entry `(x, 1)` of the default section. -/
theorem print_drops_default_entries :
    XConfig_Print
        { parser := cparse_init [],
          config :=
            { sections :=
                [{ name := [], entries := [{ key := [120], value := [49] }] },
                 { name := ofString "s", entries := [{ key := [121], value := [50] }] }],
              current_section := some 1, entry_count := 2, section_count := 2 } }
      = some (ofString "[s]\ny = \"2\"\n") := by
  decide

/-- C14 (amended): a section whose name is empty is skipped as a whole. For
every configuration whose first section is the default section, with any
entries `es`, followed by sections `rest` of which at least one has a non-empty
name and whose text is shorter than `INITIAL_BUF` bytes, the text returned by
`XConfig_Print` is the text of the named sections of `rest` alone: neither a
header line nor any entry line is emitted for the default section. -/
theorem print_skips_default_section (st : CPState) (es : List ConfigEntry)
    (rest : List ConfigSection) (cur : Option Nat) (ec sc : Nat)
    (h : ∃ sec ∈ rest, sec.name ≠ []) (hfit : (print_spec rest).length < INITIAL_BUF) :
    XConfig_Print
        { parser := st,
          config :=
            { sections := { name := [], entries := es } :: rest, current_section := cur,
              entry_count := ec, section_count := sc } }
      = some (print_spec rest).dropLast := by
  obtain ⟨sec, hs, hn⟩ := h
  rw [XConfig_Print_eq _ ⟨sec, List.mem_cons_of_mem _ hs, hn⟩
    (by rw [print_spec_default]; exact hfit), print_spec_default]

/-- Instance of the amended C14 on the configuration of the counterexample. -/
theorem print_skips_default_section_witness :
    XConfig_Print
        { parser := cparse_init [],
          config :=
            { sections :=
                { name := [], entries := [{ key := [120], value := [49] }] } ::
                  [{ name := ofString "s", entries := [{ key := [121], value := [50] }] }],
              current_section := some 1, entry_count := 2, section_count := 2 } }
      = some (print_spec
          [{ name := ofString "s", entries := [{ key := [121], value := [50] }] }]).dropLast :=
  print_skips_default_section _ _ _ _ _ _
    ⟨{ name := ofString "s", entries := [{ key := [121], value := [50] }] },
      by decide, by decide⟩ (by decide)

/-! ## Programmatic construction -/

/-- C18 (failing input): the section `s` already holds `(a, 1)` and
`XConfig_AddKeyValue(xc, "s", "a", "2")` is called. The duplicate test is made
on the literal `"key"`, not on `a`: the call returns `true`, records no error
and appends a second entry with key `a`. -/
theorem named_insert_accepts_duplicate :
    XConfig_AddKeyValue
        { parser := cparse_init [],
          config :=
            { sections :=
                [{ name := [], entries := [] },
                 { name := ofString "s", entries := [{ key := [97], value := [49] }] }],
              current_section := some 1, entry_count := 1, section_count := 2 } }
        (some (ofString "s")) [97] [50]
      = (true,
        { parser := cparse_init [],
          config :=
            { sections :=
                [{ name := [], entries := [] },
                 { name := ofString "s",
                   entries := [{ key := [97], value := [49] }, { key := [97], value := [50] }] }],
              current_section := some 1, entry_count := 2, section_count := 2 } }) := by
  decide

/-- The same slip the other way round: when the section holds an entry whose
key is the word `key`, the insert of a fresh key `b` is refused. -/
theorem named_insert_refuses_fresh_key :
    XConfig_AddKeyValue
        { parser := cparse_init [],
          config :=
            { sections :=
                [{ name := [], entries := [] },
                 { name := ofString "s",
                   entries := [{ key := ofString "key", value := [49] }] }],
              current_section := some 1, entry_count := 1, section_count := 2 } }
        (some (ofString "s")) [98] [50]
      = (false,
        { parser := cparse_set_error (cparse_init []) "The key had already added",
          config :=
            { sections :=
                [{ name := [], entries := [] },
                 { name := ofString "s",
                   entries := [{ key := ofString "key", value := [49] }] }],
              current_section := some 1, entry_count := 1, section_count := 2 } }) := by
  decide

theorem append_entry_length (ss : List ConfigSection) (i : Nat) (e : ConfigEntry) :
    (append_entry ss i e).length = ss.length := by
  induction ss generalizing i with
  | nil => rfl
  | cons s ss ih =>
    cases i with
    | zero => rfl
    | succ i => simp [append_entry, ih]

theorem append_entry_get_self (ss : List ConfigSection) (i : Nat) (e : ConfigEntry)
    (sec : ConfigSection) (h : ss[i]? = some sec) :
    (append_entry ss i e)[i]? = some { sec with entries := sec.entries ++ [e] } := by
  induction ss generalizing i with
  | nil => simp at h
  | cons s ss ih =>
    cases i with
    | zero =>
      simp only [List.getElem?_cons_zero, Option.some.injEq] at h
      subst h
      simp [append_entry]
    | succ i =>
      simp only [List.getElem?_cons_succ] at h
      simp [append_entry, ih i h]

theorem append_entry_get_other (ss : List ConfigSection) (i j : Nat) (e : ConfigEntry)
    (h : j ≠ i) : (append_entry ss i e)[j]? = ss[j]? := by
  induction ss generalizing i j with
  | nil => rfl
  | cons s ss ih =>
    cases i with
    | zero =>
      cases j with
      | zero => exact absurd rfl h
      | succ j => simp [append_entry]
    | succ i =>
      cases j with
      | zero => simp [append_entry]
      | succ j =>
        simp only [append_entry, List.getElem?_cons_succ]
        exact ih i j (fun hji => h (by rw [hji]))

/-- C19: plain add-entry. `config_add_entry(c, k, v)` succeeds exactly when `c`
has a current section, and without one it returns 0 and leaves `c` unchanged. On
success, with the current section `sec` at index `i` of the section list, the
section at `i` becomes `sec` with `(k, v)` appended after its old entries
(whether or not `k` is already a key of `sec`), every other section is
unchanged, the number of sections is unchanged, `entry_count` grows by one, and
`section_count` and the current section stay as they were. -/
theorem config_add_entry_spec (c : Config) (k v : CStr) :
    ((config_add_entry c k v).1 = true ↔ c.current_section ≠ none) ∧
    (c.current_section = none → config_add_entry c k v = (false, c)) ∧
    (∀ (i : Nat) (sec : ConfigSection), c.current_section = some i → c.sections[i]? = some sec →
      (config_add_entry c k v).2.sections[i]?
          = some { sec with entries := sec.entries ++ [{ key := k, value := v }] } ∧
        (∀ j, j ≠ i → (config_add_entry c k v).2.sections[j]? = c.sections[j]?) ∧
        (config_add_entry c k v).2.sections.length = c.sections.length ∧
        (config_add_entry c k v).2.entry_count = c.entry_count + 1 ∧
        (config_add_entry c k v).2.section_count = c.section_count ∧
        (config_add_entry c k v).2.current_section = c.current_section) := by
  refine ⟨?_, ?_, ?_⟩
  · cases h : c.current_section with
    | none => simp [config_add_entry, h]
    | some i => simp [config_add_entry, h]
  · intro h
    simp [config_add_entry, h]
  · intro i sec hcur hsec
    have hr : (config_add_entry c k v).2 =
        { c with
          sections := append_entry c.sections i { key := k, value := v }
          entry_count := c.entry_count + 1 } := by
      simp [config_add_entry, hcur]
    rw [hr]
    exact ⟨append_entry_get_self _ _ _ _ hsec,
      fun j hj => append_entry_get_other _ _ _ _ hj,
      append_entry_length _ _ _, rfl, rfl, rfl⟩

/-! ## Quoted values with escapes -/

/-- A round of the loop of `read_quoted_value` on a backslash outside an escape. -/
theorem read_quoted_loop_backslash {s : CStr} {n : Nat} (e : String) {t : CStr} (f : Nat)
    (buf : CStr) (h : s.drop n = 92 :: t) :
    read_quoted_loop 34 (f + 1) (pst s n e) buf false
      = read_quoted_loop 34 f (pst s (n + 1) e) buf true := by
  rw [read_quoted_loop_succ, getc_cons h]
  simp [EOF]

/-- A round of the loop of `read_quoted_value` on the byte after a backslash,
when the decoded byte is not a newline. -/
theorem read_quoted_loop_after_backslash {s : CStr} {n : Nat} (e : String) {t : CStr}
    {c : Int} (f : Nat) (buf : CStr) (h : s.drop n = c :: t) (hc : c ≠ EOF)
    (hd : unescape c ≠ 10) :
    read_quoted_loop 34 (f + 1) (pst s n e) buf true
      = read_quoted_loop 34 f (pst s (n + 1) e) (buf ++ [unescape c]) false := by
  rw [read_quoted_loop_succ, getc_cons h]
  simp [hc, hd]

/-- A round of the loop of `read_quoted_value` on a plain byte. -/
theorem read_quoted_loop_byte {s : CStr} {n : Nat} (e : String) {t : CStr}
    {c : Int} (f : Nat) (buf : CStr) (h : s.drop n = c :: t) (hc : c ≠ EOF)
    (h92 : c ≠ 92) (h34 : c ≠ 34) (h10 : c ≠ 10) :
    read_quoted_loop 34 (f + 1) (pst s n e) buf false
      = read_quoted_loop 34 f (pst s (n + 1) e) (buf ++ [c]) false := by
  rw [read_quoted_loop_succ, getc_cons h]
  simp [hc, h92, h34, h10]

/-- The loop of `read_quoted_value` decodes the encoding `E(v)` of a value
without newline back to `v`. -/
theorem read_quoted_loop_escaped {s : CStr} (e : String) (r : CStr) (f : Nat) (v : CStr)
    (hv : ∀ c ∈ v, is_line_char c = true) :
    ∀ (n : Nat) (buf : CStr), s.drop n = escape_value v ++ r →
      read_quoted_loop 34 ((escape_value v).length + f) (pst s n e) buf false
        = read_quoted_loop 34 f (pst s (n + (escape_value v).length) e) (buf ++ v) false := by
  induction v with
  | nil =>
    intro n buf _
    simp [escape_value]
  | cons c v ih =>
    intro n buf h
    obtain ⟨c1, c2⟩ := is_line_char_spec (hv c (List.mem_cons_self _ _))
    have ih1 := ih (fun x hx => hv x (List.mem_cons_of_mem _ hx))
    by_cases h92 : c = 92
    · subst h92
      have hE : escape_value (92 :: v) = 92 :: 92 :: escape_value v := by simp [escape_value]
      rw [hE] at h ⊢
      have h1 : s.drop (n + 1) = 92 :: (escape_value v ++ r) := drop_succ_of_eq h
      have h2 : s.drop (n + 1 + 1) = escape_value v ++ r := drop_succ_of_eq h1
      have hf : (92 :: 92 :: escape_value v).length + f
          = ((escape_value v).length + f) + 1 + 1 := by
        simp only [List.length_cons]
        omega
      rw [hf, read_quoted_loop_backslash e _ _ h,
        read_quoted_loop_after_backslash e _ _ h1 (by decide) (by decide),
        ih1 (n + 1 + 1) _ h2]
      have hu : unescape 92 = 92 := by decide
      have e1 : n + 1 + 1 + (escape_value v).length
          = n + (92 :: 92 :: escape_value v).length := by
        simp only [List.length_cons]
        omega
      have e2 : buf ++ [92] ++ v = buf ++ 92 :: v := by simp
      rw [hu, e1, e2]
    · by_cases h34 : c = 34
      · subst h34
        have hE : escape_value (34 :: v) = 92 :: 34 :: escape_value v := by simp [escape_value]
        rw [hE] at h ⊢
        have h1 : s.drop (n + 1) = 34 :: (escape_value v ++ r) := drop_succ_of_eq h
        have h2 : s.drop (n + 1 + 1) = escape_value v ++ r := drop_succ_of_eq h1
        have hf : (92 :: 34 :: escape_value v).length + f
            = ((escape_value v).length + f) + 1 + 1 := by
          simp only [List.length_cons]
          omega
        rw [hf, read_quoted_loop_backslash e _ _ h,
          read_quoted_loop_after_backslash e _ _ h1 (by decide) (by decide),
          ih1 (n + 1 + 1) _ h2]
        have hu : unescape 34 = 34 := by decide
        have e1 : n + 1 + 1 + (escape_value v).length
            = n + (92 :: 34 :: escape_value v).length := by
          simp only [List.length_cons]
          omega
        have e2 : buf ++ [34] ++ v = buf ++ 34 :: v := by simp
        rw [hu, e1, e2]
      · have hE : escape_value (c :: v) = c :: escape_value v := by
          simp [escape_value, h92, h34]
        rw [hE] at h ⊢
        have h1 : s.drop (n + 1) = escape_value v ++ r := drop_succ_of_eq h
        have hf : (c :: escape_value v).length + f = ((escape_value v).length + f) + 1 := by
          simp only [List.length_cons]
          omega
        have e1 : n + 1 + (escape_value v).length = n + (c :: escape_value v).length := by
          simp only [List.length_cons]
          omega
        have e2 : buf ++ [c] ++ v = buf ++ c :: v := by simp
        rw [hf, read_quoted_loop_byte e _ _ h c1 h92 h34 c2, ih1 (n + 1) _ h1, e1, e2]

/-- The function `read_value` on a double-quoted literal that holds the
encoding `E(v)` of a value without newline: the result is `v`. -/
theorem read_value_escaped {s : CStr} {n : Nat} (e : String) {ws3 v t : CStr}
    (h : s.drop n = ws3 ++ 34 :: (escape_value v ++ 34 :: t))
    (hws3 : ∀ c ∈ ws3, is_blank c = true) (hv : ∀ c ∈ v, is_line_char c = true) :
    read_value (pst s n e)
      = (some v, pst s (n + ws3.length + 1 + (escape_value v).length + 1) e) := by
  have h1 : s.drop (n + ws3.length) = 34 :: (escape_value v ++ 34 :: t) := drop_add_of_eq h
  have h2 : s.drop (n + ws3.length + 1) = escape_value v ++ 34 :: t := drop_succ_of_eq h1
  have h3 : s.drop (n + ws3.length + 1 + (escape_value v).length) = 34 :: t :=
    drop_add_of_eq h2
  have hf : (escape_value v ++ 34 :: t).length + 1
      = (escape_value v).length + ((t.length + 1) + 1) := by
    simp only [List.length_append, List.length_cons]
    omega
  rw [read_value]
  simp only [skip_whitespace_pst e h hws3 (skip_whitespace_n_nospace _ (by decide)),
    peek_cons h1, true_or, if_true]
  rw [read_quoted_value]
  simp only [getc_cons h1, rest_pst, h2, hf]
  rw [read_quoted_loop_escaped e _ _ v hv _ _ h2, read_quoted_loop_close e _ _ h3]
  simp

/-- C20: quoted-value round trip. For a plain key `k` and every ASCII value `v`
without newline (it may hold `#`, `;`, `=`, `[`, quotes, backslashes, leading and
trailing spaces, and may be empty), parsing the line `k = "E(v)"` followed by a
newline, where `E` writes a backslash before every backslash and every double
quote, stores exactly `v`: `cparse_read(cfg, NULL, k)` is `v`. -/
theorem quoted_value_round_trip (k v : CStr) (fuel : Nat) (hk : plain_key k)
    (hv : ∀ c ∈ v, is_line_char c = true) :
    (parse (fuel + 2) (k ++ [32, 61, 32, 34] ++ escape_value v ++ [34, 10])).map
        (fun r => (r.1.sections, cparse_read r.1 none k))
      = some ([{ name := [], entries := [{ key := k, value := v }] }], some v) := by
  have hbl : ∀ c ∈ [(32 : Int)], is_blank c = true := by decide
  have h0 : (k ++ [32, 61, 32, 34] ++ escape_value v ++ [34, 10]).drop 0
      = [] ++ (k ++ ([32] ++ 61 :: ([32] ++ 34 :: (escape_value v ++ 34 :: [10])))) := by
    simp
  have hA := drop_succ_of_eq (drop_add_of_eq (drop_add_of_eq (drop_add_of_eq h0)))
  have hval := read_value_escaped "" hA hbl hv
  have hq := drop_succ_of_eq (drop_add_of_eq (drop_succ_of_eq (drop_add_of_eq hA)))
  rw [parse_eq, step_entry_value "" (fuel + 1) h0 (by simp) hk hbl hval
    (show _ = [] ++ [10] from hq) (by simp) (Or.inr ⟨[], rfl⟩)
    (show config_start.current_section = some 0 from rfl)]
  simp only [List.length_nil, List.length_singleton, Nat.min_self, Nat.add_zero] at hq ⊢
  rw [load_loop_eof_newline "" _ fuel hq]
  simp [cparse_read, config_add_entry, config_start, append_entry, read_sections, find_entry]

/-- Instance of C20 with the value ` a"b\c# ` (leading and trailing space). -/
theorem quoted_value_round_trip_witness :
    (parse 2 (ofString "k = \" a\\\"b\\\\c# \"\n")).map
        (fun r => (r.1.sections, cparse_read r.1 none (ofString "k")))
      = some ([{ name := [], entries :=
            [{ key := ofString "k", value := ofString " a\"b\\c# " }] }],
          some (ofString " a\"b\\c# ")) :=
  quoted_value_round_trip (ofString "k") (ofString " a\"b\\c# ") 0 (by decide) (by decide)

/-! ## Printing and parsing again -/

theorem escape_value_plain (v : CStr) (hv : ∀ c ∈ v, is_plain_char c = true) :
    escape_value v = v := by
  induction v with
  | nil => rfl
  | cons c v ih =>
    obtain ⟨_, c2, c3, _⟩ := is_plain_char_spec (hv c (List.mem_cons_self _ _))
    simp [escape_value, c2, c3, ih (fun x hx => hv x (List.mem_cons_of_mem _ hx))]

theorem is_plain_line_char {c : Int} (h : is_plain_char c = true) : is_line_char c = true := by
  simp only [is_plain_char, Bool.and_eq_true, bne_iff_ne, ne_eq] at h
  simp only [is_line_char, Bool.and_eq_true, bne_iff_ne, ne_eq]
  exact ⟨h.1.1.1, h.2⟩

/-- One round of the main loop over an entry line as the serializer writes it. -/
theorem step_printed_entry {s : CStr} {n : Nat} (e : String) {config : Config} {i : Nat}
    (fuel : Nat) {en : ConfigEntry} {t : CStr} (h : s.drop n = entry_text en ++ t)
    (hen : good_entry en) (hcur : config.current_section = some i) :
    load_loop (fuel + 1) (pst s n e) config =
      load_loop fuel (pst s (n + (entry_text en).length) e)
        (config_add_entry config en.key en.value).2 := by
  have hbl : ∀ c ∈ [(32 : Int)], is_blank c = true := by decide
  have hv : ∀ c ∈ en.value, is_line_char c = true :=
    fun c hc => is_plain_line_char (hen.2 c hc)
  have h0 : s.drop n = [] ++ (en.key ++ ([32] ++ 61 ::
      ([32] ++ 34 :: (escape_value en.value ++ 34 :: (10 :: t))))) := by
    rw [h, escape_value_plain _ hen.2]
    simp [entry_text]
  have hA := drop_succ_of_eq (drop_add_of_eq (drop_add_of_eq (drop_add_of_eq h0)))
  have hval := read_value_escaped e hA hbl hv
  have hq := drop_succ_of_eq (drop_add_of_eq (drop_succ_of_eq (drop_add_of_eq hA)))
  rw [step_entry_value e fuel h0 (by simp) hen.1 hbl hval
    (show _ = [] ++ 10 :: t from hq) (by simp) (Or.inr ⟨t, rfl⟩) hcur]
  congr 2
  rw [escape_value_plain _ hen.2]
  simp only [entry_text, List.length_append, List.length_cons, List.length_nil]
  omega

theorem add_entries_current (c : Config) (es : List ConfigEntry) :
    (add_entries c es).current_section = c.current_section := by
  induction es generalizing c with
  | nil => rfl
  | cons e es ih =>
    rw [add_entries, List.foldl_cons]
    exact (ih _).trans (config_add_entry_current c e.key e.value)

/-- The rounds of the main loop over the entry lines of a printed section. -/
theorem load_loop_printed_entries {s : CStr} (e : String) (f : Nat) (t : CStr) :
    ∀ (es : List ConfigEntry), (∀ en ∈ es, good_entry en) →
      ∀ (n : Nat) (config : Config) (i : Nat), config.current_section = some i →
        s.drop n = (es.map entry_text).flatten ++ t →
        load_loop (es.length + f) (pst s n e) config
          = load_loop f (pst s (n + ((es.map entry_text).flatten).length) e)
              (add_entries config es) := by
  intro es
  induction es with
  | nil =>
    intro _ n config i _ _
    simp [add_entries]
  | cons en es ih =>
    intro hes n config i hcur h
    have h1 : s.drop n = entry_text en ++ ((es.map entry_text).flatten ++ t) := by
      rw [h]
      simp
    have h2 := drop_add_of_eq h1
    have hf : (en :: es).length + f = (es.length + f) + 1 := by
      simp only [List.length_cons]
      omega
    rw [hf, step_printed_entry e _ h1 (hes en (List.mem_cons_self _ _)) hcur,
      ih (fun x hx => hes x (List.mem_cons_of_mem _ hx)) _ _ i
        (by rw [config_add_entry_current]; exact hcur) h2]
    have e1 : n + (entry_text en).length + ((es.map entry_text).flatten).length
        = n + (((en :: es).map entry_text).flatten).length := by
      simp only [List.map_cons, List.flatten_cons, List.length_append]
      omega
    rw [e1]
    rfl

/-- Before a section header that follows a blank line, `skip_all_comments`
skips the newline of the blank line. -/
theorem skip_all_comments_blank {s : CStr} {n : Nat} (e : String) {t : CStr}
    (h : s.drop n = 10 :: 91 :: t) :
    skip_all_comments (pst s n e) = pst s (n + 1) e := by
  have h1 : s.drop (n + 1) = 91 :: t := drop_succ_of_eq h
  have hs : skip_whitespace (pst s n e) = pst s n e :=
    skip_whitespace_pst_zero e (by rw [h]; rfl)
  have hc : skip_comments (pst s n e) = (true, pst s (n + 1) e) := by
    rw [skip_comments]
    simp only [hs, peek_cons h, getc_cons h, if_true]
  have hc1 : skip_comments (pst s (n + 1) e) = (false, pst s (n + 1) e) := by
    have := skip_comments_unit e (show s.drop (n + 1) = [] ++ 91 :: t from h1) (by simp)
      (by decide) (by decide) (by decide)
    simpa using this
  rw [skip_all_comments, rest_pst, h]
  simp only [List.length_cons, skip_comments_loop, hc, hc1]

/-- One round of the main loop over the header of a printed section. -/
theorem step_printed_header {s : CStr} {n : Nat} (e : String) (config : Config)
    (fuel : Nat) {name t : CStr} (h : s.drop n = 91 :: (name ++ 93 :: 10 :: t))
    (hn : ∀ c ∈ name, is_name_char c = true) (hnt : no_trailing_space name) :
    load_loop (fuel + 1) (pst s n e) config =
      load_loop fuel (pst s (n + (name.length + 3)) e) (config_add_section config name) := by
  have h1 : s.drop n = header_line [] name [] ++ 10 :: t := by
    rw [h]
    simp [header_line]
  rw [step_header_nl e config fuel h1 (by simp) hn (by simp), rtrim_self name hnt]
  congr 2
  simp only [header_line, List.length_append, List.length_cons, List.length_nil]
  omega

/-- One round of the main loop over the blank line that ends a printed section
and the header of the next one. -/
theorem step_printed_blank_header {s : CStr} {n : Nat} (e : String) (config : Config)
    (fuel : Nat) {name t : CStr} (h : s.drop n = 10 :: 91 :: (name ++ 93 :: 10 :: t))
    (hn : ∀ c ∈ name, is_name_char c = true) (hnt : no_trailing_space name) :
    load_loop (fuel + 1) (pst s n e) config =
      load_loop fuel (pst s (n + 1 + (name.length + 3)) e)
        (config_add_section config name) := by
  have h1 : s.drop (n + 1) = 91 :: (name ++ 93 :: 10 :: t) := drop_succ_of_eq h
  have h2 : s.drop (n + 1) = 91 :: (name ++ 93 :: ([] ++ 10 :: t)) := by simpa using h1
  rw [load_loop_succ, skip_all_comments_blank e h,
    read_section_header e h2 hn (by simp) (Or.inr ⟨t, rfl⟩), rtrim_self name hnt]
  have e1 : n + 1 + 1 + (name.length + 1) + (([] : CStr).length + min 1 (10 :: t).length)
      = n + 1 + (name.length + 3) := by
    simp only [List.length_nil, List.length_cons]
    omega
  rw [e1]

/-- The rounds of the main loop over the first printed section: its header and
its entry lines. -/
theorem load_loop_first_block {s : CStr} {n : Nat} (e : String) (config : Config) (f : Nat)
    {g : ConfigSection} {t : CStr} (hg : good_section g)
    (h : s.drop n = block_text g ++ t) :
    load_loop (g.entries.length + f + 1) (pst s n e) config
      = load_loop f (pst s (n + (block_text g).length) e)
          (add_entries (config_add_section config g.name) g.entries) := by
  have h1 : s.drop n = 91 :: (g.name ++ 93 :: 10 :: ((g.entries.map entry_text).flatten ++ t)) := by
    rw [h]
    simp [block_text]
  have h2 : s.drop n = (91 :: (g.name ++ [93, 10])) ++ ((g.entries.map entry_text).flatten ++ t) := by
    rw [h]
    simp [block_text]
  have h3 := drop_add_of_eq h2
  have e0 : n + (91 :: (g.name ++ [93, 10])).length = n + (g.name.length + 3) := by
    simp only [List.length_append, List.length_cons, List.length_nil]
  rw [e0] at h3
  rw [step_printed_header e config _ h1 hg.2.1 hg.2.2.1,
    load_loop_printed_entries e f t g.entries hg.2.2.2 _ _ _
      (config_add_section_current config g.name) h3]
  have e1 : n + (g.name.length + 3) + ((g.entries.map entry_text).flatten).length
      = n + (block_text g).length := by
    simp only [block_text, List.length_append, List.length_cons, List.length_nil]
    omega
  rw [e1]

/-- The rounds of the main loop over the further printed sections, each after
the blank line that ends the section before it. -/
theorem load_loop_joined {s : CStr} (e : String) (f : Nat) (t : CStr) :
    ∀ (gs : List ConfigSection), (∀ g ∈ gs, good_section g) →
      ∀ (n : Nat) (config : Config), s.drop n = joined_text gs ++ t →
        load_loop ((gs.map (fun sec => sec.entries.length + 1)).sum + f) (pst s n e) config
          = load_loop f (pst s (n + (joined_text gs).length) e) (build_config config gs) := by
  intro gs
  induction gs with
  | nil =>
    intro _ n config _
    simp [joined_text, build_config]
  | cons g gs ih =>
    intro hgs n config h
    have hg := hgs g (List.mem_cons_self _ _)
    have h1 : s.drop n = 10 :: 91 :: (g.name ++ 93 :: 10 ::
        ((g.entries.map entry_text).flatten ++ (joined_text gs ++ t))) := by
      rw [h]
      simp [joined_text, block_text]
    have h2 : s.drop n = (10 :: 91 :: (g.name ++ [93, 10])) ++
        ((g.entries.map entry_text).flatten ++ (joined_text gs ++ t)) := by
      rw [h]
      simp [joined_text, block_text]
    have h3 := drop_add_of_eq h2
    have e0 : n + (10 :: 91 :: (g.name ++ [93, 10])).length = n + 1 + (g.name.length + 3) := by
      simp only [List.length_append, List.length_cons, List.length_nil]
      omega
    rw [e0] at h3
    have h4 := drop_add_of_eq h3
    have hf : ((g :: gs).map (fun sec => sec.entries.length + 1)).sum + f
        = (g.entries.length + ((gs.map (fun sec => sec.entries.length + 1)).sum + f)) + 1 := by
      simp only [List.map_cons, List.sum_cons]
      omega
    rw [hf, step_printed_blank_header e config _ h1 hg.2.1 hg.2.2.1,
      load_loop_printed_entries e _ _ g.entries hg.2.2.2 _ _ _
        (config_add_section_current config g.name) h3,
      ih (fun x hx => hgs x (List.mem_cons_of_mem _ hx)) _ _ h4]
    have e1 : n + 1 + (g.name.length + 3) + ((g.entries.map entry_text).flatten).length
        + (joined_text gs).length = n + (joined_text (g :: gs)).length := by
      simp only [joined_text, block_text, List.length_append, List.length_cons,
        List.length_nil]
      omega
    rw [e1]
    rfl

theorem joined_text_spec (gs : List ConfigSection) :
    [10] ++ (gs.map section_text).flatten = joined_text gs ++ [10] := by
  induction gs with
  | nil => rfl
  | cons g gs ih =>
    have h1 : [10] ++ ((g :: gs).map section_text).flatten
        = 10 :: (block_text g ++ ([10] ++ (gs.map section_text).flatten)) := by
      simp [section_text, block_text]
    rw [h1, ih]
    simp [joined_text]

/-- The printed text, in terms of the named sections `g :: gs`: the first
section, then each further one after a blank line. -/
theorem print_spec_dropLast {ss : List ConfigSection} {g : ConfigSection}
    {gs : List ConfigSection} (h : named_sections ss = g :: gs) :
    (print_spec ss).dropLast = block_text g ++ joined_text gs := by
  have h1 : print_spec ss = (block_text g ++ joined_text gs) ++ [10] := by
    have h2 : print_spec ss = block_text g ++ ([10] ++ (gs.map section_text).flatten) := by
      simp [print_spec, h, section_text, block_text]
    rw [h2, joined_text_spec]
    simp
  rw [h1, List.dropLast_concat]

theorem append_entry_last (pre : List ConfigSection) (sec : ConfigSection) (e : ConfigEntry) :
    append_entry (pre ++ [sec]) pre.length e
      = pre ++ [{ sec with entries := sec.entries ++ [e] }] := by
  induction pre with
  | nil => rfl
  | cons p pre ih => simp [append_entry, ih]

theorem add_entries_last (es : List ConfigEntry) :
    ∀ (c : Config) (pre : List ConfigSection) (sec : ConfigSection),
      c.sections = pre ++ [sec] → c.current_section = some pre.length →
      (add_entries c es).sections = pre ++ [{ sec with entries := sec.entries ++ es }] := by
  induction es with
  | nil =>
    intro c pre sec hs _
    simp [add_entries, hs]
  | cons en es ih =>
    intro c pre sec hs hcur
    have h1 : (config_add_entry c en.key en.value).2.sections
        = pre ++ [{ sec with entries := sec.entries ++ [en] }] := by
      simp [config_add_entry, hcur, hs, append_entry_last]
    have h2 := ih (config_add_entry c en.key en.value).2 pre
      { sec with entries := sec.entries ++ [en] } h1
      (by rw [config_add_entry_current]; exact hcur)
    rw [add_entries, List.foldl_cons]
    simpa [add_entries] using h2

theorem build_config_sections (gs : List ConfigSection) :
    ∀ (c : Config), (build_config c gs).sections = c.sections ++ gs := by
  induction gs with
  | nil =>
    intro c
    simp [build_config]
  | cons g gs ih =>
    intro c
    have h1 : (add_entries (config_add_section c g.name) g.entries).sections
        = c.sections ++ [g] := by
      have := add_entries_last g.entries (config_add_section c g.name) c.sections
        { name := g.name, entries := [] } rfl rfl
      simpa using this
    have h2 : build_config c (g :: gs)
        = build_config (add_entries (config_add_section c g.name) g.entries) gs := rfl
    rw [h2, ih, h1]
    simp

theorem named_sections_good {ss : List ConfigSection}
    (h : ∀ sec ∈ ss, (sec.name = [] ∧ sec.entries = []) ∨ good_section sec) :
    ∀ g ∈ named_sections ss, good_section g := by
  intro g hg
  simp only [named_sections, List.mem_filter, decide_eq_true_eq] at hg
  rcases h g hg.1 with h1 | h1
  · exact absurd h1.1 hg.2
  · exact h1

/-- Printing a printable configuration whose text fits in the buffer and
parsing the text: the parse returns after `load_rounds` rounds, at the end of the
text, with an empty error buffer, and the configuration is the one built from
the default section by adding the named sections and their entries in stored
order. -/
theorem print_then_parse (xc : XConfig) (fuel : Nat) (hp : printable xc.config.sections)
    (hfit : (print_spec xc.config.sections).length < INITIAL_BUF) :
    (XConfig_Print xc).bind (parse (fuel + load_rounds xc.config.sections))
      = some (build_config config_start (named_sections xc.config.sections),
          pst (print_spec xc.config.sections).dropLast
            (print_spec xc.config.sections).dropLast.length "") := by
  obtain ⟨hall, hex⟩ := hp
  obtain ⟨body, c, hb, _⟩ := print_spec_end _ hex
  have hgood := named_sections_good hall
  cases hns : named_sections xc.config.sections with
  | nil =>
    obtain ⟨sec, hs, hn⟩ := hex
    have : sec ∈ named_sections xc.config.sections := by
      simp [named_sections, hs, hn]
    rw [hns] at this
    simp at this
  | cons g gs =>
    rw [hns] at hgood
    have hT := print_spec_dropLast hns
    have hT2 : (print_spec xc.config.sections).dropLast = (body ++ [c]) ++ [10] := by
      rw [hb]
      have : body ++ [c, 10, 10] = ((body ++ [c]) ++ [10]) ++ [10] := by simp
      rw [this, List.dropLast_concat]
    have hrounds : fuel + load_rounds xc.config.sections
        = g.entries.length + ((gs.map (fun sec => sec.entries.length + 1)).sum + (fuel + 1)) + 1 := by
      simp only [load_rounds, hns, List.map_cons, List.sum_cons]
      omega
    rw [XConfig_Print_eq xc hex hfit, Option.some_bind, hrounds]
    generalize (print_spec xc.config.sections).dropLast = T at hT hT2
    have h0 : T.drop 0 = block_text g ++ joined_text gs := by
      rw [List.drop_zero, hT]
    have h1 : T.drop (0 + (block_text g).length) = joined_text gs ++ [] := by
      simpa using drop_add_of_eq h0
    have hlen : 0 + (block_text g).length + (joined_text gs).length = (body ++ [c]).length + 1 := by
      have := congrArg List.length hT
      rw [hT2] at this
      simp only [List.length_append, List.length_singleton] at this ⊢
      omega
    have hlast : T.drop (body ++ [c]).length = [10] := by
      rw [hT2]
      exact List.drop_left _ _
    have hTlen : T.length = (body ++ [c]).length + 1 := by
      rw [hT2]
      simp
    rw [parse_eq, load_loop_first_block "" config_start _ (hgood g (List.mem_cons_self _ _)) h0,
      load_loop_joined "" (fuel + 1) [] gs
        (fun x hx => hgood x (List.mem_cons_of_mem _ hx)) _ _ h1,
      hlen, load_loop_eof_newline "" _ fuel hlast, hTlen]
    rfl

theorem named_sections_idem (ss : List ConfigSection) :
    named_sections (named_sections ss) = named_sections ss := by
  simp [named_sections, List.filter_filter]

theorem build_config_start_sections (gs : List ConfigSection) :
    (build_config config_start gs).sections = { name := [], entries := [] } :: gs := by
  rw [build_config_sections]
  rfl

theorem named_sections_build (ss : List ConfigSection) :
    named_sections (build_config config_start (named_sections ss)).sections
      = named_sections ss := by
  rw [build_config_start_sections]
  have h : named_sections ({ name := [], entries := [] } :: named_sections ss)
      = named_sections (named_sections ss) := by
    simp [named_sections]
  rw [h, named_sections_idem]

theorem print_spec_build (ss : List ConfigSection) :
    print_spec (build_config config_start (named_sections ss)).sections = print_spec ss := by
  unfold print_spec
  rw [named_sections_build]

theorem load_rounds_build (ss : List ConfigSection) :
    load_rounds (build_config config_start (named_sections ss)).sections = load_rounds ss := by
  unfold load_rounds
  rw [named_sections_build]

theorem printable_build {ss : List ConfigSection} (hp : printable ss) :
    printable (build_config config_start (named_sections ss)).sections := by
  obtain ⟨hall, sec, hs, hn⟩ := hp
  have hgood := named_sections_good hall
  have hmem : sec ∈ named_sections ss := by
    simp [named_sections, hs, hn]
  rw [build_config_start_sections]
  refine ⟨?_, sec, List.mem_cons_of_mem _ hmem, hn⟩
  intro x hx
  rcases List.mem_cons.1 hx with hx | hx
  · subst hx
    exact Or.inl ⟨rfl, rfl⟩
  · exact Or.inr (hgood x hx)

theorem triples_named {ss : List ConfigSection}
    (h : ∀ sec ∈ ss, (sec.name = [] ∧ sec.entries = []) ∨ good_section sec) :
    ((named_sections ss).map
        (fun sec => sec.entries.map (fun e => (sec.name, e.key, e.value)))).flatten
      = (ss.map (fun sec => sec.entries.map (fun e => (sec.name, e.key, e.value)))).flatten := by
  induction ss with
  | nil => rfl
  | cons sec ss ih =>
    have ih1 := ih (fun x hx => h x (List.mem_cons_of_mem _ hx))
    rcases h sec (List.mem_cons_self _ _) with h1 | h1
    · have hn : named_sections (sec :: ss) = named_sections ss := by
        simp [named_sections, h1.1]
      rw [hn, ih1]
      simp [h1.2]
    · have hn : named_sections (sec :: ss) = sec :: named_sections ss := by
        simp [named_sections, h1.1]
      rw [hn]
      simp only [List.map_cons, List.flatten_cons]
      rw [ih1]

/-! ## Round trip and idempotence -/

/-- C16 (counterexample): the configuration built by `config_add_section("")`,
`config_add_section("s")` and `config_add_entry("a b", "1")` has the triple
`(s, a b, 1)`, free of quotes and backslashes. Its printed text is `[s]`,
`a b = "1"`; parsing it gives a configuration without any triple, since the key
is not followed by `=`. -/
theorem round_trip_loses_key_with_space :
    ((XConfig_Print
        { parser := cparse_init [],
          config := (config_add_entry
            (config_add_section (config_add_section config_init []) (ofString "s"))
            (ofString "a b") [49]).2 }).bind (parse 3)).map (fun r => triples r.1)
      = some [] ∧
    triples (config_add_entry
        (config_add_section (config_add_section config_init []) (ofString "s"))
        (ofString "a b") [49]).2
      = [(ofString "s", ofString "a b", [49])] := by
  decide

/-- C16 (amended): round trip for printable configurations. For every
configuration in which each section with an empty name has no entry, each other
section has a name without `]`, newline and trailing whitespace, plain keys and
values without `"`, backslash and newline, at least one section has a non-empty
name, and the specified text is shorter than `INITIAL_BUF` bytes, parsing the
text returned by `XConfig_Print` returns a configuration with the same (section
name, key, value) triples, in the same order. -/
theorem round_trip_triples (xc : XConfig) (fuel : Nat) (hp : printable xc.config.sections)
    (hfit : (print_spec xc.config.sections).length < INITIAL_BUF) :
    ((XConfig_Print xc).bind (parse (fuel + load_rounds xc.config.sections))).map
        (fun r => triples r.1)
      = some (triples xc.config) := by
  rw [print_then_parse xc fuel hp hfit]
  simp only [Option.map_some', triples, build_config_start_sections, List.map_cons,
    List.map_nil, List.flatten_cons, List.nil_append, triples_named hp.1]

/-- Instance of the amended C16: the default section and the section `s`
holding `(a, 1 2)` and `(b, #x)`. -/
theorem round_trip_triples_witness :
    ((XConfig_Print
        { parser := cparse_init [],
          config :=
            { sections :=
                [{ name := [], entries := [] },
                 { name := ofString "s",
                   entries := [{ key := [97], value := ofString "1 2" },
                     { key := [98], value := ofString "#x" }] }],
              current_section := some 1, entry_count := 2, section_count := 2 } }).bind
        (parse (0 + load_rounds
          [{ name := [], entries := [] },
           { name := ofString "s",
             entries := [{ key := [97], value := ofString "1 2" },
               { key := [98], value := ofString "#x" }] }]))).map
        (fun r => triples r.1)
      = some (triples
          { sections :=
              [{ name := [], entries := [] },
               { name := ofString "s",
                 entries := [{ key := [97], value := ofString "1 2" },
                   { key := [98], value := ofString "#x" }] }],
            current_section := some 1, entry_count := 2, section_count := 2 }) :=
  round_trip_triples _ 0 (by decide) (by decide)

/-- C17 (counterexample): the section `s` holds the key `k` with the value
`a\"b` (a, backslash, quote, b). Parsing the printed text gives a configuration
`Y` with the value `a"b`; parsing the printed text of `Y` gives a configuration
that is not `Y`: its value for `k` is `a`. -/
theorem reprint_changes_value :
    ((XConfig_Print
        { parser := cparse_init [],
          config :=
            { sections :=
                [{ name := [], entries := [] },
                 { name := ofString "s",
                   entries := [{ key := [107], value := ofString "a\\\"b" }] }],
              current_section := some 1, entry_count := 1, section_count := 2 } }).bind
        (parse 3)).map (fun r => triples r.1)
      = some [(ofString "s", [107], ofString "a\"b")] ∧
    (((XConfig_Print
        { parser := cparse_init [],
          config :=
            { sections :=
                [{ name := [], entries := [] },
                 { name := ofString "s",
                   entries := [{ key := [107], value := ofString "a\\\"b" }] }],
              current_section := some 1, entry_count := 1, section_count := 2 } }).bind
        (parse 3)).bind
        (fun r => (XConfig_Print { parser := r.2, config := r.1 }).bind (parse 3))).map
        (fun r => triples r.1)
      = some [(ofString "s", [107], [97])] := by
  decide

/-- For a printable configuration the text printed from the parsed configuration
is the text printed from the configuration itself: the second parse returns the
result of the first, parser state included. -/
theorem printable_parse_fixed (xc : XConfig) (fuel : Nat)
    (hp : printable xc.config.sections)
    (hfit : (print_spec xc.config.sections).length < INITIAL_BUF) :
    ((XConfig_Print xc).bind (parse (fuel + load_rounds xc.config.sections))).bind
        (fun r => (XConfig_Print { parser := r.2, config := r.1 }).bind
          (parse (fuel + load_rounds xc.config.sections)))
      = (XConfig_Print xc).bind (parse (fuel + load_rounds xc.config.sections)) := by
  rw [print_then_parse xc fuel hp hfit]
  simp only [Option.some_bind]
  have h := print_then_parse
    { parser := pst (print_spec xc.config.sections).dropLast
        (print_spec xc.config.sections).dropLast.length "",
      config := build_config config_start (named_sections xc.config.sections) }
    fuel (printable_build hp) (by rw [print_spec_build]; exact hfit)
  simp only [load_rounds_build, print_spec_build, named_sections_build] at h
  exact h

/-! ## Exact round trip for plain sections -/

theorem is_print_char_plain {c : Int} (h : is_print_char c = true) :
    is_plain_char c = true := by
  simp only [is_print_char, Bool.and_eq_true, decide_eq_true_eq, bne_iff_ne, ne_eq] at h
  simp only [is_plain_char, is_ascii, Bool.and_eq_true, decide_eq_true_eq, bne_iff_ne, ne_eq]
  omega

theorem plain_section_good {sec : ConfigSection} (h : plain_section sec) :
    good_section sec := by
  obtain ⟨hn, he⟩ := h
  refine ⟨hn.1, alnum_name hn.2, alnum_no_trailing_space hn.2, ?_⟩
  intro e hmem
  exact ⟨alnum_plain_key (he e hmem).1, fun c hc => is_print_char_plain ((he e hmem).2 c hc)⟩

/-- A plain section list is the default section followed by its named sections,
and it is printable. -/
theorem plain_sections_spec {ss : List ConfigSection} (h : plain_sections ss) :
    ss = { name := [], entries := [] } :: named_sections ss ∧ printable ss := by
  obtain ⟨h1, h2, h3⟩ := h
  cases ss with
  | nil => simp at h1
  | cons d t =>
    simp only [List.head?_cons, Option.some.injEq] at h1
    simp only [List.tail_cons] at h2 h3
    subst h1
    have hn : named_sections ({ name := [], entries := [] } :: t) = t := by
      have : named_sections ({ name := [], entries := [] } :: t) = named_sections t := by
        simp [named_sections]
      rw [this, named_sections, List.filter_eq_self]
      intro sec hsec
      exact decide_eq_true (h3 sec hsec).1.1
    refine ⟨by rw [hn], ?_, ?_⟩
    · intro sec hsec
      rcases List.mem_cons.1 hsec with h0 | h0
      · subst h0
        exact Or.inl ⟨rfl, rfl⟩
      · exact Or.inr (plain_section_good (h3 sec h0))
    · cases t with
      | nil => exact absurd rfl h2
      | cons g gs =>
        exact ⟨g, List.mem_cons_of_mem _ (List.mem_cons_self _ _),
          (h3 g (List.mem_cons_self _ _)).1.1⟩

/-- Exact round trip when the text fits. For every configuration made of an
empty default section followed by one or more sections whose names and keys are
non-empty strings of letters and digits and whose values are printable bytes
other than `"` and backslash, and whose specified text is shorter than
`INITIAL_BUF` bytes: parsing the text returned by `XConfig_Print` returns, with
an empty error slot, a configuration with the same section list. -/
theorem plain_round_trip (xc : XConfig) (fuel : Nat) (hp : plain_sections xc.config.sections)
    (hfit : (print_spec xc.config.sections).length < INITIAL_BUF) :
    ((XConfig_Print xc).bind (parse (fuel + load_rounds xc.config.sections))).map
        (fun r => (r.1.sections, XConfig_GetError r.2, XConfig_HaveError r.2))
      = some (xc.config.sections, "", false) := by
  obtain ⟨hss, hpr⟩ := plain_sections_spec hp
  rw [print_then_parse xc fuel hpr hfit]
  simp only [Option.map_some', build_config_start_sections, ← hss]
  rfl

/-- Instance of the exact round trip on the handle `example_handle`. -/
theorem plain_round_trip_witness :
    ((XConfig_Print example_handle).bind
        (parse (0 + load_rounds example_handle.config.sections))).map
        (fun r => (r.1.sections, XConfig_GetError r.2, XConfig_HaveError r.2))
      = some (example_handle.config.sections, "", false) :=
  plain_round_trip example_handle 0 (by decide) (by decide)

/-- A value of `INITIAL_BUF` bytes or more does not fit in the buffer. -/
theorem one_entry_handle_overflow (v : CStr) (hv : INITIAL_BUF ≤ v.length) :
    XConfig_Print (one_entry_handle v) = none := by
  apply XConfig_Print_overflow
  have h : print_spec (one_entry_handle v).config.sections
      = section_text { name := [115], entries := [{ key := [107], value := v }] } := by
    simp [one_entry_handle, print_spec, named_sections]
  rw [h, section_text_length]
  simp only [List.map_cons, List.map_nil, List.flatten_cons, List.flatten_nil, List.append_nil,
    entry_text_length]
  omega

theorem one_entry_handle_plain (v : CStr) (hv : ∀ c ∈ v, is_print_char c = true) :
    plain_sections (one_entry_handle v).config.sections := by
  refine ⟨rfl, by simp [one_entry_handle], ?_⟩
  intro sec hsec
  simp only [one_entry_handle, List.tail_cons, List.mem_singleton] at hsec
  subst hsec
  refine ⟨show alnum_word [115] by decide, ?_⟩
  intro e he
  simp only [List.mem_singleton] at he
  subst he
  exact ⟨show alnum_word [107] by decide, hv⟩

/-- C21 (failing input): the configuration holds the empty default section and
the section `s` with the single entry `k` whose value is 2000 letters `x`. It
is in the class of the claim, and `strcat(ret_buf, ce->value)` copies the 2000
bytes into the buffer of `INITIAL_BUF` = 1024 bytes: `XConfig_Print` writes
outside the buffer and returns no text, so there is nothing to parse, whatever
the fuel. -/
theorem plain_round_trip_overflows (fuel : Nat) :
    plain_sections (one_entry_handle (List.replicate 2000 120)).config.sections ∧
    (XConfig_Print (one_entry_handle (List.replicate 2000 120))).bind (parse fuel) = none := by
  refine ⟨one_entry_handle_plain _ ?_, ?_⟩
  · intro c hc
    rw [List.eq_of_mem_replicate hc]
    decide
  · rw [one_entry_handle_overflow _ (by rw [List.length_replicate]; decide)]
    rfl

/-! ## Quoted keys -/

theorem is_quoted_key_char_spec {c : Int} (h : is_quoted_key_char c = true) :
    c ≠ EOF ∧ c ≠ 34 ∧ c ≠ 10 := by
  simp only [is_quoted_key_char, Bool.and_eq_true, bne_iff_ne, ne_eq] at h
  exact ⟨is_ascii_ne_EOF h.1.1, h.1.2, h.2⟩

/-- The loop of `read_key` inside double quotes: every byte up to the closing
quote is stored, whatever it is, and the closing quote is dropped. -/
theorem read_key_scan_quoted (k tail : CStr) (hk : ∀ c ∈ k, is_quoted_key_char c = true) :
    read_key_scan (k ++ 34 :: tail) true 34 =
      (k ++ (read_key_scan tail false 34).1, k.length + ((read_key_scan tail false 34).2.1 + 1),
        (read_key_scan tail false 34).2.2) := by
  induction k with
  | nil =>
    rw [List.nil_append, read_key_scan]
    simp [EOF, isspace]
  | cons c k ih =>
    obtain ⟨h1, h2, h3⟩ := is_quoted_key_char_spec (hk c (List.mem_cons_self _ _))
    have ih1 := ih (fun x hx => hk x (List.mem_cons_of_mem _ hx))
    rw [List.cons_append, read_key_scan]
    simp only [h1, h2, h3, if_false, and_false, false_and, Bool.true_eq_false, ih1,
      List.length_cons, List.cons_append]
    simp only [Prod.mk.injEq, true_and, and_true]
    omega

/-- The function `read_key` on a key between double quotes followed by a key
stop: the quotes are dropped and the bytes between them are the key. -/
theorem read_key_quoted {s : CStr} {n : Nat} (e : String) {k r : CStr}
    (h : s.drop n = 34 :: (k ++ 34 :: r)) (hk : ∀ c ∈ k, is_quoted_key_char c = true)
    (hkt : no_trailing_space k) (hr : key_stop r) :
    read_key (pst s n e) = (some k, pst s (n + (k.length + 2)) e) := by
  have hs : skip_whitespace (pst s n e) = pst s n e :=
    skip_whitespace_pst_zero e (by rw [h]; exact skip_whitespace_n_nospace _ (by decide))
  have hopen : read_key_scan (34 :: (k ++ 34 :: r)) false 0
      = ((read_key_scan (k ++ 34 :: r) true 34).1,
          (read_key_scan (k ++ 34 :: r) true 34).2.1 + 1,
          (read_key_scan (k ++ 34 :: r) true 34).2.2) := by
    rw [read_key_scan]
    simp [EOF, isspace]
  rw [read_key]
  simp only [hs, rest_pst, h, hopen, read_key_scan_quoted k r hk, read_key_scan_stop 34 hr,
    List.append_nil, Nat.zero_add, advance_pst, Bool.false_eq_true, if_false, rtrim_self k hkt]

/-- The function `parse_config_entry` up to the value, on a line made of
blanks, a key between double quotes, blanks and `=`. -/
theorem parse_entry_quoted_key {s : CStr} {n : Nat} (e : String) (config : Config)
    {ws1 k ws2 r : CStr} (h : s.drop n = ws1 ++ 34 :: (k ++ 34 :: (ws2 ++ 61 :: r)))
    (hws1 : ∀ c ∈ ws1, is_blank c = true) (hk : ∀ c ∈ k, is_quoted_key_char c = true)
    (hkt : no_trailing_space k) (hws2 : ∀ c ∈ ws2, is_blank c = true) :
    parse_config_entry (pst s n e) config =
      match read_value (pst s (n + ws1.length + (k.length + 2) + ws2.length + 1) e) with
      | (none, st6) => (false, st6, config)
      | (some value, st6) =>
        match config_add_entry config k value with
        | (false, config1) =>
          (false, cparse_set_error st6 "Failed to add configuration entry", config1)
        | (true, config1) =>
          let st7 := st6.advance (skip_to_eol_n st6.rest)
          let st8 := if cparse_peek st7 = 10 then (cparse_getc st7).2 else st7
          (true, st8, config1) := by
  have hc : is_entry_start 34 = true := by decide
  obtain ⟨c1, c2, c3, c4, c5, c6⟩ := is_entry_start_spec hc
  have h1 : s.drop (n + ws1.length) = 34 :: (k ++ 34 :: (ws2 ++ 61 :: r)) := drop_add_of_eq h
  have h2 : s.drop (n + ws1.length + (k.length + 2)) = ws2 ++ 61 :: r := by
    have h1a : s.drop (n + ws1.length) = (34 :: (k ++ [34])) ++ (ws2 ++ 61 :: r) := by
      rw [h1]
      simp
    have := drop_add_of_eq h1a
    simpa using this
  have h3 : s.drop (n + ws1.length + (k.length + 2) + ws2.length) = 61 :: r :=
    drop_add_of_eq h2
  have hs1 : skip_whitespace (pst s (n + ws1.length) e) = pst s (n + ws1.length) e :=
    skip_whitespace_pst_zero e (by rw [h1]; exact skip_whitespace_n_nospace _ c2)
  have hs2 := skip_whitespace_pst e h2 hws2 (skip_whitespace_n_nospace r (c := 61) (by decide))
  rw [parse_config_entry]
  simp only [skip_all_comments_entry e h hws1 hc, hs1, peek_cons h1, if_neg c1, if_neg c6,
    read_key_quoted e h1 hk hkt (key_stop_blanks_eq ws2 r hws2), hs2, getc_cons h3,
    ne_eq, not_true_eq_false, if_false]

/-- One round of the main loop over an entry line whose key is between double
quotes and whose value `read_value` reads successfully: the entry is appended
under the key without its quotes and the rest of the line is skipped. -/
theorem step_quoted_entry_value {s : CStr} {n : Nat} (e : String) {config : Config} {i : Nat}
    (fuel : Nat) {ws1 k ws2 r0 junk r v : CStr} {p : Nat} {e1 : String}
    (h : s.drop n = ws1 ++ 34 :: (k ++ 34 :: (ws2 ++ 61 :: r0)))
    (hws1 : ∀ c ∈ ws1, is_blank c = true) (hk : ∀ c ∈ k, is_quoted_key_char c = true)
    (hkt : no_trailing_space k) (hws2 : ∀ c ∈ ws2, is_blank c = true)
    (hval : read_value (pst s (n + ws1.length + (k.length + 2) + ws2.length + 1) e)
      = (some v, pst s p e1))
    (hrest : s.drop p = junk ++ r) (hj : ∀ c ∈ junk, is_line_char c = true)
    (hr : r = [] ∨ ∃ t, r = 10 :: t) (hcur : config.current_section = some i) :
    load_loop (fuel + 1) (pst s n e) config =
      load_loop fuel (pst s (p + junk.length + min 1 r.length) e1)
        (config_add_entry config k v).2 := by
  have h1 : s.drop (n + ws1.length) = [] ++ 34 :: (k ++ 34 :: (ws2 ++ 61 :: r0)) :=
    drop_add_of_eq h
  have hadd : config_add_entry config k v = (true, (config_add_entry config k v).2) := by
    rw [config_add_entry, hcur]
  rw [load_loop_entry e config fuel h hws1 (show is_entry_start 34 = true by decide),
    parse_entry_quoted_key e config h1 (by simp) hk hkt hws2]
  simp only [List.length_nil, Nat.add_zero, hval]
  rw [hadd]
  simp only []
  rw [entry_eol e1 hrest hj hr]

/-- C22: quoted keys. For every string `s` of ASCII bytes without `"` and
newline that does not end with whitespace (spaces, tabs, `=`, `#`, `;`, `[` and
single quotes are allowed, and `s` may be empty) and every simple value `v`,
parsing the line `"s" = v` followed by a newline returns (for every fuel of at
least two rounds) a configuration whose default section holds exactly the entry
`(s, v)`: the key is `s` without the quotes, `cparse_read(cfg, NULL, s)` is `v`,
and the error slot is empty. -/
theorem quoted_key_is_exact (k v : CStr) (fuel : Nat)
    (hk : ∀ c ∈ k, is_quoted_key_char c = true) (hkt : no_trailing_space k)
    (hv : simple_value v) :
    (parse (fuel + 2) ([34] ++ k ++ [34, 32, 61, 32] ++ v ++ [10])).map
        (fun r => (r.1.sections, cparse_read r.1 none k, XConfig_GetError r.2))
      = some ([{ name := [], entries := [{ key := k, value := v }] }], some v, "") := by
  have hbl : ∀ c ∈ [(32 : Int)], is_blank c = true := by decide
  have h0 : ([34] ++ k ++ [34, 32, 61, 32] ++ v ++ [10]).drop 0
      = [] ++ 34 :: (k ++ 34 :: ([32] ++ 61 :: ([32] ++ (v ++ ([] ++ [10]))))) := by
    simp
  have h1 : ([34] ++ k ++ [34, 32, 61, 32] ++ v ++ [10]).drop
      (0 + ([] : CStr).length + (k.length + 2) + [(32 : Int)].length + 1)
      = [32] ++ (v ++ ([] ++ [10])) := by
    have h0a : ([34] ++ k ++ [34, 32, 61, 32] ++ v ++ [10])
        = ([34] ++ k ++ [34, 32, 61]) ++ ([32] ++ (v ++ ([] ++ [10]))) := by simp
    have hl : 0 + ([] : CStr).length + (k.length + 2) + [(32 : Int)].length + 1
        = ([34] ++ k ++ [34, 32, 61]).length := by
      simp only [List.length_append, List.length_cons, List.length_nil]
      omega
    rw [hl, h0a]
    exact List.drop_left _ _
  have hval := read_value_simple "" h1 hbl hv (by simp)
    (show value_stop [10] from Or.inr ⟨10, [], rfl, Or.inl rfl⟩)
  have h2 : ([34] ++ k ++ [34, 32, 61, 32] ++ v ++ [10]).drop
      (0 + ([] : CStr).length + (k.length + 2) + [(32 : Int)].length + 1
        + [(32 : Int)].length + v.length + ([] : CStr).length) = [] ++ [10] := by
    have h0a : ([34] ++ k ++ [34, 32, 61, 32] ++ v ++ [10])
        = ([34] ++ k ++ [34, 32, 61, 32] ++ v) ++ ([] ++ [10]) := by simp
    have hl : 0 + ([] : CStr).length + (k.length + 2) + [(32 : Int)].length + 1
        + [(32 : Int)].length + v.length + ([] : CStr).length
        = ([34] ++ k ++ [34, 32, 61, 32] ++ v).length := by
      simp only [List.length_append, List.length_cons, List.length_nil]
      omega
    rw [hl, h0a]
    exact List.drop_left _ _
  have hlen : 0 + ([] : CStr).length + (k.length + 2) + [(32 : Int)].length + 1
      + [(32 : Int)].length + v.length + ([] : CStr).length + ([] : CStr).length
      + min 1 [(10 : Int)].length
      = ([34] ++ k ++ [34, 32, 61, 32] ++ v).length + 1 := by
    simp only [List.length_append, List.length_cons, List.length_nil]
    omega
  have hlast : ([34] ++ k ++ [34, 32, 61, 32] ++ v ++ [10]).drop
      ([34] ++ k ++ [34, 32, 61, 32] ++ v).length = [10] :=
    List.drop_left _ _
  rw [parse_eq, step_quoted_entry_value "" (fuel + 1) h0 (by simp) hk hkt hbl hval h2 (by simp)
      (Or.inr ⟨[], rfl⟩) (show config_start.current_section = some 0 from rfl),
    hlen, load_loop_eof_newline "" _ fuel hlast]
  simp [cparse_read, config_add_entry, config_start, append_entry, read_sections, find_entry,
    XConfig_GetError, pst]

/-- Instance of C22 on the line `"a b=\t#;[\x27z" = value one`, whose key holds a
space, `=`, a tab, `#`, `;`, `[` and a single quote. -/
theorem quoted_key_is_exact_witness :
    (parse 2 (ofString "\"a b=\t#;[\x27z\" = value one\n")).map
        (fun r => (r.1.sections, cparse_read r.1 none (ofString "a b=\t#;[\x27z"),
          XConfig_GetError r.2))
      = some ([{ name := [], entries :=
            [{ key := ofString "a b=\t#;[\x27z", value := ofString "value one" }] }],
          some (ofString "value one"), "") :=
  quoted_key_is_exact (ofString "a b=\t#;[\x27z") (ofString "value one") 0
    (by decide) (by decide) (by decide)

/-! ## The section test where there is no header -/

/-- Where a byte other than `[` follows the blanks, `read_section` returns
`NULL` and puts the byte back: the state is the one after the whitespace skip. -/
theorem read_section_puts_back (st : CPState) (c : Int) (t : CStr)
    (h : (skip_whitespace st).rest = c :: t) (hc : c ≠ 91) :
    read_section st = (none, skip_whitespace st) := by
  rw [read_section]
  simp only [cparse_getc, h, ne_eq, hc, not_false_eq_true, if_true]
  cases skip_whitespace st
  simp

/-- Instance on the text `  x = 1` from offset 0: the state returned is at
offset 2, on the `x`. -/
theorem read_section_puts_back_witness :
    read_section (cparse_init (ofString "  x = 1"))
      = (none, { str := ofString "  x = 1", off := 2, glb_err_buf := "" }) :=
  read_section_puts_back (cparse_init (ofString "  x = 1")) 120 (ofString " = 1")
    (by decide) (by decide)

/-- At the end of the input `read_section` returns `NULL` and decrements the
offset reached after the whitespace skip, although no byte was read. -/
theorem read_section_at_end (st : CPState) (h : (skip_whitespace st).rest = []) :
    read_section st
      = (none, { skip_whitespace st with off := (skip_whitespace st).off - 1 }) := by
  rw [read_section]
  simp only [cparse_getc, h]
  simp [EOF]

/-- C23 (failing input): for every string `s`, in the state whose offset is at
the end of `s` (the input is exhausted), `read_section` returns `NULL` and
leaves the offset at `strlen(s) - 1`, one byte before the position it was
called at: the last byte of `s` is readable again, and for the empty string the
offset is `-1`. -/
theorem read_section_moves_back_at_end (s : CStr) (e : String) :
    read_section (pst s s.length e)
      = (none, { str := s, off := (s.length : Int) - 1, glb_err_buf := e }) := by
  have hs : skip_whitespace (pst s s.length e) = pst s s.length e :=
    skip_whitespace_eof e (List.drop_length s)
  have h := read_section_at_end (pst s s.length e)
    (by rw [hs, rest_pst]; exact List.drop_length s)
  rw [h, hs]
  rfl

/-- On the empty input the offset after `read_section` is `-1`. -/
theorem read_section_negative_offset :
    read_section (cparse_init []) = (none, { str := [], off := -1, glb_err_buf := "" }) := by
  decide

/-- After the byte `x` of the input `x` was consumed, `read_section` makes it
readable again: the next `cparse_getc` returns `x`. -/
theorem read_section_rereads_byte :
    (cparse_getc (cparse_getc (cparse_init [120])).2).1 = EOF ∧
    (cparse_getc (read_section (cparse_getc (cparse_init [120])).2).2).1 = 120 := by
  decide

/-! ## Lookups under appends -/

theorem current_is_last_init : current_is_last config_init := Or.inl ⟨rfl, rfl⟩

theorem current_is_last_call {c : Config} (h : current_is_last c) (call : ConfigCall) :
    current_is_last (apply_call c call) := by
  cases call with
  | add_section name =>
    refine Or.inr ⟨by simp [apply_call, config_add_section], ?_⟩
    simp [apply_call, config_add_section]
  | add_entry key value =>
    rcases h with ⟨h1, h2⟩ | ⟨h1, h2⟩
    · refine Or.inl ?_
      simp [apply_call, config_add_entry, h2, h1]
    · refine Or.inr ⟨?_, ?_⟩
      · intro h0
        have h3 := congrArg List.length h0
        simp only [apply_call, config_add_entry, h2, append_entry_length, List.length_nil] at h3
        exact h1 (List.length_eq_zero.1 h3)
      · simp [apply_call, config_add_entry, h2, append_entry_length]

theorem current_is_last_calls {c : Config} (h : current_is_last c) (calls : List ConfigCall) :
    current_is_last (apply_calls c calls) := by
  induction calls generalizing c with
  | nil => exact h
  | cons call calls ih => exact ih (current_is_last_call h call)

/-- Sections added after the end of the list do not change a lookup that
succeeds. -/
theorem read_sections_append (sn : Option CStr) (k v : CStr) (ss t : List ConfigSection)
    (h : read_sections sn k ss = some v) : read_sections sn k (ss ++ t) = some v := by
  induction ss with
  | nil => simp [read_sections] at h
  | cons sec ss ih =>
    cases sn with
    | some n =>
      by_cases hn : sec.name = n
      · simpa [read_sections, hn] using h
      · simp only [read_sections, List.cons_append, ne_eq, hn, not_false_eq_true, if_true] at h ⊢
        exact ih h
    | none =>
      simp only [read_sections, List.cons_append] at h ⊢
      cases hf : find_entry k sec.entries with
      | some w => simpa [hf] using h
      | none =>
        simp only [hf] at h ⊢
        exact ih h

/-- An entry added at the end of the last section does not change a lookup
that succeeds. -/
theorem read_sections_append_entry (sn : Option CStr) (k v : CStr) (e : ConfigEntry)
    (ss : List ConfigSection) (h : read_sections sn k ss = some v) :
    read_sections sn k (append_entry ss (ss.length - 1) e) = some v := by
  induction ss with
  | nil => simp [read_sections] at h
  | cons sec ss ih =>
    cases ss with
    | nil =>
      have hfe : ∀ w, find_entry k sec.entries = some w →
          find_entry k (sec.entries ++ [e]) = some w := by
        intro w hw
        rw [find_entry_append, hw]
      cases sn with
      | some n =>
        by_cases hn : sec.name = n
        · simp only [read_sections, hn, ne_eq, not_true_eq_false, if_false] at h
          simp [append_entry, read_sections, hn, hfe v h]
        · simp [read_sections, hn] at h
      | none =>
        simp only [read_sections] at h
        cases hf : find_entry k sec.entries with
        | some w =>
          rw [hf] at h
          simp only [List.length_singleton, Nat.sub_self, append_entry, read_sections, hfe w hf]
          exact h
        | none =>
          rw [hf] at h
          simp at h
    | cons sec2 ss =>
      have hi : (sec :: sec2 :: ss).length - 1 = ((sec2 :: ss).length - 1) + 1 := by
        simp
      rw [hi, append_entry]
      cases sn with
      | some n =>
        by_cases hn : sec.name = n
        · simpa [read_sections, hn] using h
        · simp only [read_sections, ne_eq, hn, not_false_eq_true, if_true] at h ⊢
          exact ih h
      | none =>
        cases hf : find_entry k sec.entries with
        | some w =>
          rw [read_sections, hf] at h
          rw [read_sections, hf]
          exact h
        | none =>
          rw [read_sections, hf] at h
          rw [read_sections, hf]
          exact ih h

/-- One more call on a configuration whose current section is the last one
does not change a lookup that succeeds. -/
theorem cparse_read_call {c : Config} (hc : current_is_last c) (call : ConfigCall)
    (sn : Option CStr) (k v : CStr) (h : cparse_read c sn k = some v) :
    cparse_read (apply_call c call) sn k = some v := by
  unfold cparse_read at h ⊢
  cases call with
  | add_section name => exact read_sections_append sn k v _ _ h
  | add_entry key value =>
    rcases hc with ⟨h1, h2⟩ | ⟨h1, h2⟩
    · simpa [apply_call, config_add_entry, h2] using h
    · simp only [apply_call, config_add_entry, h2]
      exact read_sections_append_entry sn k v _ _ h

/-- C24: lookups are stable under appends. For every configuration reached
from the empty one by a sequence of `config_add_section` and `config_add_entry`
calls, every section name or `NULL` and every key: when `cparse_read` returns a
value `v`, it still returns `v` after one more `config_add_section` or
`config_add_entry` call, whatever its arguments (a duplicate key, a duplicate
section name). -/
theorem lookup_stable_under_append (calls : List ConfigCall) (call : ConfigCall)
    (sn : Option CStr) (k v : CStr)
    (h : cparse_read (apply_calls config_init calls) sn k = some v) :
    cparse_read (apply_call (apply_calls config_init calls) call) sn k = some v :=
  cparse_read_call (current_is_last_calls current_is_last_init calls) call sn k v h

/-- Instance of C24: after the sections `s` and `t` with `s.a = 1`, a second
section `s` was opened; adding the duplicate key `a` there leaves the answer of
the lookup of `a` in `s` at `1`. -/
theorem lookup_stable_under_append_witness :
    cparse_read
        (apply_calls config_init
          [ConfigCall.add_section [115], ConfigCall.add_entry [97] [49],
           ConfigCall.add_section [116], ConfigCall.add_section [115]])
        (some [115]) [97] = some [49] ∧
    cparse_read
        (apply_call
          (apply_calls config_init
            [ConfigCall.add_section [115], ConfigCall.add_entry [97] [49],
             ConfigCall.add_section [116], ConfigCall.add_section [115]])
          (ConfigCall.add_entry [97] [50]))
        (some [115]) [97] = some [49] :=
  ⟨by decide,
    lookup_stable_under_append
      [ConfigCall.add_section [115], ConfigCall.add_entry [97] [49],
       ConfigCall.add_section [116], ConfigCall.add_section [115]]
      (ConfigCall.add_entry [97] [50]) (some [115]) [97] [49] (by decide)⟩

/-- The same after any number of further calls. -/
theorem lookup_stable_under_appends (calls more : List ConfigCall) (sn : Option CStr)
    (k v : CStr) (h : cparse_read (apply_calls config_init calls) sn k = some v) :
    cparse_read (apply_calls (apply_calls config_init calls) more) sn k = some v := by
  have hc := current_is_last_calls current_is_last_init calls
  generalize apply_calls config_init calls = c at h hc
  induction more generalizing c with
  | nil => exact h
  | cons call more ih =>
    exact ih (apply_call c call) (cparse_read_call hc call sn k v h)
      (current_is_last_call hc call)

/-- The current section matters: when it is not the last section (as after
`XConfig_AddKeyValue`, which moves it), an added entry can change the answer of
a lookup with a `NULL` section. Here the sections are `s` (empty, current) and
`t` holding `(a, 1)`; after `config_add_entry(a, 2)` the lookup of `a` is `2`. -/
theorem lookup_changes_when_current_not_last :
    cparse_read
        { sections := [{ name := [115], entries := [] },
            { name := [116], entries := [{ key := [97], value := [49] }] }],
          current_section := some 0, entry_count := 1, section_count := 2 }
        none [97] = some [49] ∧
    cparse_read
        (config_add_entry
          { sections := [{ name := [115], entries := [] },
              { name := [116], entries := [{ key := [97], value := [49] }] }],
            current_section := some 0, entry_count := 1, section_count := 2 }
          [97] [50]).2
        none [97] = some [50] := by
  decide

/-! ## Printing and parsing twice -/

theorem is_hspace_spec {c : Int} (h : is_hspace c = true) :
    c ≠ EOF ∧ isspace c = true ∧ c ≠ 10 := by
  simp only [is_hspace, Bool.and_eq_true, bne_iff_ne, ne_eq] at h
  refine ⟨?_, h.1, h.2⟩
  rintro rfl
  revert h
  decide

theorem is_hspace_false_of {c : Int} (h : isspace c = false) : is_hspace c = false := by
  simp [is_hspace, h]

theorem skip_whitespace_n_cons (c : Int) (l : CStr) :
    skip_whitespace_n (c :: l) = if is_hspace c = true then skip_whitespace_n l + 1 else 0 := by
  rw [skip_whitespace_n]
  by_cases h : is_hspace c = true
  · rw [if_pos (is_hspace_spec h), if_pos h]
  · rw [if_neg h, if_neg]
    rintro ⟨_, h2, h3⟩
    exact h (by simp [is_hspace, h2, h3])

theorem skip_whitespace_n_hs (ws tail : CStr) (hws : ∀ c ∈ ws, is_hspace c = true) :
    skip_whitespace_n (ws ++ tail) = ws.length + skip_whitespace_n tail := by
  induction ws with
  | nil => simp
  | cons c ws ih =>
    rw [List.cons_append, skip_whitespace_n_cons, if_pos (hws c (List.mem_cons_self _ _)),
      ih (fun x hx => hws x (List.mem_cons_of_mem _ hx)), List.length_cons]
    omega

theorem skip_whitespace_n_head (t : CStr) (h : ∀ c ∈ t.head?, is_hspace c = false) :
    skip_whitespace_n t = 0 := by
  cases t with
  | nil => rfl
  | cons c t =>
    rw [skip_whitespace_n_cons, if_neg]
    rw [h c rfl]
    decide

/-- The state after `skip_whitespace` over a run of whitespace. -/
theorem skip_whitespace_hs {s : CStr} {n : Nat} (e : String) {ws tail : CStr}
    (h : s.drop n = ws ++ tail) (hws : ∀ c ∈ ws, is_hspace c = true)
    (ht : ∀ c ∈ tail.head?, is_hspace c = false) :
    skip_whitespace (pst s n e) = pst s (n + ws.length) e := by
  rw [skip_whitespace, rest_pst, h, skip_whitespace_n_hs ws tail hws,
    skip_whitespace_n_head tail ht, advance_pst]
  rfl

theorem takeWhile_hspace_all (l : CStr) : ∀ c ∈ l.takeWhile is_hspace, is_hspace c = true :=
  fun _ hc => List.mem_takeWhile_imp hc

theorem dropWhile_head_not (p : Int → Bool) (l : CStr) :
    ∀ c ∈ (l.dropWhile p).head?, p c = false := by
  induction l with
  | nil => simp
  | cons a l ih =>
    intro c hc
    by_cases ha : p a = true
    · rw [List.dropWhile_cons_of_pos ha] at hc
      exact ih c hc
    · rw [List.dropWhile_cons_of_neg ha] at hc
      simp only [List.head?_cons, Option.mem_def, Option.some.injEq] at hc
      subst hc
      simpa using ha

/-- The result of the loop `while (skip_comments(st))` does not depend on the
fuel, once there is more fuel than unread bytes. -/
theorem skip_comments_loop_fuel :
    ∀ (f1 f2 : Nat) (st : CPState), st.rest.length < f1 → st.rest.length < f2 →
      skip_comments_loop f1 st = skip_comments_loop f2 st := by
  intro f1
  induction f1 with
  | zero =>
    intro f2 st h
    exact absurd h (Nat.not_lt_zero _)
  | succ f1 ih =>
    intro f2 st h1 h2
    cases f2 with
    | zero => exact absurd h2 (Nat.not_lt_zero _)
    | succ f2 =>
      rw [skip_comments_loop, skip_comments_loop]
      cases hsc : skip_comments st with
      | mk b st1 =>
        cases b with
        | true =>
          have hlt := skip_comments_rest_lt st (by rw [hsc])
          rw [hsc] at hlt
          simp only [] at hlt ⊢
          exact ih f2 st1 (by omega) (by omega)
        | false => rfl

/-- A line that `skip_comments` skips adds nothing to `skip_all_comments`. -/
theorem skip_all_comments_step {st st1 : CPState} (h : skip_comments st = (true, st1)) :
    skip_all_comments st = skip_all_comments st1 := by
  have hlt := skip_comments_rest_lt st (by rw [h])
  rw [h] at hlt
  simp only [] at hlt
  rw [skip_all_comments, skip_comments_loop, h]
  simp only []
  rw [skip_all_comments]
  exact skip_comments_loop_fuel _ _ st1 (by omega) (Nat.lt_succ_self _)

/-- A line that `skip_comments` skips takes no round of the main loop. -/
theorem load_loop_skip {st st1 : CPState} (h : skip_comments st = (true, st1)) (f : Nat)
    (config : Config) : load_loop (f + 1) st config = load_loop (f + 1) st1 config := by
  rw [load_loop_succ, load_loop_succ, skip_all_comments_step h]

theorem skip_comments_ws (st : CPState) :
    skip_comments (skip_whitespace st) = skip_comments st := by
  rw [skip_comments, skip_comments, skip_whitespace_idem]

theorem skip_all_comments_ws (st : CPState) :
    skip_all_comments (skip_whitespace st) = skip_all_comments st := by
  have hlen : (skip_whitespace st).rest.length ≤ st.rest.length := by
    rw [rest_skip_whitespace, List.length_drop]
    omega
  rw [skip_all_comments, skip_all_comments,
    skip_comments_loop_fuel ((skip_whitespace st).rest.length + 1) (st.rest.length + 1)
      (skip_whitespace st) (Nat.lt_succ_self _) (by omega)]
  rw [skip_comments_loop, skip_comments_loop, skip_comments_ws]

/-- Whitespace at the start of a line takes no round of the main loop. -/
theorem load_loop_ws (st : CPState) (f : Nat) (config : Config) :
    load_loop (f + 1) (skip_whitespace st) config = load_loop (f + 1) st config := by
  rw [load_loop_succ, load_loop_succ, skip_all_comments_ws]

/-- The function `skip_comments` on a blank line. -/
theorem skip_comments_blank_line {s : CStr} {n : Nat} (e : String) {t : CStr}
    (h : s.drop n = 10 :: t) : skip_comments (pst s n e) = (true, pst s (n + 1) e) := by
  have hs : skip_whitespace (pst s n e) = pst s n e :=
    skip_whitespace_pst_zero e (by rw [h]; rfl)
  rw [skip_comments]
  simp only [hs, peek_cons h, getc_cons h, if_true]

/-- The function `skip_comments` on a comment line. -/
theorem skip_comments_comment_line {s : CStr} {n : Nat} (e : String) {c : Int}
    {junk t : CStr} (h : s.drop n = c :: (junk ++ 10 :: t)) (hc : c = 35 ∨ c = 59)
    (hj : ∀ x ∈ junk, is_line_char x = true) :
    skip_comments (pst s n e) = (true, pst s (n + (junk.length + 2)) e) := by
  have hsp : skip_whitespace_n (c :: (junk ++ 10 :: t)) = 0 := by
    rcases hc with rfl | rfl <;> rfl
  have hs : skip_whitespace (pst s n e) = pst s n e :=
    skip_whitespace_pst_zero e (by rw [h]; exact hsp)
  have h10 : c ≠ 10 := by
    rcases hc with rfl | rfl <;> decide
  have hl : skip_line_n (c :: (junk ++ 10 :: t)) = junk.length + 2 := by
    have hcl : is_line_char c = true := by
      rcases hc with rfl | rfl <;> decide
    have := skip_line_n_append (c :: junk) (10 :: t) (by
      intro x hx
      rcases List.mem_cons.1 hx with hx | hx
      · rw [hx]; exact hcl
      · exact hj x hx) (Or.inr ⟨t, rfl⟩)
    simpa [Nat.add_assoc] using this
  rw [skip_comments]
  simp only [hs, peek_cons h, if_neg h10, hc, if_true, rest_pst, h, hl, advance_pst]

theorem join_lines_true_ws (w l : CStr) (hw : ∀ c ∈ w, is_hspace c = true) :
    join_lines true (w ++ l) = join_lines true l := by
  induction w with
  | nil => rfl
  | cons c w ih =>
    rw [List.cons_append, join_lines, if_pos (hw c (List.mem_cons_self _ _))]
    exact ih (fun x hx => hw x (List.mem_cons_of_mem _ hx))

theorem join_lines_false_cons {c : Int} (l : CStr) (h : c ≠ 10) :
    join_lines false (c :: l) = c :: join_lines false l := by
  rw [join_lines, if_neg h]

theorem join_lines_true_cons {d : Int} (l : CStr) (h : is_hspace d = false) :
    join_lines true (d :: l)
      = (if d ≠ 10 ∧ d ≠ 35 ∧ d ≠ 59 ∧ d ≠ 91 then [32] else []) ++ join_lines false (d :: l) := by
  have hn : ¬ (is_hspace d = true) := by rw [h]; decide
  conv_lhs => rw [join_lines, if_neg hn]
  by_cases h10 : d = 10
  · subst h10
    simp [join_lines]
  · rw [if_neg h10, join_lines_false_cons l h10]
    by_cases hs : d = 35 ∨ d = 59 ∨ d = 91
    · rw [if_pos hs, if_neg (by
        rintro ⟨_, h1, h2, h3⟩
        rcases hs with hs | hs | hs
        · exact h1 hs
        · exact h2 hs
        · exact h3 hs)]
      rfl
    · rw [if_neg hs, if_pos (by
        refine ⟨h10, ?_, ?_, ?_⟩ <;> intro hh <;> apply hs <;> simp [hh])]
      rfl

/-- A string is a run of whitespace followed by a string that does not start
with whitespace. -/
theorem hspace_split (l : CStr) :
    ∃ w l2, l = w ++ l2 ∧ (∀ c ∈ w, is_hspace c = true) ∧
      ∀ c ∈ l2.head?, is_hspace c = false :=
  ⟨l.takeWhile is_hspace, l.dropWhile is_hspace, (List.takeWhile_append_dropWhile _ _).symm,
    takeWhile_hspace_all l, dropWhile_head_not is_hspace l⟩

/-- The loop of `read_quoted_value` over a body without `"` and backslash,
newlines included, up to the closing quote: the stored value is the body with
its lines joined. -/
theorem read_quoted_loop_join {s : CStr} (e : String) (r : CStr) :
    ∀ (m : Nat) (v : CStr), v.length ≤ m → (∀ c ∈ v, is_open_char c = true) →
      ∀ (n : Nat) (buf : CStr) (f : Nat), s.drop n = v ++ 34 :: r →
        (v ++ 34 :: r).length < f →
        read_quoted_loop 34 f (pst s n e) buf false
          = (34, buf ++ join_lines false v, pst s (n + v.length + 1) e) := by
  intro m
  induction m with
  | zero =>
    intro v hm _ n buf f h hf
    have hv : v = [] := List.length_eq_zero.1 (Nat.le_zero.1 hm)
    subst hv
    cases f with
    | zero => exact absurd hf (Nat.not_lt_zero _)
    | succ f =>
      rw [read_quoted_loop_close e f buf (by simpa using h)]
      simp [join_lines]
  | succ m ih =>
    intro v hm hv n buf f h hf
    cases v with
    | nil =>
      cases f with
      | zero => exact absurd hf (Nat.not_lt_zero _)
      | succ f =>
        rw [read_quoted_loop_close e f buf (by simpa using h)]
        simp [join_lines]
    | cons c l =>
      obtain ⟨c1, c2, c3⟩ := is_open_char_spec (hv c (List.mem_cons_self _ _))
      have hl : ∀ x ∈ l, is_open_char x = true := fun x hx => hv x (List.mem_cons_of_mem _ hx)
      have hlm : l.length ≤ m := by
        simp only [List.length_cons] at hm
        omega
      have h0 : s.drop n = c :: (l ++ 34 :: r) := by simpa using h
      have h1 : s.drop (n + 1) = l ++ 34 :: r := drop_succ_of_eq h0
      cases f with
      | zero => exact absurd hf (Nat.not_lt_zero _)
      | succ f =>
        have hf1 : (l ++ 34 :: r).length < f := by
          simp only [List.cons_append, List.length_cons, List.length_append] at hf ⊢
          omega
        rw [read_quoted_loop_succ, getc_cons h0]
        by_cases h10 : c = 10
        · subst h10
          obtain ⟨w, l2, hdec, hw, hhd⟩ := hspace_split l
          subst hdec
          have h2 : s.drop (n + 1) = w ++ (l2 ++ 34 :: r) := by
            rw [h1]
            simp
          have hhead : ∀ x ∈ (l2 ++ 34 :: r).head?, is_hspace x = false := by
            intro x hx
            cases l2 with
            | nil =>
              simp only [List.nil_append, List.head?_cons, Option.mem_def,
                Option.some.injEq] at hx
              subst hx
              decide
            | cons d l3 =>
              simp only [List.cons_append, List.head?_cons, Option.mem_def,
                Option.some.injEq] at hx
              subst hx
              exact hhd d rfl
          have hsk := skip_whitespace_hs e h2 hw hhead
          have h3 : s.drop (n + 1 + w.length) = l2 ++ 34 :: r := drop_add_of_eq h2
          have hl2 : ∀ x ∈ l2, is_open_char x = true :=
            fun x hx => hl x (List.mem_append_right _ hx)
          have hf2 : (l2 ++ 34 :: r).length < f := by
            simp only [List.length_append, List.length_cons] at hf1 ⊢
            omega
          have hjoin : join_lines false (10 :: (w ++ l2)) = 10 :: join_lines true l2 := by
            rw [join_lines, if_pos rfl, join_lines_true_ws _ _ hw]
          have hpos : n + 1 + w.length + l2.length + 1 = n + (10 :: (w ++ l2)).length + 1 := by
            simp only [List.length_cons, List.length_append]
            omega
          have hle : l2.length ≤ m := by
            simp only [List.length_append] at hlm
            omega
          simp only [hsk]
          cases l2 with
          | nil =>
            rw [peek_cons (by simpa using h3)]
            have := ih [] (Nat.zero_le _) (by simp) _ (buf ++ [10]) f h3 hf2
            simp only [join_lines, List.append_nil] at this
            simp only [List.length_nil, Nat.add_zero] at hpos this
            rw [hjoin]
            simp [EOF, join_lines, this, hpos]
          | cons d l3 =>
            have hdh : is_hspace d = false := hhd d rfl
            obtain ⟨d1, d2, d3⟩ := is_open_char_spec (hl2 d (List.mem_cons_self _ _))
            rw [peek_cons (by simpa using h3), hjoin, join_lines_true_cons l3 hdh]
            by_cases hsp : d ≠ 10 ∧ d ≠ 35 ∧ d ≠ 59 ∧ d ≠ 91
            · have := ih (d :: l3) hle hl2 _ (buf ++ [10] ++ [32]) f h3 hf2
              have hcond : d ≠ 34 ∧ d ≠ 10 ∧ d ≠ 35 ∧ d ≠ 59 ∧ d ≠ 91 := ⟨d2, hsp⟩
              simp only [if_pos hsp]
              simp only [EOF, Int.reduceNeg, Int.reduceEq, if_false, Bool.false_eq_true,
                and_false, if_pos hcond]
              rw [this, hpos]
              simp
            · have := ih (d :: l3) hle hl2 _ (buf ++ [10]) f h3 hf2
              have hcond : ¬ (d ≠ 34 ∧ d ≠ 10 ∧ d ≠ 35 ∧ d ≠ 59 ∧ d ≠ 91) := fun hh => hsp hh.2
              simp only [if_neg hsp]
              simp only [EOF, Int.reduceNeg, Int.reduceEq, if_false, Bool.false_eq_true,
                and_false, if_neg hcond, List.nil_append]
              rw [this, hpos]
              simp
        · have := ih l hlm hl (n + 1) (buf ++ [c]) f h1 hf1
          simp only [c1, c2, c3, h10, if_false, and_false, Bool.false_eq_true]
          rw [this, join_lines_false_cons l h10]
          simp [Nat.add_assoc, Nat.add_comm 1]

theorem is_rekey_char_spec {c : Int} (h : is_rekey_char c = true) :
    is_ascii c = true ∧ c ≠ 10 ∧ c ≠ 61 ∧ c ≠ 34 ∧ c ≠ 39 := by
  simp only [is_rekey_char, Bool.and_eq_true, bne_iff_ne, ne_eq] at h
  exact ⟨h.1.1.1.1, h.1.1.1.2, h.1.1.2, h.1.2, h.2⟩

theorem isspace_of_not_hspace {c : Int} (h : is_hspace c = false) (h10 : c ≠ 10) :
    isspace c = false := by
  simp only [is_hspace, Bool.and_eq_false_iff, bne_eq_false_iff_eq] at h
  rcases h with h | h
  · exact h
  · exact absurd h h10

theorem is_hspace_of_isspace {c : Int} (h : isspace c = true) (h10 : c ≠ 10) :
    is_hspace c = true := by
  simp [is_hspace, h, h10]

/-- The parts of a key of a `reprintable` entry: whitespace, the first word,
whitespace, and what follows. -/
theorem key_parts (k : CStr) (hk : ∀ c ∈ k, is_rekey_char c = true) :
    ∃ ws1 ws2, k = ws1 ++ (key_word k ++ (ws2 ++ key_rest k)) ∧
      (∀ c ∈ ws1, is_hspace c = true) ∧ (∀ c ∈ ws2, is_hspace c = true) ∧
      (∀ c ∈ key_word k, is_key_char c = true) ∧
      (key_word k = [] → ws2 = [] ∧ key_rest k = []) ∧
      (∀ c ∈ (key_rest k).head?, isspace c = false ∧ c ≠ 61) ∧
      (key_rest k ≠ [] → ws2 ≠ []) ∧
      (∀ c ∈ key_rest k, is_line_char c = true) := by
  have hk1 : ∀ c ∈ k.dropWhile is_hspace, is_rekey_char c = true :=
    fun c hc => hk c ((List.dropWhile_suffix _).subset hc)
  have hk2 : ∀ c ∈ (k.dropWhile is_hspace).dropWhile (fun c => !isspace c),
      is_rekey_char c = true :=
    fun c hc => hk1 c ((List.dropWhile_suffix _).subset hc)
  have hk3 : ∀ c ∈ key_rest k, is_rekey_char c = true :=
    fun c hc => hk2 c ((List.dropWhile_suffix _).subset hc)
  refine ⟨k.takeWhile is_hspace,
    ((k.dropWhile is_hspace).dropWhile (fun c => !isspace c)).takeWhile is_hspace,
    ?_, takeWhile_hspace_all _, takeWhile_hspace_all _, ?_, ?_, ?_, ?_, ?_⟩
  · unfold key_word key_rest
    rw [List.takeWhile_append_dropWhile, List.takeWhile_append_dropWhile,
      List.takeWhile_append_dropWhile]
  · intro c hc
    have h1 : (!isspace c) = true :=
      List.mem_takeWhile_imp (p := fun c => !isspace c)
        (show c ∈ List.takeWhile (fun c => !isspace c) (k.dropWhile is_hspace) from hc)
    have h2 := is_rekey_char_spec (hk1 c ((List.takeWhile_prefix _).subset hc))
    simp only [Bool.not_eq_true'] at h1
    simp [is_key_char, h1, h2.1, h2.2.2.1, h2.2.2.2.1, h2.2.2.2.2]
  · intro hw
    have hnil : k.dropWhile is_hspace = [] := by
      cases hd : k.dropWhile is_hspace with
      | nil => rfl
      | cons c l =>
        exfalso
        have hc1 : is_hspace c = false := dropWhile_head_not is_hspace k c (by rw [hd]; rfl)
        have hc2 := is_rekey_char_spec (hk1 c (by rw [hd]; exact List.mem_cons_self _ _))
        have hc3 := isspace_of_not_hspace hc1 hc2.2.1
        unfold key_word at hw
        rw [hd, List.takeWhile_cons_of_pos (by simp [hc3])] at hw
        cases hw
    unfold key_rest
    simp [hnil]
  · intro c hc
    have hc1 : is_hspace c = false := dropWhile_head_not is_hspace _ c hc
    have hc2 := is_rekey_char_spec (hk3 c (List.mem_of_mem_head? hc))
    exact ⟨isspace_of_not_hspace hc1 hc2.2.1, hc2.2.2.1⟩
  · intro hne hws
    cases hd : (k.dropWhile is_hspace).dropWhile (fun c => !isspace c) with
    | nil =>
      apply hne
      unfold key_rest
      rw [hd]
      rfl
    | cons c l =>
      have hc1 : (!isspace c) = false :=
        dropWhile_head_not (fun c => !isspace c) _ c (by rw [hd]; rfl)
      have hc2 := is_rekey_char_spec (hk2 c (by rw [hd]; exact List.mem_cons_self _ _))
      simp only [Bool.not_eq_false'] at hc1
      rw [hd, List.takeWhile_cons_of_pos (is_hspace_of_isspace hc1 hc2.2.1)] at hws
      cases hws
  · intro c hc
    have hc2 := is_rekey_char_spec (hk3 c hc)
    simp [is_line_char, hc2.1, hc2.2.1]

/-- A string followed by the byte `q`: the bytes before the first `q`, that
`q`, and what is left. -/
theorem split_first (q : Int) (v : CStr) :
    ∃ junk, v ++ [q] = v.takeWhile (fun c => c != q) ++ q :: junk ∧
      (∀ c ∈ junk, c ∈ v ∨ c = q) ∧ (q ∉ v → junk = []) := by
  induction v with
  | nil => exact ⟨[], rfl, by simp, fun _ => rfl⟩
  | cons c v ih =>
    by_cases hc : c = q
    · subst hc
      refine ⟨v ++ [c], by simp, ?_, by simp⟩
      intro x hx
      rcases List.mem_append.1 hx with hx | hx
      · exact Or.inl (List.mem_cons_of_mem _ hx)
      · exact Or.inr (by simpa using hx)
    · obtain ⟨junk, h1, h2, h3⟩ := ih
      refine ⟨junk, ?_, ?_, ?_⟩
      · rw [List.takeWhile_cons_of_pos (by simpa using hc), List.cons_append, h1]
        rfl
      · intro x hx
        rcases h2 x hx with h | h
        · exact Or.inl (List.mem_cons_of_mem _ h)
        · exact Or.inr h
      · intro hn
        exact h3 (fun hm => hn (List.mem_cons_of_mem _ hm))

/-- The function `read_value` on a printed value: a space, `"`, a body without
`"` and backslash, and the closing `"`. -/
theorem read_value_printed {s : CStr} {n : Nat} (e : String) {v r : CStr}
    (h : s.drop n = 32 :: 34 :: (v ++ 34 :: r)) (hv : ∀ c ∈ v, is_open_char c = true) :
    read_value (pst s n e) = (some (join_lines false v), pst s (n + (v.length + 3)) e) := by
  have h0 : s.drop n = [32] ++ 34 :: (v ++ 34 :: r) := h
  have h1 : s.drop (n + 1) = 34 :: (v ++ 34 :: r) := drop_succ_of_eq h
  have h2 : s.drop (n + 1 + 1) = v ++ 34 :: r := drop_succ_of_eq h1
  have hs := skip_whitespace_hs e h0 (by decide) (by simp [is_hspace, isspace])
  have hq := read_quoted_loop_join e r v.length v (Nat.le_refl _) hv (n + 1 + 1) []
    ((v ++ 34 :: r).length + 1) h2 (Nat.lt_succ_self _)
  rw [read_value]
  simp only [hs, List.length_singleton, peek_cons h1, true_or, if_true]
  rw [read_quoted_value]
  have hp : n + 1 + 1 + v.length + 1 = n + (v.length + 3) := by omega
  simp only [getc_cons h1, rest_pst, h2, hq, hp]
  simp

theorem key_stop_hs (ws r : CStr) (hws : ∀ c ∈ ws, is_hspace c = true) :
    key_stop (ws ++ 61 :: r) := by
  cases ws with
  | nil => exact Or.inr ⟨61, r, rfl, Or.inl rfl⟩
  | cons c ws =>
    exact Or.inr ⟨c, ws ++ 61 :: r, rfl,
      Or.inr (is_hspace_spec (hws c (List.mem_cons_self _ _))).2.1⟩

/-- The function `read_key` on a word of key bytes, possibly empty, followed by
a key stop. -/
theorem read_key_word {s : CStr} {n : Nat} (e : String) {w r : CStr}
    (h : s.drop n = w ++ r) (hw : ∀ c ∈ w, is_key_char c = true) (hr : key_stop r)
    (hsk : skip_whitespace_n (w ++ r) = 0) :
    read_key (pst s n e) = (some w, pst s (n + w.length) e) := by
  have hs : skip_whitespace (pst s n e) = pst s n e :=
    skip_whitespace_pst_zero e (by rw [h]; exact hsk)
  rw [read_key]
  simp only [hs, rest_pst, h, read_key_scan_plain w r 0 hw, read_key_scan_stop 0 hr,
    List.append_nil, Nat.add_zero, advance_pst, Bool.false_eq_true, if_false,
    rtrim_self w (plain_key_no_trailing_space hw)]

/-- The function `parse_config_entry` up to the value, on a line that starts
with a byte `c0` of a key word or with `=`: a word of key bytes, whitespace and
`=`. -/
theorem parse_entry_key_hs {s : CStr} {n : Nat} (e : String) (config : Config)
    {w ws2 r t0 : CStr} {c0 : Int} (h : s.drop n = w ++ (ws2 ++ 61 :: r))
    (h0 : w ++ (ws2 ++ 61 :: r) = c0 :: t0) (hc0 : is_entry_start c0 = true)
    (hw : ∀ c ∈ w, is_key_char c = true) (hws2 : ∀ c ∈ ws2, is_hspace c = true) :
    parse_config_entry (pst s n e) config =
      match read_value (pst s (n + w.length + ws2.length + 1) e) with
      | (none, st6) => (false, st6, config)
      | (some value, st6) =>
        match config_add_entry config w value with
        | (false, config1) =>
          (false, cparse_set_error st6 "Failed to add configuration entry", config1)
        | (true, config1) =>
          let st7 := st6.advance (skip_to_eol_n st6.rest)
          let st8 := if cparse_peek st7 = 10 then (cparse_getc st7).2 else st7
          (true, st8, config1) := by
  obtain ⟨c1, c2, c3, c4, c5, c6⟩ := is_entry_start_spec hc0
  have hA : s.drop n = [] ++ c0 :: t0 := by rw [h, h0]; rfl
  have hB : s.drop n = c0 :: t0 := by rw [h, h0]
  have h2 : s.drop (n + w.length) = ws2 ++ 61 :: r := drop_add_of_eq h
  have h3 : s.drop (n + w.length + ws2.length) = 61 :: r := drop_add_of_eq h2
  have hsk : skip_whitespace_n (w ++ (ws2 ++ 61 :: r)) = 0 := by
    rw [h0]
    exact skip_whitespace_n_nospace _ c2
  have hs1 : skip_whitespace (pst s n e) = pst s n e :=
    skip_whitespace_pst_zero e (by rw [h]; exact hsk)
  have hs2 := skip_whitespace_hs e h2 hws2 (by simp [is_hspace, isspace])
  have hall := skip_all_comments_entry e hA (by simp) hc0
  simp only [List.length_nil, Nat.add_zero] at hall
  rw [parse_config_entry]
  simp only [hall, hs1, peek_cons hB, if_neg c1, if_neg c6,
    read_key_word e h hw (key_stop_hs ws2 r hws2) hsk, hs2, getc_cons h3,
    ne_eq, not_true_eq_false, if_false]

/-- One round of the main loop over a printed entry line that the parser
keeps, from the first byte of its key word or, without a key word, from the
`=`: the entry is appended under the key word and the line is consumed. -/
theorem step_kept_entry {s : CStr} {n : Nat} {config : Config} {i : Nat} (fuel : Nat)
    {w ws2 v junk t t0 : CStr} {c0 : Int}
    (h : s.drop n = w ++ (ws2 ++ 61 :: (32 :: 34 :: (v ++ 34 :: (junk ++ 10 :: t)))))
    (h0 : w ++ (ws2 ++ 61 :: (32 :: 34 :: (v ++ 34 :: (junk ++ 10 :: t)))) = c0 :: t0)
    (hc0 : is_entry_start c0 = true)
    (hw : ∀ c ∈ w, is_key_char c = true) (hws2 : ∀ c ∈ ws2, is_hspace c = true)
    (hv : ∀ c ∈ v, is_open_char c = true) (hj : ∀ c ∈ junk, is_line_char c = true)
    (hcur : config.current_section = some i) :
    load_loop (fuel + 1) (pst s n "") config =
      load_loop fuel
        (pst s (n + w.length + ws2.length + 1 + (v.length + 3) + junk.length + 1) "")
        (config_add_entry config w (join_lines false v)).2 := by
  have hA : s.drop n = [] ++ c0 :: t0 := by rw [h, h0]; rfl
  have h1 : s.drop (n + w.length + ws2.length + 1)
      = 32 :: 34 :: (v ++ 34 :: (junk ++ 10 :: t)) :=
    drop_succ_of_eq (drop_add_of_eq (drop_add_of_eq h))
  have h2 : s.drop (n + w.length + ws2.length + 1 + (v.length + 3)) = junk ++ 10 :: t := by
    have h1a : s.drop (n + w.length + ws2.length + 1)
        = (32 :: 34 :: (v ++ [34])) ++ (junk ++ 10 :: t) := by
      rw [h1]
      simp
    have := drop_add_of_eq h1a
    simpa [Nat.add_assoc] using this
  have hval := read_value_printed "" h1 hv
  have hadd : config_add_entry config w (join_lines false v)
      = (true, (config_add_entry config w (join_lines false v)).2) := by
    rw [config_add_entry, hcur]
  have hpe := parse_entry_key_hs "" config h h0 hc0 hw hws2
  rw [load_loop_entry "" config fuel hA (by simp) hc0]
  simp only [List.length_nil, Nat.add_zero, hpe, hval]
  rw [hadd]
  simp only []
  rw [entry_eol "" h2 hj (Or.inr ⟨t, rfl⟩)]
  simp

/-- One round of the main loop over a printed entry line that the parser
rejects: a key word, whitespace, and a byte other than `=`. The entry parser
records an error; the loop clears it and skips the rest of the line. -/
theorem step_bad_line_hs {s : CStr} {n : Nat} (e : String) (config : Config) (fuel : Nat)
    {k ws2 junk t : CStr} {c : Int}
    (h : s.drop n = k ++ (ws2 ++ c :: (junk ++ 10 :: t)))
    (hk : plain_key k) (hws2 : ∀ x ∈ ws2, is_hspace x = true) (hws2n : ws2 ≠ [])
    (hcs : isspace c = false) (hceq : c ≠ 61)
    (hj : ∀ x ∈ junk, is_line_char x = true) :
    load_loop (fuel + 1) (pst s n e) config =
      load_loop fuel (pst s (n + k.length + ws2.length + 1 + (junk.length + 1)) "")
        config := by
  obtain ⟨d, l, rfl⟩ : ∃ d l, k = d :: l := by
    obtain ⟨_, d, l, h2, _⟩ := hk
    exact ⟨d, l, h2⟩
  have hd := plain_key_start hk
  obtain ⟨d1, d2, d3, d4, d5, d6⟩ := is_entry_start_spec hd
  have hA : s.drop n = [] ++ d :: (l ++ (ws2 ++ c :: (junk ++ 10 :: t))) := by
    rw [h]
    rfl
  have h2 : s.drop (n + (d :: l).length) = ws2 ++ c :: (junk ++ 10 :: t) := drop_add_of_eq h
  have h3 : s.drop (n + (d :: l).length + ws2.length) = c :: (junk ++ 10 :: t) :=
    drop_add_of_eq h2
  have h4 : s.drop (n + (d :: l).length + ws2.length + 1) = junk ++ 10 :: t :=
    drop_succ_of_eq h3
  have hstop : key_stop (ws2 ++ c :: (junk ++ 10 :: t)) := by
    cases ws2 with
    | nil => exact absurd rfl hws2n
    | cons x ws2 =>
      exact Or.inr ⟨x, _, rfl, Or.inr (is_hspace_spec (hws2 x (List.mem_cons_self _ _))).2.1⟩
  have hsk : skip_whitespace_n ((d :: l) ++ (ws2 ++ c :: (junk ++ 10 :: t))) = 0 :=
    skip_whitespace_n_nospace _ d2
  have hs1 : skip_whitespace (pst s n e) = pst s n e :=
    skip_whitespace_pst_zero e (by rw [h]; exact hsk)
  have hs2 := skip_whitespace_hs e h2 hws2 (by
    intro x hx
    simp only [List.head?_cons, Option.mem_def, Option.some.injEq] at hx
    subst hx
    exact is_hspace_false_of hcs)
  have hall := skip_all_comments_entry e hA (by simp) hd
  simp only [List.length_nil, Nat.add_zero] at hall
  have hpe : parse_config_entry (pst s n e) config
      = (false, pst s (n + (d :: l).length + ws2.length + 1)
          "Expected \x27=\x27 after key", config) := by
    rw [parse_config_entry]
    simp only [hall, hs1, peek_cons (show s.drop n = d :: _ from h), if_neg d1, if_neg d6,
      read_key_word e h hk.1 hstop hsk, hs2, getc_cons h3, ne_eq, hceq,
      not_false_eq_true, if_true, set_error_pst]
  have hpk : cparse_peek (pst s (n + (d :: l).length + ws2.length + 1)
      "Expected \x27=\x27 after key") ≠ EOF := by
    cases junk with
    | nil => rw [peek_cons h4]; decide
    | cons x junk =>
      rw [peek_cons h4]
      exact (is_line_char_spec (hj x (List.mem_cons_self _ _))).1
  rw [load_loop_entry e config fuel hA (by simp) hd]
  simp only [List.length_nil, Nat.add_zero, hpe, if_neg hpk, err_pst]
  rw [if_pos (by decide)]
  have hst : ({ pst s (n + (d :: l).length + ws2.length + 1)
      "Expected \x27=\x27 after key" with glb_err_buf := "" } : CPState)
      = pst s (n + (d :: l).length + ws2.length + 1) "" := rfl
  rw [hst, rest_pst, h4, skip_line_n_append junk (10 :: t) hj (Or.inr ⟨t, rfl⟩), advance_pst]
  simp

theorem reaches_refl (s : CStr) (n : Nat) (c : Config) (r : Nat) : reaches s n c n c r :=
  ⟨0, Nat.zero_le _, fun _ => rfl⟩

theorem reaches_trans {s : CStr} {n1 n2 n3 : Nat} {c1 c2 c3 : Config} {r1 r2 : Nat}
    (h1 : reaches s n1 c1 n2 c2 r1) (h2 : reaches s n2 c2 n3 c3 r2) :
    reaches s n1 c1 n3 c3 (r1 + r2) := by
  obtain ⟨k1, hk1, e1⟩ := h1
  obtain ⟨k2, hk2, e2⟩ := h2
  refine ⟨k1 + k2, by omega, fun fuel => ?_⟩
  have := e1 (fuel + k2)
  rw [show fuel + (k1 + k2) + 1 = fuel + k2 + k1 + 1 by omega, this, e2 fuel]

theorem reaches_mono {s : CStr} {n1 n2 : Nat} {c1 c2 : Config} {r1 r2 : Nat}
    (h : reaches s n1 c1 n2 c2 r1) (hr : r1 ≤ r2) : reaches s n1 c1 n2 c2 r2 := by
  obtain ⟨k, hk, e⟩ := h
  exact ⟨k, by omega, e⟩

/-- Leading whitespace takes no round. -/
theorem reaches_ws {s : CStr} {n : Nat} (c : Config) {ws tail : CStr}
    (h : s.drop n = ws ++ tail) (hws : ∀ x ∈ ws, is_hspace x = true)
    (ht : ∀ x ∈ tail.head?, is_hspace x = false) :
    reaches s n c (n + ws.length) c 0 := by
  refine ⟨0, Nat.le_refl _, fun fuel => ?_⟩
  rw [← skip_whitespace_hs "" h hws ht]
  exact (load_loop_ws _ _ _).symm

/-- A comment line takes no round. -/
theorem reaches_comment {s : CStr} {n : Nat} (c : Config) {d : Int} {junk t : CStr}
    (h : s.drop n = d :: (junk ++ 10 :: t)) (hd : d = 35 ∨ d = 59)
    (hj : ∀ x ∈ junk, is_line_char x = true) :
    reaches s n c (n + (junk.length + 2)) c 0 :=
  ⟨0, Nat.le_refl _, fun _ =>
    load_loop_skip (skip_comments_comment_line "" h hd hj) _ _⟩

/-- A blank line takes no round. -/
theorem reaches_blank {s : CStr} {n : Nat} (c : Config) {t : CStr}
    (h : s.drop n = 10 :: t) : reaches s n c (n + 1) c 0 :=
  ⟨0, Nat.le_refl _, fun _ => load_loop_skip (skip_comments_blank_line "" h) _ _⟩

theorem is_key_char_not_hspace {c : Int} (h : is_key_char c = true) : is_hspace c = false :=
  is_hspace_false_of (is_key_char_spec h).2.1

theorem is_rekey_line_char {c : Int} (h : is_rekey_char c = true) : is_line_char c = true := by
  have h2 := is_rekey_char_spec h
  simp [is_line_char, h2.1, h2.2.1]

/-- The main loop over a printed entry line: the entry that `reparse_entry`
gives, if any, is appended to the current section, in at most one round. -/
theorem reaches_entry {s : CStr} {n : Nat} {config : Config} {i : Nat} (en : ConfigEntry)
    (t : CStr) (hen : reprintable_entry en) (hcur : config.current_section = some i)
    (h : s.drop n = entry_text en ++ t) :
    reaches s n config (n + (entry_text en).length) (add_reparsed config en) 1 := by
  obtain ⟨hk, h91, hv, hcoup⟩ := hen
  obtain ⟨ws1, ws2, hkey, hws1, hws2, hw, hw0, hk3h, hk3n, hk3l⟩ := key_parts en.key hk
  obtain ⟨junk, hval, hjm, hj0⟩ := split_first 34 en.value
  have hv0 : ∀ x ∈ en.value.takeWhile (fun c => c != 34), is_open_char x = true := by
    intro x hx
    have h1 : (x != 34) = true := List.mem_takeWhile_imp (p := fun c => c != 34) hx
    have h2 := hv x ((List.takeWhile_prefix _).subset hx)
    simp only [bne_iff_ne, ne_eq] at h1
    simp [is_open_char, h2.1, h2.2, h1]
  have hjl : ∀ x ∈ junk, is_line_char x = true := by
    intro x hx
    have hq : 34 ∈ en.value := by
      by_contra hn
      rw [hj0 hn] at hx
      simp at hx
    have h10 : (10 : Int) ∉ en.value := fun h10 => (hcoup h10).1 hq
    rcases hjm x hx with hm | hm
    · have h2 := hv x hm
      have hx10 : x ≠ 10 := by
        rintro rfl
        exact h10 hm
      simp [is_line_char, h2.1, hx10]
    · subst hm
      decide
  have htext : entry_text en ++ t
      = en.key ++ (32 :: 61 :: 32 :: 34 :: ((en.value ++ [34]) ++ 10 :: t)) := by
    simp [entry_text]
  have hlen0 : (entry_text en).length = en.key.length + 4 + (en.value ++ [34]).length + 1 := by
    simp only [entry_text, List.length_append, List.length_cons, List.length_nil]
    omega
  have hklen := congrArg List.length hkey
  have hvlen := congrArg List.length hval
  simp only [List.length_append, List.length_cons, List.length_nil] at hklen hvlen hlen0
  rw [htext, hval] at h
  cases hwc : key_word en.key with
  | nil =>
    obtain ⟨hz1, hz2⟩ := hw0 hwc
    rw [hwc, hz1, hz2] at hkey hklen
    simp only [List.nil_append, List.append_nil, List.length_nil] at hkey hklen
    have h1 : s.drop n = (ws1 ++ [32]) ++ (([] : CStr) ++ (([] : CStr) ++ 61 :: (32 :: 34 ::
        (en.value.takeWhile (fun c => c != 34) ++ 34 :: (junk ++ 10 :: t))))) := by
      rw [h, hkey]
      simp
    have hb : ∀ x ∈ ws1 ++ [32], is_hspace x = true := by
      intro x hx
      rcases List.mem_append.1 hx with hx | hx
      · exact hws1 x hx
      · simp only [List.mem_singleton] at hx
        subst hx
        decide
    have r1 := reaches_ws config h1 hb (by simp [is_hspace, isspace])
    have h2 := drop_add_of_eq h1
    have r2 : reaches s (n + (ws1 ++ [32]).length) config
        (n + (entry_text en).length) (add_reparsed config en) 1 := by
      refine ⟨1, Nat.le_refl _, fun fuel => ?_⟩
      rw [step_kept_entry (fuel + 1) h2 rfl (by decide) (by simp) (by simp) hv0 hjl hcur]
      have ha : add_reparsed config en
          = (config_add_entry config []
              (join_lines false (en.value.takeWhile (fun c => c != 34)))).2 := by
        simp [add_reparsed, reparse_entry, reparse_key, hwc, reparse_value]
      rw [ha]
      congr 2
      simp only [List.length_append, List.length_cons, List.length_nil]
      omega
    exact reaches_mono (reaches_trans r1 r2) (by omega)
  | cons c w1 =>
    rw [hwc] at hkey hklen hw h91
    have hckey := hw c (List.mem_cons_self _ _)
    have hc91 : c ≠ 91 := h91 c rfl
    have h1 : s.drop n = ws1 ++ (c :: (w1 ++ (ws2 ++ key_rest en.key ++
        (32 :: 61 :: 32 :: 34 :: (en.value.takeWhile (fun c => c != 34)
          ++ 34 :: junk))) ++ 10 :: t)) := by
      rw [h]
      conv_lhs => rw [hkey]
      simp
    have r1 := reaches_ws config h1 hws1 (by
      intro x hx
      simp only [List.head?_cons, Option.mem_def, Option.some.injEq] at hx
      subst hx
      exact is_key_char_not_hspace hckey)
    have h2 := drop_add_of_eq h1
    by_cases hcm : c = 35 ∨ c = 59
    · have hnone : reparse_key en.key = none := by
        simp [reparse_key, hwc, hcm]
      have h10 : (10 : Int) ∉ en.value := by
        intro h10
        have := (hcoup h10).2
        rw [hnone] at this
        simp at this
      have hjunk : ∀ x ∈ w1 ++ (ws2 ++ key_rest en.key ++
          (32 :: 61 :: 32 :: 34 :: (en.value.takeWhile (fun c => c != 34) ++ 34 :: junk))),
          is_line_char x = true := by
        intro x hx
        have hinkey : ∀ y, y ∈ w1 ∨ y ∈ ws2 ∨ y ∈ key_rest en.key → is_line_char y = true := by
          intro y hy
          apply is_rekey_line_char
          apply hk
          rw [hkey]
          rcases hy with hy | hy | hy
          · simp [hy]
          · simp [hy]
          · simp [hy]
        have hinval : ∀ y ∈ en.value, is_line_char y = true := by
          intro y hy
          have hy10 : y ≠ 10 := by
            rintro rfl
            exact h10 hy
          simp [is_line_char, (hv y hy).1, hy10]
        simp only [List.mem_append, List.mem_cons] at hx
        rcases hx with hx | ⟨hx | hx⟩ | hx | hx | hx | hx | hx | hx | hx
        · exact hinkey x (Or.inl hx)
        · exact hinkey x (Or.inr (Or.inl hx))
        · exact hinkey x (Or.inr (Or.inr hx))
        · subst hx; decide
        · subst hx; decide
        · subst hx; decide
        · subst hx; decide
        · exact hinval x ((List.takeWhile_prefix _).subset hx)
        · subst hx; decide
        · exact hjl x hx
      have r2 := reaches_comment config h2 hcm hjunk
      have ha : add_reparsed config en = config := by
        simp [add_reparsed, reparse_entry, hnone]
      rw [ha]
      have hpos : n + ws1.length + ((w1 ++ (ws2 ++ key_rest en.key ++
          (32 :: 61 :: 32 :: 34 :: (en.value.takeWhile (fun c => c != 34)
            ++ 34 :: junk)))).length + 2) = n + (entry_text en).length := by
        simp only [List.length_append, List.length_cons, List.length_nil] at hklen ⊢
        omega
      rw [hpos] at r2
      exact reaches_mono (reaches_trans r1 r2) (by omega)
    · have hcs : is_entry_start c = true := by
        obtain ⟨k1, k2, k3, k4, k5, k6⟩ := is_key_char_spec hckey
        have hasc : is_ascii c = true := by
          simp only [is_key_char, Bool.and_eq_true] at hckey
          exact hckey.1.1.1.1
        simp only [not_or] at hcm
        simp [is_entry_start, hasc, k2, hcm.1, hcm.2, hc91]
      by_cases hk3 : key_rest en.key = []
      · rw [hk3] at h1 h2 hklen
        have h3 : s.drop (n + ws1.length) = (c :: w1) ++ ((ws2 ++ [32]) ++ 61 :: (32 :: 34 ::
            (en.value.takeWhile (fun c => c != 34) ++ 34 :: (junk ++ 10 :: t)))) := by
          rw [h2]
          simp
        have hb : ∀ x ∈ ws2 ++ [32], is_hspace x = true := by
          intro x hx
          rcases List.mem_append.1 hx with hx | hx
          · exact hws2 x hx
          · simp only [List.mem_singleton] at hx
            subst hx
            decide
        have r2 : reaches s (n + ws1.length) config
            (n + (entry_text en).length) (add_reparsed config en) 1 := by
          refine ⟨1, Nat.le_refl _, fun fuel => ?_⟩
          rw [step_kept_entry (fuel + 1) h3 rfl hcs hw hb hv0 hjl hcur]
          have ha : add_reparsed config en
              = (config_add_entry config (c :: w1)
                  (join_lines false (en.value.takeWhile (fun c => c != 34)))).2 := by
            simp only [not_or] at hcm
            simp [add_reparsed, reparse_entry, reparse_key, hwc, reparse_value, hk3, hcm.1,
              hcm.2]
          rw [ha]
          congr 2
          simp only [List.length_append, List.length_cons, List.length_nil] at hklen ⊢
          omega
        exact reaches_mono (reaches_trans r1 r2) (by omega)
      · obtain ⟨c2, more, hk3e⟩ : ∃ c2 more, key_rest en.key = c2 :: more := by
          cases hkr : key_rest en.key with
          | nil => exact absurd hkr hk3
          | cons c2 more => exact ⟨c2, more, rfl⟩
        have hnone : reparse_key en.key = none := by
          simp only [not_or] at hcm
          simp [reparse_key, hwc, hk3, hcm.1, hcm.2]
        have h10 : (10 : Int) ∉ en.value := by
          intro h10
          have := (hcoup h10).2
          rw [hnone] at this
          simp at this
        have hc2 := hk3h c2 (by rw [hk3e]; rfl)
        rw [hk3e] at h1 h2 hklen hk3l
        have h3 : s.drop (n + ws1.length) = (c :: w1) ++ (ws2 ++ c2 :: ((more ++
            (32 :: 61 :: 32 :: 34 :: (en.value.takeWhile (fun c => c != 34)
              ++ 34 :: junk))) ++ 10 :: t)) := by
          rw [h2]
          simp
        have hjunk : ∀ x ∈ more ++ (32 :: 61 :: 32 :: 34 ::
            (en.value.takeWhile (fun c => c != 34) ++ 34 :: junk)),
            is_line_char x = true := by
          intro x hx
          have hinval : ∀ y ∈ en.value, is_line_char y = true := by
            intro y hy
            have hy10 : y ≠ 10 := by
              rintro rfl
              exact h10 hy
            simp [is_line_char, (hv y hy).1, hy10]
          simp only [List.mem_append, List.mem_cons] at hx
          rcases hx with hx | hx | hx | hx | hx | hx | hx | hx
          · exact hk3l x (List.mem_cons_of_mem _ hx)
          · subst hx; decide
          · subst hx; decide
          · subst hx; decide
          · subst hx; decide
          · exact hinval x ((List.takeWhile_prefix _).subset hx)
          · subst hx; decide
          · exact hjl x hx
        have hpk : plain_key (c :: w1) := by
          simp only [not_or] at hcm
          exact ⟨hw, c, w1, rfl, hc91, hcm.1, hcm.2⟩
        have hws2n : ws2 ≠ [] := hk3n hk3
        have r2 : reaches s (n + ws1.length) config
            (n + (entry_text en).length) (add_reparsed config en) 1 := by
          refine ⟨1, Nat.le_refl _, fun fuel => ?_⟩
          rw [step_bad_line_hs "" config (fuel + 1) h3 hpk hws2 hws2n hc2.1 hc2.2 hjunk]
          have ha : add_reparsed config en = config := by
            simp [add_reparsed, reparse_entry, hnone]
          rw [ha]
          congr 2
          simp only [List.length_append, List.length_cons, List.length_nil] at hklen ⊢
          omega
        exact reaches_mono (reaches_trans r1 r2) (by omega)

theorem add_reparsed_current (c : Config) (e : ConfigEntry) :
    (add_reparsed c e).current_section = c.current_section := by
  unfold add_reparsed
  cases reparse_entry e with
  | none => rfl
  | some e1 => exact config_add_entry_current c e1.key e1.value

theorem add_entries_reparsed (es : List ConfigEntry) :
    ∀ (c : Config), es.foldl add_reparsed c = add_entries c (es.filterMap reparse_entry) := by
  induction es with
  | nil =>
    intro c
    rfl
  | cons e es ih =>
    intro c
    rw [List.foldl_cons, ih]
    unfold add_reparsed
    cases h : reparse_entry e with
    | none => simp [List.filterMap_cons, h]
    | some e1 => simp [List.filterMap_cons, h, add_entries]

/-- The main loop over the entry lines of a printed section. -/
theorem reaches_entries {s : CStr} (t : CStr) :
    ∀ (es : List ConfigEntry), (∀ en ∈ es, reprintable_entry en) →
      ∀ (n : Nat) (config : Config) (i : Nat), config.current_section = some i →
        s.drop n = (es.map entry_text).flatten ++ t →
        reaches s n config (n + ((es.map entry_text).flatten).length)
          (add_entries config (es.filterMap reparse_entry)) es.length := by
  intro es
  induction es with
  | nil =>
    intro _ n config i _ _
    exact reaches_refl _ _ _ _
  | cons en es ih =>
    intro hes n config i hcur h
    have h1 : s.drop n = entry_text en ++ ((es.map entry_text).flatten ++ t) := by
      rw [h]
      simp
    have h2 := drop_add_of_eq h1
    have r1 := reaches_entry en _ (hes en (List.mem_cons_self _ _)) hcur h1
    have r2 := ih (fun x hx => hes x (List.mem_cons_of_mem _ hx)) _ (add_reparsed config en) i
      (by rw [add_reparsed_current]; exact hcur) h2
    have r3 := reaches_trans r1 r2
    have e1 : n + (entry_text en).length + ((es.map entry_text).flatten).length
        = n + (((en :: es).map entry_text).flatten).length := by
      simp only [List.map_cons, List.flatten_cons, List.length_append]
      omega
    have e2 : add_entries (add_reparsed config en) (es.filterMap reparse_entry)
        = add_entries config ((en :: es).filterMap reparse_entry) := by
      rw [← add_entries_reparsed, ← add_entries_reparsed]
      rfl
    rw [e1, e2] at r3
    exact reaches_mono r3 (by simp only [List.length_cons]; omega)

/-- The main loop over the header of a printed section: the section is added
under the name that `reparse_name` gives. -/
theorem reaches_header {s : CStr} {n : Nat} (config : Config) {name t : CStr}
    (h : s.drop n = 91 :: (name ++ 93 :: 10 :: t))
    (hn : ∀ c ∈ name, is_line_char c = true) :
    reaches s n config (n + (name.length + 3)) (config_add_section config (reparse_name name))
      1 := by
  obtain ⟨junk, hsp, hjm, _⟩ := split_first 93 name
  have hnm : ∀ c ∈ name.takeWhile (fun c => c != 93), is_name_char c = true := by
    intro x hx
    have h1 : (x != 93) = true := List.mem_takeWhile_imp (p := fun c => c != 93) hx
    have h2 := hn x ((List.takeWhile_prefix _).subset hx)
    simp only [bne_iff_ne, ne_eq] at h1
    simp only [is_line_char, Bool.and_eq_true, bne_iff_ne, ne_eq] at h2
    simp [is_name_char, h2.1, h2.2, h1]
  have hjl : ∀ c ∈ junk, is_line_char c = true := by
    intro x hx
    rcases hjm x hx with hm | hm
    · exact hn x hm
    · subst hm
      decide
  have h1 : s.drop n
      = header_line [] (name.takeWhile (fun c => c != 93)) junk ++ 10 :: t := by
    have : name ++ 93 :: 10 :: t = (name ++ [93]) ++ 10 :: t := by simp
    rw [h, this, hsp]
    simp [header_line]
  have hlen := congrArg List.length hsp
  simp only [List.length_append, List.length_cons, List.length_nil] at hlen
  refine ⟨1, Nat.le_refl _, fun fuel => ?_⟩
  rw [step_header_nl "" config (fuel + 1) h1 (by simp) hnm hjl]
  have e1 : n + (header_line [] (name.takeWhile (fun c => c != 93)) junk).length + 1
      = n + (name.length + 3) := by
    simp only [header_line, List.length_append, List.length_cons, List.length_nil]
    omega
  rw [e1]
  rfl

/-- The main loop over a printed section: its header and its entry lines. -/
theorem reaches_block {s : CStr} {n : Nat} (config : Config) {g : ConfigSection} {t : CStr}
    (hg : reprintable_section g) (h : s.drop n = block_text g ++ t) :
    reaches s n config (n + (block_text g).length)
      (add_entries (config_add_section config (reparse_name g.name))
        (g.entries.filterMap reparse_entry)) (g.entries.length + 1) := by
  have h1 : s.drop n = 91 :: (g.name ++ 93 :: 10 :: ((g.entries.map entry_text).flatten ++ t)) := by
    rw [h]
    simp [block_text]
  have h2 : s.drop n = (91 :: (g.name ++ [93, 10])) ++ ((g.entries.map entry_text).flatten ++ t) := by
    rw [h]
    simp [block_text]
  have h3 := drop_add_of_eq h2
  have e0 : n + (91 :: (g.name ++ [93, 10])).length = n + (g.name.length + 3) := by
    simp only [List.length_append, List.length_cons, List.length_nil]
  rw [e0] at h3
  have r1 := reaches_header config h1 hg.1
  have r2 := reaches_entries t g.entries hg.2.2 _ _ _
    (config_add_section_current config (reparse_name g.name)) h3
  have r3 := reaches_trans r1 r2
  have e1 : n + (g.name.length + 3) + ((g.entries.map entry_text).flatten).length
      = n + (block_text g).length := by
    simp only [block_text, List.length_append, List.length_cons, List.length_nil]
    omega
  rw [e1] at r3
  exact reaches_mono r3 (by omega)

theorem build_config_cons (c : Config) (g : ConfigSection) (gs : List ConfigSection) :
    build_config c (g :: gs) = build_config (add_entries (config_add_section c g.name) g.entries) gs :=
  rfl

/-- The main loop over the further printed sections, each after the blank
line that ends the section before it. -/
theorem reaches_joined {s : CStr} (t : CStr) :
    ∀ (gs : List ConfigSection), (∀ g ∈ gs, reprintable_section g) →
      ∀ (n : Nat) (config : Config), s.drop n = joined_text gs ++ t →
        reaches s n config (n + (joined_text gs).length)
          (build_config config (gs.map reparse_section))
          ((gs.map (fun sec => sec.entries.length + 1)).sum) := by
  intro gs
  induction gs with
  | nil =>
    intro _ n config _
    exact reaches_refl _ _ _ _
  | cons g gs ih =>
    intro hgs n config h
    have hg := hgs g (List.mem_cons_self _ _)
    have h1 : s.drop n = 10 :: (block_text g ++ (joined_text gs ++ t)) := by
      rw [h]
      simp [joined_text]
    have h2 : s.drop (n + 1) = block_text g ++ (joined_text gs ++ t) := drop_succ_of_eq h1
    have h3 := drop_add_of_eq h2
    have r0 := reaches_blank config h1
    have r1 := reaches_block config hg h2
    have r2 := ih (fun x hx => hgs x (List.mem_cons_of_mem _ hx)) _
      (add_entries (config_add_section config (reparse_name g.name))
        (g.entries.filterMap reparse_entry)) h3
    have r3 := reaches_trans (reaches_trans r0 r1) r2
    have e1 : n + 1 + (block_text g).length + (joined_text gs).length
        = n + (joined_text (g :: gs)).length := by
      simp only [joined_text, List.length_append, List.length_cons]
      omega
    rw [e1] at r3
    have e2 : build_config (add_entries (config_add_section config (reparse_name g.name))
        (g.entries.filterMap reparse_entry)) (gs.map reparse_section)
        = build_config config ((g :: gs).map reparse_section) := rfl
    rw [e2] at r3
    exact reaches_mono r3 (by simp only [List.map_cons, List.sum_cons]; omega)

theorem named_sections_reprintable {ss : List ConfigSection}
    (h : ∀ sec ∈ ss, sec.name ≠ [] → reprintable_section sec) :
    ∀ g ∈ named_sections ss, reprintable_section g := by
  intro g hg
  simp only [named_sections, List.mem_filter, decide_eq_true_eq] at hg
  exact h g hg.1 hg.2

/-- Printing a `reprintable` configuration whose text fits in the buffer and
parsing the text: the parse returns after at most `load_rounds` rounds, at the
end of the text, with an empty error buffer, and the configuration is the one
built from the default section by adding the sections that `reparse` gives. -/
theorem print_then_reparse (xc : XConfig) (fuel : Nat) (hp : reprintable xc.config.sections)
    (hfit : (print_spec xc.config.sections).length < INITIAL_BUF) :
    (XConfig_Print xc).bind (parse (fuel + load_rounds xc.config.sections))
      = some (build_config config_start (reparse xc.config.sections),
          pst (print_spec xc.config.sections).dropLast
            (print_spec xc.config.sections).dropLast.length "") := by
  obtain ⟨hall, hex⟩ := hp
  obtain ⟨body, c, hb, _⟩ := print_spec_end _ hex
  have hgood := named_sections_reprintable hall
  cases hns : named_sections xc.config.sections with
  | nil =>
    obtain ⟨sec, hs, hn⟩ := hex
    have : sec ∈ named_sections xc.config.sections := by
      simp [named_sections, hs, hn]
    rw [hns] at this
    simp at this
  | cons g gs =>
    rw [hns] at hgood
    have hT := print_spec_dropLast hns
    have hT2 : (print_spec xc.config.sections).dropLast = (body ++ [c]) ++ [10] := by
      rw [hb]
      have : body ++ [c, 10, 10] = ((body ++ [c]) ++ [10]) ++ [10] := by simp
      rw [this, List.dropLast_concat]
    rw [XConfig_Print_eq xc hex hfit, Option.some_bind]
    have hre : reparse xc.config.sections = (g :: gs).map reparse_section := by
      rw [reparse, hns]
    rw [hre]
    generalize (print_spec xc.config.sections).dropLast = T at hT hT2
    have h0 : T.drop 0 = block_text g ++ joined_text gs := by
      rw [List.drop_zero, hT]
    have h1 : T.drop (0 + (block_text g).length) = joined_text gs ++ [] := by
      simpa using drop_add_of_eq h0
    have hlen : 0 + (block_text g).length + (joined_text gs).length = (body ++ [c]).length + 1 := by
      have := congrArg List.length hT
      rw [hT2] at this
      simp only [List.length_append, List.length_singleton] at this ⊢
      omega
    have hlast : T.drop (body ++ [c]).length = [10] := by
      rw [hT2]
      exact List.drop_left _ _
    have hTlen : T.length = (body ++ [c]).length + 1 := by
      rw [hT2]
      simp
    have r1 := reaches_block config_start (hgood g (List.mem_cons_self _ _)) h0
    have r2 := reaches_joined [] gs (fun x hx => hgood x (List.mem_cons_of_mem _ hx)) _
      (add_entries (config_add_section config_start (reparse_name g.name))
        (g.entries.filterMap reparse_entry)) h1
    obtain ⟨k, hk, hr⟩ := reaches_trans r1 r2
    rw [hlen] at hr
    have hR : load_rounds xc.config.sections
        = g.entries.length + 1 + (gs.map (fun sec => sec.entries.length + 1)).sum + 1 := by
      simp only [load_rounds, hns, List.map_cons, List.sum_cons]
    have hfuel : fuel + load_rounds xc.config.sections
        = (fuel + (g.entries.length + 1 + (gs.map (fun sec => sec.entries.length + 1)).sum - k))
          + k + 1 := by
      rw [hR]
      omega
    rw [parse_eq, hfuel, hr, load_loop_eof_newline "" _ _ hlast, hTlen]
    rfl

/-! ### The stored form is printed and read back unchanged -/

theorem rtrim_subset (x : CStr) : ∀ c ∈ rtrim x, c ∈ x := by
  intro c hc
  unfold rtrim at hc
  rw [List.mem_reverse] at hc
  exact List.mem_reverse.1 ((List.dropWhile_suffix _).subset hc)

theorem rtrim_no_trailing_space (x : CStr) : no_trailing_space (rtrim x) := by
  intro c hc
  unfold rtrim at hc
  rw [List.getLast?_reverse] at hc
  exact dropWhile_head_not isspace _ c hc

theorem takeWhile_ne_self (q : Int) (x : CStr) (h : ∀ c ∈ x, c ≠ q) :
    x.takeWhile (fun c => c != q) = x := by
  rw [List.takeWhile_eq_self_iff]
  intro c hc
  simpa using h c hc

theorem reparse_name_spec (name : CStr) (hn : ∀ c ∈ name, is_line_char c = true) :
    (∀ c ∈ reparse_name name, is_line_char c = true) ∧
      reparse_name (reparse_name name) = reparse_name name := by
  have hsub : ∀ c ∈ reparse_name name, c ∈ name.takeWhile (fun c => c != 93) :=
    rtrim_subset _
  refine ⟨fun c hc => hn c ((List.takeWhile_prefix _).subset (hsub c hc)), ?_⟩
  have h93 : ∀ c ∈ reparse_name name, c ≠ 93 := by
    intro c hc
    have := List.mem_takeWhile_imp (p := fun c => c != 93) (hsub c hc)
    simpa using this
  conv_lhs => rw [reparse_name, takeWhile_ne_self 93 _ h93]
  exact rtrim_self _ (rtrim_no_trailing_space _)

theorem join_lines_mem (b : Bool) (l : CStr) : ∀ c ∈ join_lines b l, c ∈ l ∨ c = 32 := by
  induction l generalizing b with
  | nil =>
    intro c hc
    cases b <;> simp [join_lines] at hc
  | cons a l ih =>
    intro c hc
    have step : ∀ b2, c ∈ join_lines b2 l → c ∈ a :: l ∨ c = 32 := by
      intro b2 h
      rcases ih b2 c h with h | h
      · exact Or.inl (List.mem_cons_of_mem _ h)
      · exact Or.inr h
    cases b with
    | false =>
      rw [join_lines] at hc
      split at hc
      · rcases List.mem_cons.1 hc with h | h
        · subst h
          exact Or.inl (by simp [*])
        · exact step _ h
      · rcases List.mem_cons.1 hc with h | h
        · exact Or.inl (by simp [h])
        · exact step _ h
    | true =>
      rw [join_lines] at hc
      split at hc
      · exact step _ hc
      · split at hc
        · rcases List.mem_cons.1 hc with h | h
          · subst h
            exact Or.inl (by simp [*])
          · exact step _ h
        · split at hc
          · rcases List.mem_cons.1 hc with h | h
            · exact Or.inl (by simp [h])
            · exact step _ h
          · rcases List.mem_cons.1 hc with h | h
            · exact Or.inr h
            · rcases List.mem_cons.1 h with h | h
              · exact Or.inl (by simp [h])
              · exact step _ h

/-- Joining the lines of a joined body changes nothing. -/
theorem join_lines_idem (l : CStr) : ∀ b, join_lines b (join_lines b l) = join_lines b l := by
  induction l with
  | nil =>
    intro b
    cases b <;> rfl
  | cons a l ih =>
    intro b
    cases b with
    | false =>
      by_cases h10 : a = 10
      · subst h10
        simp only [join_lines, if_true]
        rw [ih true]
      · rw [join_lines_false_cons l h10, join_lines_false_cons _ h10, ih false]
    | true =>
      by_cases hs : is_hspace a = true
      · have e1 : join_lines true (a :: l) = join_lines true l := by
          rw [join_lines, if_pos hs]
        rw [e1, ih true]
      · have hs2 : is_hspace a = false := by simpa using hs
        by_cases h10 : a = 10
        · subst h10
          have e1 : join_lines true (10 :: l) = 10 :: join_lines true l := by
            rw [join_lines, if_neg hs, if_pos rfl]
          rw [e1]
          have e2 : join_lines true (10 :: join_lines true l)
              = 10 :: join_lines true (join_lines true l) := by
            rw [join_lines, if_neg hs, if_pos rfl]
          rw [e2, ih true]
        · by_cases hsp : a = 35 ∨ a = 59 ∨ a = 91
          · have e1 : ∀ x, join_lines true (a :: x) = a :: join_lines false x := by
              intro x
              rw [join_lines, if_neg hs, if_neg h10, if_pos hsp]
            rw [e1, e1, ih false]
          · have e1 : ∀ x, join_lines true (a :: x) = 32 :: a :: join_lines false x := by
              intro x
              rw [join_lines, if_neg hs, if_neg h10, if_neg hsp]
            have e2 : ∀ x, join_lines true (32 :: x) = join_lines true x := by
              intro x
              rw [join_lines, if_pos (by decide)]
            rw [e1, e2, e1, ih false]

theorem reparse_value_spec (v : CStr) (hv : ∀ c ∈ v, is_ascii c = true ∧ c ≠ 92) :
    (∀ c ∈ reparse_value v, is_ascii c = true ∧ c ≠ 92) ∧ (34 : Int) ∉ reparse_value v ∧
      reparse_value (reparse_value v) = reparse_value v := by
  have hmem : ∀ c ∈ reparse_value v, (c ∈ v ∧ c ≠ 34) ∨ c = 32 := by
    intro c hc
    rcases join_lines_mem false _ c hc with h | h
    · have h2 := List.mem_takeWhile_imp (p := fun c => c != 34) h
      exact Or.inl ⟨(List.takeWhile_prefix _).subset h, by simpa using h2⟩
    · exact Or.inr h
  have h34 : ∀ c ∈ reparse_value v, c ≠ 34 := by
    intro c hc
    rcases hmem c hc with h | h
    · exact h.2
    · rw [h]
      decide
  refine ⟨?_, fun h => h34 34 h rfl, ?_⟩
  · intro c hc
    rcases hmem c hc with h | h
    · exact hv c h.1
    · rw [h]
      decide
  · conv_lhs => rw [reparse_value, takeWhile_ne_self 34 _ h34]
    exact join_lines_idem _ false

theorem is_key_char_rekey {c : Int} (h : is_key_char c = true) : is_rekey_char c = true := by
  obtain ⟨_, k2, k3, k4, k5, k6⟩ := is_key_char_spec h
  have hasc : is_ascii c = true := by
    simp only [is_key_char, Bool.and_eq_true] at h
    exact h.1.1.1.1
  simp [is_rekey_char, hasc, k3, k4, k5, k6]

/-- A word of key bytes is its own first word, and nothing follows it. -/
theorem key_word_self (w : CStr) (hw : ∀ c ∈ w, is_key_char c = true) :
    key_word w = w ∧ key_rest w = [] := by
  have h1 : w.dropWhile is_hspace = w := by
    cases w with
    | nil => rfl
    | cons c l =>
      exact List.dropWhile_cons_of_neg (by
        rw [is_key_char_not_hspace (hw c (List.mem_cons_self _ _))]
        decide)
  have h2 : ∀ c ∈ w, (fun c => !isspace c) c = true := by
    intro c hc
    simp [(is_key_char_spec (hw c hc)).2.1]
  have h3 : w.takeWhile (fun c => !isspace c) = w := List.takeWhile_eq_self_iff.2 h2
  have h4 : w.dropWhile (fun c => !isspace c) = [] := List.dropWhile_eq_nil_iff.2 h2
  exact ⟨by rw [key_word, h1, h3], by rw [key_rest, h1, h4]; rfl⟩

theorem reparse_key_spec (k w : CStr) (hk : ∀ c ∈ k, is_rekey_char c = true)
    (h91 : ∀ c ∈ (key_word k).head?, c ≠ 91) (h : reparse_key k = some w) :
    (∀ c ∈ w, is_rekey_char c = true) ∧ (∀ c ∈ (key_word w).head?, c ≠ 91) ∧
      reparse_key w = some w := by
  obtain ⟨_, _, _, _, _, hw, _, _, _, _⟩ := key_parts k hk
  have hkw : w = key_word k ∧ reparse_key (key_word k) = some (key_word k) := by
    unfold reparse_key at h
    cases hwc : key_word k with
    | nil =>
      rw [hwc] at h
      simp only [Option.some.injEq] at h
      exact ⟨h.symm, by simp [reparse_key, key_word]⟩
    | cons c w1 =>
      rw [hwc] at h hw
      by_cases hcm : c = 35 ∨ c = 59
      · simp [hcm] at h
      · by_cases hr : key_rest k = []
        · simp only [hcm, hr, if_false, if_true, Option.some.injEq] at h
          obtain ⟨e1, e2⟩ := key_word_self (c :: w1) hw
          refine ⟨h.symm, ?_⟩
          simp only [reparse_key, e1, e2, hcm, if_false, if_true]
        · simp [hcm, hr] at h
  obtain ⟨e0, e3⟩ := hkw
  subst e0
  obtain ⟨e1, _⟩ := key_word_self (key_word k) hw
  exact ⟨fun c hc => is_key_char_rekey (hw c hc), by rw [e1]; exact h91, e3⟩

theorem reparse_entry_spec (e e1 : ConfigEntry) (he : reprintable_entry e)
    (h : reparse_entry e = some e1) : reprintable_entry e1 ∧ reparse_entry e1 = some e1 := by
  obtain ⟨hk, h91, hv, _⟩ := he
  unfold reparse_entry at h
  cases hrk : reparse_key e.key with
  | none => simp [hrk] at h
  | some w =>
    simp only [hrk, Option.some.injEq] at h
    subst h
    obtain ⟨k1, k2, k3⟩ := reparse_key_spec e.key w hk h91 hrk
    obtain ⟨v1, v2, v3⟩ := reparse_value_spec e.value hv
    refine ⟨⟨k1, k2, v1, fun _ => ⟨v2, by simp [k3]⟩⟩, ?_⟩
    simp only [reparse_entry, k3, v3]

theorem filterMap_fixed (es : List ConfigEntry)
    (h : ∀ e ∈ es, reparse_entry e = some e) : es.filterMap reparse_entry = es := by
  induction es with
  | nil => rfl
  | cons e es ih =>
    rw [List.filterMap_cons, h e (List.mem_cons_self _ _)]
    simp only []
    rw [ih (fun x hx => h x (List.mem_cons_of_mem _ hx))]

theorem reparse_section_spec (g : ConfigSection) (hg : reprintable_section g) :
    reprintable_section (reparse_section g) ∧ (reparse_section g).name ≠ [] ∧
      reparse_section (reparse_section g) = reparse_section g := by
  obtain ⟨hn, hne, hes⟩ := hg
  obtain ⟨n1, n2⟩ := reparse_name_spec g.name hn
  have hent : ∀ e1 ∈ g.entries.filterMap reparse_entry,
      reprintable_entry e1 ∧ reparse_entry e1 = some e1 := by
    intro e1 he1
    obtain ⟨e, he, hre⟩ := List.mem_filterMap.1 he1
    exact reparse_entry_spec e e1 (hes e he) hre
  refine ⟨⟨n1, by rw [show (reparse_section g).name = reparse_name g.name from rfl, n2]; exact hne,
    fun e1 he1 => (hent e1 he1).1⟩, hne, ?_⟩
  simp only [reparse_section, n2, filterMap_fixed _ (fun e1 he1 => (hent e1 he1).2)]

theorem named_sections_all (l : List ConfigSection) (h : ∀ g ∈ l, g.name ≠ []) :
    named_sections l = l := by
  rw [named_sections, List.filter_eq_self]
  intro g hg
  exact decide_eq_true (h g hg)

/-- The sections read back from a printed `reprintable` section list, after the
default section, are `reprintable`, and printing and parsing them gives them
again. -/
theorem reparse_spec (ss : List ConfigSection) (hp : reprintable ss) :
    reprintable ({ name := [], entries := [] } :: reparse ss) ∧
      reparse ({ name := [], entries := [] } :: reparse ss) = reparse ss ∧
      print_spec ({ name := [], entries := [] } :: reparse ss) = print_spec (reparse ss) ∧
      load_rounds ({ name := [], entries := [] } :: reparse ss) ≤ load_rounds ss := by
  obtain ⟨hall, sec, hsec, hname⟩ := hp
  have hgood := named_sections_reprintable hall
  have hmem : ∀ g1 ∈ reparse ss, ∃ g ∈ named_sections ss, reparse_section g = g1 := by
    intro g1 hg1
    exact List.mem_map.1 hg1
  have hne : ∀ g1 ∈ reparse ss, g1.name ≠ [] := by
    intro g1 hg1
    obtain ⟨g, hg, rfl⟩ := hmem g1 hg1
    exact (reparse_section_spec g (hgood g hg)).2.1
  have hnamed : named_sections ({ name := [], entries := [] } :: reparse ss) = reparse ss := by
    have : named_sections ({ name := [], entries := [] } :: reparse ss)
        = named_sections (reparse ss) := by
      simp [named_sections]
    rw [this, named_sections_all _ hne]
  refine ⟨⟨?_, ?_⟩, ?_, print_spec_default _ _, ?_⟩
  · intro g1 hg1 hn1
    rcases List.mem_cons.1 hg1 with h | h
    · subst h
      exact absurd rfl hn1
    · obtain ⟨g, hg, rfl⟩ := hmem g1 h
      exact (reparse_section_spec g (hgood g hg)).1
  · have hs : sec ∈ named_sections ss := by
      simp [named_sections, hsec, hname]
    refine ⟨reparse_section sec, List.mem_cons_of_mem _ (List.mem_map_of_mem _ hs), ?_⟩
    exact (reparse_section_spec sec (hgood sec hs)).2.1
  · rw [reparse, hnamed]
    conv_lhs => rw [reparse]
    conv_rhs => rw [reparse]
    rw [List.map_map]
    apply List.map_congr_left
    intro g hg
    exact (reparse_section_spec g (hgood g hg)).2.2
  · rw [load_rounds, load_rounds, hnamed, reparse, List.map_map]
    apply Nat.add_le_add_right
    apply List.sum_le_sum
    intro g _
    simp only [Function.comp, reparse_section]
    exact Nat.add_le_add_right (List.length_filterMap_le _ _) 1

/-! ## Idempotence of print-then-parse -/

/-- C17 (amended): idempotence for configurations that print to readable lines.
Let `X` be a configuration of ASCII bytes with at least one section of
non-empty name, in which every section of non-empty name has a name without
newline and with a byte that is not whitespace before its first `]`, keys
without newline, `=`, `"` and apostrophe whose first word does not start with
`[`, and values without backslash; a value with a newline has no `"` and
belongs to a key that is blank or a single word not starting with `#` or `;`.
The sections of empty name are not restricted. Let the text specified for `X`
be shorter than `INITIAL_BUF` bytes. Then parsing the text returned by
`XConfig_Print` gives the configuration `Y` built from `reparse` of the
sections of `X`, which differs from `X` in general; and if the text specified
for `Y` is shorter than `INITIAL_BUF` bytes too, parsing the text returned by
`XConfig_Print` for `Y` gives a configuration identical to `Y`. -/
theorem print_parse_idempotent (xc : XConfig) (fuel : Nat)
    (hp : reprintable xc.config.sections)
    (hfit : (print_spec xc.config.sections).length < INITIAL_BUF)
    (hfit2 : (print_spec (reparse xc.config.sections)).length < INITIAL_BUF) :
    ((XConfig_Print xc).bind (parse (fuel + load_rounds xc.config.sections))).map
        (fun r => r.1)
      = some (build_config config_start (reparse xc.config.sections)) ∧
    (((XConfig_Print xc).bind (parse (fuel + load_rounds xc.config.sections))).bind
        (fun r => (XConfig_Print { parser := r.2, config := r.1 }).bind
          (parse (fuel + load_rounds xc.config.sections)))).map (fun r => r.1)
      = some (build_config config_start (reparse xc.config.sections)) := by
  rw [print_then_reparse xc fuel hp hfit]
  refine ⟨rfl, ?_⟩
  simp only [Option.some_bind]
  obtain ⟨h1, h2, h3, h4⟩ := reparse_spec _ hp
  have h := print_then_reparse
    { parser := pst (print_spec xc.config.sections).dropLast
        (print_spec xc.config.sections).dropLast.length "",
      config := build_config config_start (reparse xc.config.sections) }
    (fuel + (load_rounds xc.config.sections
      - load_rounds ({ name := [], entries := [] } :: reparse xc.config.sections)))
    (by rw [build_config_start_sections]; exact h1)
    (by rw [build_config_start_sections, h3]; exact hfit2)
  simp only [build_config_start_sections] at h
  have hf : fuel + (load_rounds xc.config.sections
        - load_rounds ({ name := [], entries := [] } :: reparse xc.config.sections))
        + load_rounds ({ name := [], entries := [] } :: reparse xc.config.sections)
      = fuel + load_rounds xc.config.sections := by
    omega
  rw [hf] at h
  rw [h, Option.map_some', h2]

/-- Instance of the amended C17 on the handle `reprint_handle`, whose sections
are not the ones read back from its text. -/
theorem print_parse_idempotent_witness :
    ((XConfig_Print reprint_handle).bind
        (parse (0 + load_rounds reprint_handle.config.sections))).map (fun r => r.1)
      = some (build_config config_start (reparse reprint_handle.config.sections)) ∧
    (((XConfig_Print reprint_handle).bind
        (parse (0 + load_rounds reprint_handle.config.sections))).bind
        (fun r => (XConfig_Print { parser := r.2, config := r.1 }).bind
          (parse (0 + load_rounds reprint_handle.config.sections)))).map (fun r => r.1)
      = some (build_config config_start (reparse reprint_handle.config.sections)) :=
  print_parse_idempotent reprint_handle 0 (by decide) (by decide) (by decide)

/-- The configuration read back from the text of `reprint_handle`: the default
section, the section `s` holding `(k, x)`, the empty key with `e` and
`(m, p LF space q)`, and the section `t` holding `(z, 1 2)`. -/
theorem reprint_handle_parsed :
    build_config config_start (reparse reprint_handle.config.sections)
      = { sections :=
            [{ name := [], entries := [] },
             { name := [115],
               entries := [{ key := [107], value := [120] },
                 { key := [], value := [101] },
                 { key := [109], value := ofString "p\n q" }] },
             { name := [116], entries := [{ key := [122], value := ofString "1 2" }] }],
          current_section := some 2, entry_count := 4, section_count := 3 } := by
  decide

/-! ### Configurations outside the class

Each of the following configurations breaks one condition of `reprintable`, or
the bound on the second text, and printing and parsing it twice does not give
the result of the first parse. -/

/-- A value with a newline and a `"`: the section `s` holds the key `k` with the
value `a"`, newline, `q = 'x"y'`. The first parse reads the entries `(k, a)` and
`(q, x"y)`; the second reads `(k, a)` and `(q, x)`. -/
theorem reprint_changes_multiline_value :
    ((XConfig_Print (entry_handle [115] [107] (ofString "a\"\nq = \x27x\"y\x27"))).bind
        (parse 4)).map (fun r => r.1)
      = some
          { sections :=
            [{ name := [], entries := [] },
             { name := [115],
               entries := [{ key := [107], value := [97] },
                 { key := [113], value := ofString "x\"y" }] }],
            current_section := some 1, entry_count := 2, section_count := 2 } ∧
    (((XConfig_Print (entry_handle [115] [107] (ofString "a\"\nq = \x27x\"y\x27"))).bind
        (parse 4)).bind
        (fun r => (XConfig_Print { parser := r.2, config := r.1 }).bind (parse 4))).map
        (fun r => r.1)
      = some
          { sections :=
            [{ name := [], entries := [] },
             { name := [115],
               entries := [{ key := [107], value := [97] },
                 { key := [113], value := [120] }] }],
            current_section := some 1, entry_count := 2, section_count := 2 } := by
  decide

/-- A value with a newline after a key that the parser drops: the section `s`
holds the key `#k` with the value `a`, newline, `q = 5`. The first parse reads
the entry `(q, 5")`; the second reads `(q, 5)`. -/
theorem reprint_changes_after_dropped_key :
    ((XConfig_Print (entry_handle [115] (ofString "#k") (ofString "a\nq = 5"))).bind
        (parse 4)).map (fun r => r.1)
      = some
          { sections :=
            [{ name := [], entries := [] },
             { name := [115], entries := [{ key := [113], value := ofString "5\"" }] }],
            current_section := some 1, entry_count := 1, section_count := 2 } ∧
    (((XConfig_Print (entry_handle [115] (ofString "#k") (ofString "a\nq = 5"))).bind
        (parse 4)).bind
        (fun r => (XConfig_Print { parser := r.2, config := r.1 }).bind (parse 4))).map
        (fun r => r.1)
      = some
          { sections :=
            [{ name := [], entries := [] },
             { name := [115], entries := [{ key := [113], value := [53] }] }],
            current_section := some 1, entry_count := 1, section_count := 2 } := by
  decide

/-- A key with `=`: the section `s` holds the key `a=b` with the value `1`. The
first parse reads the entry `(a, b = "1")`; the second reads `(a, b = )`. -/
theorem reprint_changes_key_with_equals :
    ((XConfig_Print (entry_handle [115] (ofString "a=b") [49])).bind
        (parse 4)).map (fun r => r.1)
      = some
          { sections :=
            [{ name := [], entries := [] },
             { name := [115],
               entries := [{ key := [97], value := ofString "b = \"1\"" }] }],
            current_section := some 1, entry_count := 1, section_count := 2 } ∧
    (((XConfig_Print (entry_handle [115] (ofString "a=b") [49])).bind
        (parse 4)).bind
        (fun r => (XConfig_Print { parser := r.2, config := r.1 }).bind (parse 4))).map
        (fun r => r.1)
      = some
          { sections :=
            [{ name := [], entries := [] },
             { name := [115], entries := [{ key := [97], value := ofString "b = " }] }],
            current_section := some 1, entry_count := 1, section_count := 2 } := by
  decide

/-- A key with `"`: the section `s` holds the key `"a b"`, quotes included, with
the value `1`. The first parse reads the entry `(a b, 1)`; the second reads no
entry. -/
theorem reprint_changes_quoted_key :
    ((XConfig_Print (entry_handle [115] (ofString "\"a b\"") [49])).bind
        (parse 4)).map (fun r => r.1)
      = some
          { sections :=
            [{ name := [], entries := [] },
             { name := [115], entries := [{ key := ofString "a b", value := [49] }] }],
            current_section := some 1, entry_count := 1, section_count := 2 } ∧
    (((XConfig_Print (entry_handle [115] (ofString "\"a b\"") [49])).bind
        (parse 4)).bind
        (fun r => (XConfig_Print { parser := r.2, config := r.1 }).bind (parse 4))).map
        (fun r => r.1)
      = some
          { sections :=
            [{ name := [], entries := [] }, { name := [115], entries := [] }],
            current_section := some 1, entry_count := 0, section_count := 2 } := by
  decide

/-- A key with apostrophes: the section `s` holds the key `a b` between
apostrophes, with the value `1`. The first parse reads the entry `(a b, 1)`; the
second reads no entry. -/
theorem reprint_changes_apostrophe_key :
    ((XConfig_Print (entry_handle [115] (ofString "\x27a b\x27") [49])).bind
        (parse 4)).map (fun r => r.1)
      = some
          { sections :=
            [{ name := [], entries := [] },
             { name := [115], entries := [{ key := ofString "a b", value := [49] }] }],
            current_section := some 1, entry_count := 1, section_count := 2 } ∧
    (((XConfig_Print (entry_handle [115] (ofString "\x27a b\x27") [49])).bind
        (parse 4)).bind
        (fun r => (XConfig_Print { parser := r.2, config := r.1 }).bind (parse 4))).map
        (fun r => r.1)
      = some
          { sections :=
            [{ name := [], entries := [] }, { name := [115], entries := [] }],
            current_section := some 1, entry_count := 0, section_count := 2 } := by
  decide

/-- A key with a newline: the section `s` holds the key `a b`, newline, `[]`
with the value `1`. The first parse reads a third section, of empty name; the
second reads two sections. -/
theorem reprint_changes_key_with_newline :
    ((XConfig_Print (entry_handle [115] (ofString "a b\n[]") [49])).bind
        (parse 4)).map (fun r => r.1)
      = some
          { sections :=
            [{ name := [], entries := [] }, { name := [115], entries := [] },
             { name := [], entries := [] }],
            current_section := some 2, entry_count := 0, section_count := 3 } ∧
    (((XConfig_Print (entry_handle [115] (ofString "a b\n[]") [49])).bind
        (parse 4)).bind
        (fun r => (XConfig_Print { parser := r.2, config := r.1 }).bind (parse 4))).map
        (fun r => r.1)
      = some
          { sections :=
            [{ name := [], entries := [] }, { name := [115], entries := [] }],
            current_section := some 1, entry_count := 0, section_count := 2 } := by
  decide

/-- A key whose first word starts with `[`: the section `s` holds the key `[]`
with the value `1`. The first parse reads a third section, of empty name; the
second reads two sections. -/
theorem reprint_changes_bracket_key :
    ((XConfig_Print (entry_handle [115] (ofString "[]") [49])).bind
        (parse 4)).map (fun r => r.1)
      = some
          { sections :=
            [{ name := [], entries := [] }, { name := [115], entries := [] },
             { name := [], entries := [] }],
            current_section := some 2, entry_count := 0, section_count := 3 } ∧
    (((XConfig_Print (entry_handle [115] (ofString "[]") [49])).bind
        (parse 4)).bind
        (fun r => (XConfig_Print { parser := r.2, config := r.1 }).bind (parse 4))).map
        (fun r => r.1)
      = some
          { sections :=
            [{ name := [], entries := [] }, { name := [115], entries := [] }],
            current_section := some 1, entry_count := 0, section_count := 2 } := by
  decide

/-- A name with a newline: the section named `s]`, newline, `k = 'a"b'` holds
the key `z` with the value `1`. The first parse reads the section `s` with the
entries `(k, a"b)` and `(z, 1)`; the second reads `(k, a)` and `(z, 1)`. -/
theorem reprint_changes_name_with_newline :
    ((XConfig_Print (entry_handle (ofString "s]\nk = \x27a\"b\x27") [122] [49])).bind
        (parse 4)).map (fun r => r.1)
      = some
          { sections :=
            [{ name := [], entries := [] },
             { name := [115],
               entries := [{ key := [107], value := ofString "a\"b" },
                 { key := [122], value := [49] }] }],
            current_section := some 1, entry_count := 2, section_count := 2 } ∧
    (((XConfig_Print (entry_handle (ofString "s]\nk = \x27a\"b\x27") [122] [49])).bind
        (parse 4)).bind
        (fun r => (XConfig_Print { parser := r.2, config := r.1 }).bind (parse 4))).map
        (fun r => r.1)
      = some
          { sections :=
            [{ name := [], entries := [] },
             { name := [115],
               entries := [{ key := [107], value := [97] },
                 { key := [122], value := [49] }] }],
            current_section := some 1, entry_count := 2, section_count := 2 } := by
  decide

/-- A name that is blank before its first `]`: the section named with one space
holds the key `z` with the value `1`. The first parse reads the entry under a
section of empty name, besides the default section; `XConfig_Print` of that
configuration finds no section to print and writes before its buffer. -/
theorem reprint_fails_on_blank_name :
    ((XConfig_Print (entry_handle [32] [122] [49])).bind (parse 4)).map (fun r => r.1)
      = some
          { sections :=
            [{ name := [], entries := [] },
             { name := [], entries := [{ key := [122], value := [49] }] }],
            current_section := some 1, entry_count := 1, section_count := 2 } ∧
    ((XConfig_Print (entry_handle [32] [122] [49])).bind (parse 4)).bind
        (fun r => XConfig_Print { parser := r.2, config := r.1 })
      = none := by
  decide

theorem join_lines_broken (n : Nat) :
    join_lines false (broken_lines n) = (List.replicate n [10, 32, 97]).flatten := by
  induction n with
  | zero => rfl
  | succ n ih =>
    have e : broken_lines (n + 1) = 10 :: 97 :: broken_lines n := by
      simp [broken_lines, List.replicate_succ]
    have h1 : join_lines false (10 :: 97 :: broken_lines n)
        = 10 :: join_lines true (97 :: broken_lines n) := by
      rw [join_lines, if_pos rfl]
    have h2 : join_lines true (97 :: broken_lines n)
        = 32 :: 97 :: join_lines false (broken_lines n) := by
      rw [join_lines, if_neg (by decide), if_neg (by decide), if_neg (by decide)]
    rw [e, h1, h2, ih]
    simp [List.replicate_succ]

theorem broken_lines_mem (n : Nat) : ∀ c ∈ broken_lines n, c = 10 ∨ c = 97 := by
  intro c hc
  simp only [broken_lines, List.mem_flatten, List.mem_replicate] at hc
  obtain ⟨l, ⟨_, rfl⟩, h⟩ := hc
  simpa using h

theorem broken_lines_length (n : Nat) : (broken_lines n).length = 2 * n := by
  induction n with
  | zero => rfl
  | succ n ih =>
    have e : broken_lines (n + 1) = 10 :: 97 :: broken_lines n := by
      simp [broken_lines, List.replicate_succ]
    rw [e, List.length_cons, List.length_cons, ih]
    omega

theorem joined_lines_length (n : Nat) :
    ((List.replicate n [10, 32, 97]).flatten : CStr).length = 3 * n := by
  induction n with
  | zero => rfl
  | succ n ih =>
    have e : ((List.replicate (n + 1) [10, 32, 97]).flatten : CStr)
        = 10 :: 32 :: 97 :: (List.replicate n [10, 32, 97]).flatten := by
      simp [List.replicate_succ]
    rw [e, List.length_cons, List.length_cons, List.length_cons, ih]
    omega

theorem reprintable_broken (n : Nat) :
    reprintable (entry_handle [115] [107] (broken_lines n)).config.sections := by
  have hv := broken_lines_mem n
  refine ⟨?_, ⟨{ name := [115], entries := [{ key := [107], value := broken_lines n }] },
    by simp [entry_handle], by simp⟩⟩
  intro sec hsec hn
  simp only [entry_handle, List.mem_cons, List.mem_singleton, List.not_mem_nil,
    or_false] at hsec
  rcases hsec with h | h
  · subst h
    exact absurd rfl hn
  · subst h
    refine ⟨show ∀ c ∈ ([115] : CStr), is_line_char c = true by decide,
      show reparse_name [115] ≠ [] by decide, ?_⟩
    intro e he
    simp only [List.mem_singleton] at he
    subst he
    refine ⟨show ∀ c ∈ ([107] : CStr), is_rekey_char c = true by decide,
      show ∀ c ∈ (key_word [107]).head?, c ≠ 91 by decide, ?_, ?_⟩
    · intro c hc
      rcases hv c hc with h | h <;> subst h <;> decide
    · intro _
      refine ⟨?_, show (reparse_key [107]).isSome = true by decide⟩
      intro h34
      rcases hv 34 h34 with h | h <;> revert h <;> decide

theorem print_spec_broken_length (n : Nat) :
    (print_spec (entry_handle [115] [107] (broken_lines n)).config.sections).length
      = 2 * n + 12 := by
  simp [entry_handle, print_spec, named_sections, section_text, entry_text,
    broken_lines_length]

theorem reparse_broken (n : Nat) :
    reparse (entry_handle [115] [107] (broken_lines n)).config.sections
      = [{ name := [115],
           entries :=
             [{ key := [107], value := (List.replicate n [10, 32, 97]).flatten }] }] := by
  have hq : (broken_lines n).takeWhile (fun c => c != 34) = broken_lines n :=
    takeWhile_ne_self 34 _ (fun c hc => by
      rcases broken_lines_mem n c hc with h | h <;> subst h <;> decide)
  have hk : reparse_key [107] = some [107] := by decide
  have hn : reparse_name [115] = [115] := by decide
  have he : reparse_entry { key := [107], value := broken_lines n }
      = some { key := [107], value := (List.replicate n [10, 32, 97]).flatten } := by
    simp only [reparse_entry, hk, reparse_value, hq, join_lines_broken]
  have hs : named_sections (entry_handle [115] [107] (broken_lines n)).config.sections
      = [{ name := [115], entries := [{ key := [107], value := broken_lines n }] }] := by
    simp [entry_handle, named_sections]
  rw [reparse, hs]
  simp only [List.map_cons, List.map_nil, reparse_section, hn, List.filterMap_cons, he,
    List.filterMap_nil]

theorem print_spec_joined_length (n : Nat) :
    (print_spec
      [{ name := [115],
         entries :=
           [{ key := [107], value := (List.replicate n [10, 32, 97]).flatten }] }]).length
      = 3 * n + 12 := by
  simp [print_spec, named_sections, section_text, entry_text, joined_lines_length]
  omega

/-- The second text can be longer than the first: the section `s` holds the key
`k` with a value of 340 lines, each a newline followed by `a`. The
configuration is `reprintable` and its text has 692 bytes; the first parse reads
every line with a space before `a`, and the text of its result has 1032 bytes,
so that `XConfig_Print` writes outside its buffer. -/
theorem reprint_overflows_on_joined_lines :
    reprintable (entry_handle [115] [107] (broken_lines 340)).config.sections ∧
    (print_spec (entry_handle [115] [107] (broken_lines 340)).config.sections).length = 692 ∧
    ((XConfig_Print (entry_handle [115] [107] (broken_lines 340))).bind (parse 3)).map
        (fun r => r.1)
      = some
          { sections :=
            [{ name := [], entries := [] },
             { name := [115],
               entries :=
                 [{ key := [107], value := (List.replicate 340 [10, 32, 97]).flatten }] }],
            current_section := some 1, entry_count := 1, section_count := 2 } ∧
    ((XConfig_Print (entry_handle [115] [107] (broken_lines 340))).bind (parse 3)).bind
        (fun r => XConfig_Print { parser := r.2, config := r.1 })
      = none := by
  have hp := reprintable_broken 340
  have hsz := print_spec_broken_length 340
  have h1 := print_then_reparse (entry_handle [115] [107] (broken_lines 340)) 0 hp
    (by rw [hsz]; decide)
  have hr : 0 + load_rounds (entry_handle [115] [107] (broken_lines 340)).config.sections
      = 3 := rfl
  rw [hr] at h1
  refine ⟨hp, hsz, ?_, ?_⟩
  · rw [h1, Option.map_some', reparse_broken]
    rfl
  · rw [h1, Option.some_bind]
    apply XConfig_Print_overflow
    rw [build_config_start_sections, print_spec_default, reparse_broken,
      print_spec_joined_length]
    decide

end XConfig
